import Mathlib

/-!
RPC: wire codec, validation, function registry, request loop of the server and
operations of the client.

A shallow embedding of the C sources `rpc_io_helper.c`, `rpc_safety.c`, `array.c`,
`rpc_func_manager.c`, `rpc.c` and of the handlers of `server.c`.

Conventions of the embedding

* A C `int` is an `Int`; unsigned values are `Nat`.  Conversions between C integer
  types are written out (`to_u16`, `to_u32`, `to_u64`, `to_int`, `to_signed`); `int` has
  32 bits and a conversion to a signed type wraps modulo `2^width`.
* A byte is a `Nat` below 256; a buffer is a `List Nat`.
* A `char *` string is the list of bytes found at the pointer; the string ends at the
  first zero byte (or at the end of the list), see `cstr`.
* A pointer that may be `NULL` is an `Option`.
* A connected socket is a `Sock`: the bytes the peer has sent, the bytes written so
  far, and the results the next `read(2)` / `write(2)` calls will have.
* Messages printed to `stderr` (`print_err`, `perror`) are not part of the state.
* Allocation succeeds, except where a `Bool` argument says whether it does
  (`create_array`, `create_rpc_func`, `ensure_array_capacity`, `rpc_register`,
  `create_rpc_handle`, `rpc_init_client`).
* The outcome of `connect_to_server` is an argument of the functions that call it.
* An outer `Option` on a result means: `none` is undefined behaviour of the C program
  (`memset` with a negative length in `read_all`, and the store of `inet_pton` past the
  end of its destination in `is_valid_ip`).
-/

namespace RPC

/-! ## Constants (`rpc_safety.h`, `rpc_io_helper.h`, `array.h`) -/

@[reducible] def SUCCESS : Int := 1
@[reducible] def EMPTY : Int := 0
@[reducible] def FAILED : Int := -1
@[reducible] def TRUE : Int := 1
@[reducible] def FALSE : Int := 0

@[reducible] def UINT16_MAX : Nat := 65535
@[reducible] def UINT32_MAX : Nat := 4294967295
@[reducible] def MIN_NAME_LEN : Nat := 1
@[reducible] def MAX_NAME_LEN : Nat := UINT16_MAX
@[reducible] def MIN_NAME_CHAR : Int := 32
@[reducible] def MAX_NAME_CHAR : Int := 126
@[reducible] def MAX_DATA2_LEN : Nat := UINT32_MAX

@[reducible] def FIND_REQ : Int := 1
@[reducible] def CALL_REQ : Int := 2
@[reducible] def CLOSE_REQ : Int := 3
@[reducible] def FAILURE_STAT : Int := 1
@[reducible] def SUCCESS_STAT : Int := 2

@[reducible] def U64_SIZE : Int := 8
@[reducible] def U32_SIZE : Int := 4
@[reducible] def U16_SIZE : Int := 2

@[reducible] def INIT_SIZE : Int := 20

/-- Client states of `rpc.c`. -/
@[reducible] def OPEN : Int := 0
@[reducible] def CLOSED : Int := 1

/-! ## C integer conversions -/

/-- Conversion of an integer value to `uint16_t`. -/
def to_u16 (x : Int) : Nat := (x % 65536).toNat

/-- Conversion of an integer value to `uint32_t`. -/
def to_u32 (x : Int) : Nat := (x % 4294967296).toNat

/-- Conversion of an integer value to `uint64_t`. -/
def to_u64 (x : Int) : Nat := (x % 18446744073709551616).toNat

/-- Conversion of an integer value to a signed two's complement type of `w` bits. -/
def to_signed (w : Nat) (x : Int) : Int := (x + 2 ^ (w - 1)) % 2 ^ w - 2 ^ (w - 1)

/-- Conversion of an integer value to `int` (32 bits). -/
def to_int (x : Int) : Int := (x + 2147483648) % 4294967296 - 2147483648

/-- Value of a `char` holding the byte `b` (`char` is signed; for the comparisons of
`is_valid_name` an unsigned `char` gives the same verdict, see `name_char_ok_unsigned`). -/
def to_char (b : Nat) : Int := if b % 256 < 128 then (b % 256 : Nat) else ((b % 256 : Nat) : Int) - 256

/-! ## Bytes of an integer in memory -/

/-- The `n` low bytes of `v`, most significant first. -/
def be_bytes : Nat → Nat → List Nat
  | 0, _ => []
  | n + 1, v => (v >>> (8 * n)) % 256 :: be_bytes n v

/-- The integer whose bytes, most significant first, are `bs`. -/
def of_be (bs : List Nat) : Nat := bs.foldl (fun acc b => acc * 256 + b) 0

/-- In-memory bytes of the `n`-byte unsigned integer `v` on the host
(`le = true`: little-endian host, `le = false`: big-endian host). -/
def mem_of (le : Bool) (n : Nat) (v : Nat) : List Nat :=
  if le then (be_bytes n v).reverse else be_bytes n v

/-- The unsigned integer that the host reads from the in-memory bytes `bs`. -/
def val_of_mem (le : Bool) (bs : List Nat) : Nat :=
  if le then of_be bs.reverse else of_be bs

/-- The libc function `htons(3)`: the value whose in-memory bytes are `u`, most significant byte first. -/
def htons (le : Bool) (u : Nat) : Nat := val_of_mem le (be_bytes 2 u)

/-- The libc function `ntohs(3)`: the value read, most significant byte first, from the in-memory bytes of `v`. -/
def ntohs (le : Bool) (v : Nat) : Nat := of_be (mem_of le 2 v)

/-- The libc function `htonl(3)`. -/
def htonl (le : Bool) (u : Nat) : Nat := val_of_mem le (be_bytes 4 u)

/-- The libc function `ntohl(3)`. -/
def ntohl (le : Bool) (v : Nat) : Nat := of_be (mem_of le 4 v)

/-- Function `htonll` of `rpc_io_helper.c`: `buf[i] = hostll >> (8 * (8-i-1))` for `i = 0..7`,
then the buffer is read back as a `uint64_t`. -/
def htonll (le : Bool) (hostll : Nat) : Nat :=
  let buf := (List.range 8).map (fun i => (hostll >>> (8 * (8 - i - 1))) % 256)
  val_of_mem le buf

/-- Function `ntohll` of `rpc_io_helper.c`: the bytes of `netll` in memory are combined with
shifts and ors, `buf[0]` being the most significant. -/
def ntohll (le : Bool) (netll : Nat) : Nat :=
  let buf := mem_of le 8 netll
  (((buf.getD 0 0) <<< 56) |||
   ((buf.getD 1 0) <<< 48) |||
   ((buf.getD 2 0) <<< 40) |||
   ((buf.getD 3 0) <<< 32) |||
   ((buf.getD 4 0) <<< 24) |||
   ((buf.getD 5 0) <<< 16) |||
   ((buf.getD 6 0) <<< 8) |||
   (buf.getD 7 0)) % 18446744073709551616

/-! ## The socket -/

/-- A connected stream socket, seen from one end. -/
structure Sock where
  /-- bytes sent by the peer and not read yet; after them the peer has closed -/
  inp : List Nat
  /-- bytes written so far, oldest first -/
  out : List Nat
  /-- results of the next `read` calls: a negative entry is an error, `0` reports a
  closed stream, a positive entry `r` lets the call transfer at most `r` bytes;
  when the list is used up a call transfers all it can -/
  rd : List Int
  /-- results of the next `write` calls, read as for `rd` -/
  wr : List Int
deriving DecidableEq, Repr

/-- The system call `write(2)` on the socket with `count > 0`: returns the number of bytes taken from
`buf`, `0`, or `-1`. -/
def sys_write (s : Sock) (buf : List Nat) (count : Int) : Int × Sock :=
  match s.wr with
  | [] => (count, { s with out := s.out ++ buf.take count.toNat })
  | r :: rest =>
    if r < 0 then (-1, { s with wr := rest })
    else (min r count, { s with out := s.out ++ buf.take (min r count).toNat, wr := rest })

/-- The system call `read(2)` on the socket with `count > 0`: returns the number of bytes received (`0` when
the stream is closed), or `-1`, and the bytes. -/
def sys_read (s : Sock) (count : Int) : Int × List Nat × Sock :=
  match s.rd with
  | [] =>
    let k := min count.toNat s.inp.length
    ((k : Int), s.inp.take k, { s with inp := s.inp.drop k })
  | r :: rest =>
    if r < 0 then (-1, [], { s with rd := rest })
    else
      let k := min (min r count).toNat s.inp.length
      ((k : Int), s.inp.take k, { s with inp := s.inp.drop k, rd := rest })

/-! ## `rpc_safety.c`: return value checks -/

/-- Function `check_io_err`: `EMPTY` for 0, `FAILED` for a negative value, else the value. -/
def check_io_err (n : Int) : Int :=
  if n = 0 then EMPTY
  else if n < 0 then FAILED
  else n

/-- Function `check_sys_call`: `FAILED` for a negative value, else the value. -/
def check_sys_call (n : Int) : Int :=
  if n < 0 then FAILED else n

/-! ## `rpc_io_helper.c`: full reads and writes -/

/-- The `while` loop of `write_all`; the first argument bounds the number of
iterations (each one sends at least one byte, see `write_all_loop_fuel`). -/
def write_all_loop (buf : List Nat) (len : Int) : Nat → Sock → Int → Int → Int × Sock
  | 0, s, _, _ => (FAILED, s)
  | fuel + 1, s, total_bytes, bytes_left =>
    if total_bytes < len then
      let r := sys_write s (buf.drop total_bytes.toNat) bytes_left
      if r.1 ≤ 0 then (check_io_err r.1, r.2)
      else write_all_loop buf len fuel r.2 (total_bytes + r.1) (bytes_left - r.1)
    else if total_bytes ≠ len then (FAILED, s)
    else (total_bytes, s)

/-- Function `write_all(sockfd, buf, len)`. -/
def write_all (s : Sock) (buf : List Nat) (len : Int) : Int × Sock :=
  write_all_loop buf len (len.toNat + 1) s 0 len

/-- The `while` loop of `read_all`; `acc` holds the bytes stored in the buffer so far. -/
def read_all_loop (len : Int) : Nat → Sock → List Nat → Int → Int → Int × List Nat × Sock
  | 0, s, acc, _, _ => (FAILED, acc, s)
  | fuel + 1, s, acc, total_bytes, bytes_left =>
    if total_bytes < len then
      let r := sys_read s bytes_left
      if r.1 ≤ 0 then (check_io_err r.1, acc, r.2.2)
      else read_all_loop len fuel r.2.2 (acc ++ r.2.1) (total_bytes + r.1) (bytes_left - r.1)
    else if total_bytes ≠ len then (FAILED, acc, s)
    else (total_bytes, acc, s)

/-- Function `read_all(sockfd, buf, len)`: the result, the `len` bytes of the buffer afterwards
(cleared by `memset`, then filled from the front) and the socket.  A negative `len`
makes the `memset` length a huge `size_t`: undefined behaviour. -/
def read_all (s : Sock) (len : Int) : Option (Int × List Nat × Sock) :=
  if len < 0 then none
  else
    let r := read_all_loop len (len.toNat + 1) s [] 0 len
    some (r.1, r.2.1 ++ List.replicate (len.toNat - r.2.1.length) 0, r.2.2)

/-! ## `rpc_io_helper.c`: fixed width integers -/

/-- Function `write_u16(sockfd, u)`. -/
def write_u16 (le : Bool) (s : Sock) (u : Nat) : Int × Sock :=
  let val := htons le u
  let r := write_all s (mem_of le 2 val) U16_SIZE
  if r.1 ≤ 0 then (check_io_err r.1, r.2)
  else if r.1 ≠ U16_SIZE then (FAILED, r.2)
  else (r.1, r.2)

/-- Function `read_u16(sockfd, &u)`: the result, the value left in `*u`, the socket. -/
def read_u16 (le : Bool) (s : Sock) : Option (Int × Nat × Sock) := do
  let r ← read_all s U16_SIZE
  if r.1 ≤ 0 then pure (check_io_err r.1, val_of_mem le r.2.1, r.2.2)
  else pure (r.1, ntohs le (val_of_mem le r.2.1), r.2.2)

/-- Function `write_u32(sockfd, u)`.  The result of `check_io_err` is not returned: a
non-positive `n` falls through to the comparison with `U32_SIZE`. -/
def write_u32 (le : Bool) (s : Sock) (u : Nat) : Int × Sock :=
  let val := htonl le u
  let r := write_all s (mem_of le 4 val) U32_SIZE
  if r.1 ≠ U32_SIZE then (FAILED, r.2)
  else (r.1, r.2)

/-- Function `read_u32(sockfd, &u)`. -/
def read_u32 (le : Bool) (s : Sock) : Option (Int × Nat × Sock) := do
  let r ← read_all s U32_SIZE
  if r.1 ≤ 0 then pure (check_io_err r.1, val_of_mem le r.2.1, r.2.2)
  else pure (r.1, ntohl le (val_of_mem le r.2.1), r.2.2)

/-- Function `write_u64(sockfd, u)`. -/
def write_u64 (le : Bool) (s : Sock) (u : Nat) : Int × Sock :=
  let val := htonll le u
  let r := write_all s (mem_of le 8 val) U64_SIZE
  if r.1 ≤ 0 then (check_io_err r.1, r.2)
  else if r.1 ≠ U64_SIZE then (FAILED, r.2)
  else (r.1, r.2)

/-- Function `read_u64(sockfd, &u)`. -/
def read_u64 (le : Bool) (s : Sock) : Option (Int × Nat × Sock) := do
  let r ← read_all s U64_SIZE
  if r.1 ≤ 0 then pure (check_io_err r.1, val_of_mem le r.2.1, r.2.2)
  else pure (r.1, ntohll le (val_of_mem le r.2.1), r.2.2)

/-- Function `write_prefix(sockfd, prefix)`: the `int` prefix is sent as a `uint32_t`. -/
def write_prefix (le : Bool) (s : Sock) (pfx : Int) : Int × Sock :=
  write_u32 le s (to_u32 pfx)

/-! ## C strings -/

/-- The bytes of the C string at a pointer: those before the first zero byte. -/
def cstr (p : List Nat) : List Nat := p.takeWhile (fun b => b != 0)

/-- The libc function `strlen(3)`. -/
def strlen (p : List Nat) : Nat := (cstr p).length

/-- The libc function `strdup(3)`: a fresh copy of the string with its terminator. -/
def strdup (p : List Nat) : List Nat := cstr p ++ [0]

/-- The libc function `strcmp(3)`: zero when the strings are equal, else the
difference of the first two bytes that differ. -/
def strcmp : List Nat → List Nat → Int
  | [], [] => 0
  | [], b :: _ => if b = 0 then 0 else -(b : Int)
  | a :: _, [] => if a = 0 then 0 else (a : Int)
  | a :: as, b :: bs =>
    if a ≠ b then (a : Int) - (b : Int)
    else if a = 0 then 0
    else strcmp as bs

/-! ## `rpc_safety.c`: validity checks -/

/-- Function `is_valid_name`: the length test, then the loop over `name[0..len-1]` that
returns `FALSE` at the first character below `MIN_NAME_CHAR` or above `MAX_NAME_CHAR`. -/
def is_valid_name (name : Option (List Nat)) : Int :=
  match name with
  | none => FALSE
  | some p =>
    let len := strlen p
    if len < MIN_NAME_LEN ∨ len > MAX_NAME_LEN then FALSE
    else if (List.range len).any
        (fun i => decide (to_char (p.getD i 0) < MIN_NAME_CHAR ∨ to_char (p.getD i 0) > MAX_NAME_CHAR))
      then FALSE
    else TRUE

/-- Function `is_valid_port`. -/
def is_valid_port (port : Int) : Int :=
  if port ≥ 1 ∧ port ≤ (UINT16_MAX : Int) then 1 else 0

/-- Function `is_valid_prefix` on a `uint32_t` prefix. -/
def is_valid_prefix (pfx : Nat) : Int :=
  if (pfx : Int) ≥ FIND_REQ ∧ (pfx : Int) ≤ CLOSE_REQ then 1 else 0

/-- Function `is_valid_data2_len` on a `size_t` length. -/
def is_valid_data2_len (data2_len : Nat) : Int :=
  if data2_len ≥ 0 ∧ data2_len ≤ MAX_DATA2_LEN then 1 else 0

/-- Modelled from the spec: the header `rpc.h`, which declares `rpc_data`, is missing.
The payload has the scalar `data1` (a signed integer; its width in bits is the
parameter `w` of `read_rpc_data`, 64 in the spec), the buffer length `data2_len`
(a `size_t`, which may exceed 32 bits) and the buffer pointer `data2` (`none` is `NULL`;
otherwise the bytes found at the pointer). -/
structure rpc_data where
  data1 : Int
  data2_len : Nat
  data2 : Option (List Nat)
deriving DecidableEq, Repr

/-- Function `is_valid_data`. -/
def is_valid_data (data : Option rpc_data) : Int :=
  match data with
  | none => FALSE
  | some d =>
    if is_valid_data2_len d.data2_len = FALSE then FALSE
    else if d.data2_len = 0 ∧ d.data2 ≠ none then FALSE
    else if d.data2_len ≠ 0 ∧ d.data2 = none then FALSE
    else TRUE

/-- Function `check_port`. -/
def check_port (port : Int) : Int :=
  if is_valid_port port = FALSE then FAILED else SUCCESS

/-- Function `check_name`. -/
def check_name (name : Option (List Nat)) : Int :=
  if is_valid_name name = FALSE then FAILED else SUCCESS

/-- Function `check_prefix`. -/
def check_prefix (pfx : Nat) : Int :=
  if is_valid_prefix pfx = FALSE then FAILED else SUCCESS

/-- Function `check_rpc_data`. -/
def check_rpc_data (data : Option rpc_data) : Int :=
  if is_valid_data data = FALSE then FAILED else SUCCESS

/-! ## `rpc_io_helper.c`: prefixes and names -/

/-- Function `read_prefix(sockfd)`; its result type is `uint32_t`. -/
def read_prefix (le : Bool) (s : Sock) : Option (Nat × Sock) := do
  let r ← read_u32 le s
  if r.1 ≤ 0 then pure (to_u32 r.1, r.2.2)
  else if check_prefix r.2.1 = FAILED then pure (to_u32 FAILED, r.2.2)
  else pure (r.2.1, r.2.2)

/-- Function `write_name(sockfd, name)`. -/
def write_name (le : Bool) (s : Sock) (name : Option (List Nat)) : Int × Sock :=
  if check_name name = FAILED then (FAILED, s)
  else
    let p := name.getD []
    let name_len := to_u16 (strlen p)
    let r := write_u16 le s name_len
    if r.1 ≤ 0 then r
    else
      let r2 := write_all r.2 p name_len
      if r2.1 ≤ 0 then r2
      else r2

/-- Function `read_name(sockfd)`: the buffer of `name_len + 1` bytes with its terminator,
or `NULL` (allocation is taken to succeed). -/
def read_name (le : Bool) (s : Sock) : Option (Option (List Nat) × Sock) := do
  let r ← read_u16 le s
  if r.1 ≤ 0 then pure (none, r.2.2)
  else
    let name_len := r.2.1
    let r2 ← read_all r.2.2 name_len
    if r2.1 ≤ 0 then pure (none, r2.2.2)
    else pure (some (r2.2.1 ++ [0]), r2.2.2)

/-! ## `rpc.c`: payloads on the wire -/

/-- Function `write_rpc_data(sockfd, data)`. -/
def write_rpc_data (le : Bool) (s : Sock) (data : Option rpc_data) : Int × Sock :=
  if check_rpc_data data = FAILED then (FAILED, s)
  else
    match data with
    | none => (FAILED, s)
    | some d =>
      let r := write_u64 le s (to_u64 d.data1)
      if r.1 ≤ 0 then (check_io_err r.1, r.2)
      else
        let r2 := write_u32 le r.2 (to_u32 d.data2_len)
        if r2.1 ≤ 0 then (check_io_err r2.1, r2.2)
        else if d.data2_len > 0 then
          let r3 := write_all r2.2 (d.data2.getD []) (to_int d.data2_len)
          if r3.1 ≤ 0 then (check_io_err r3.1, r3.2)
          else (SUCCESS, r3.2)
        else (SUCCESS, r2.2)

/-- Function `read_rpc_data(sockfd)`; `w` is the width of the field `data1` (allocation
is taken to succeed). -/
def read_rpc_data (le : Bool) (w : Nat) (s : Sock) : Option (Option rpc_data × Sock) := do
  let r ← read_u64 le s
  if r.1 ≤ 0 then pure (none, r.2.2)
  else
    let data1 := r.2.1
    let r2 ← read_u32 le r.2.2
    if r2.1 ≤ 0 then pure (none, r2.2.2)
    else
      let data2_len := r2.2.1
      if data2_len > 0 then
        let r3 ← read_all r2.2.2 (to_int data2_len)
        if r3.1 ≤ 0 then pure (none, r3.2.2)
        else
          let new_data : rpc_data :=
            { data1 := to_signed w data1, data2_len := data2_len, data2 := some r3.2.1 }
          if check_rpc_data (some new_data) = FAILED then pure (none, r3.2.2)
          else pure (some new_data, r3.2.2)
      else
        let new_data : rpc_data :=
          { data1 := to_signed w data1, data2_len := data2_len, data2 := none }
        if check_rpc_data (some new_data) = FAILED then pure (none, r2.2.2)
        else pure (some new_data, r2.2.2)

/-! ## `array.c` and `rpc_func_manager.c`: the registry -/

/-- Modelled from the spec: the type `rpc_handler` is declared in the missing `rpc.h`; a
handler maps a payload to a payload or to a failure signal (`NULL`). -/
abbrev rpc_handler := rpc_data → Option rpc_data

/-- The `rpc_func` of `rpc_func_manager.h`: the stored name (a copy made by `strdup`)
and the handler. -/
structure rpc_func where
  name : List Nat
  handler : rpc_handler

/-- The `struct array` of `array.c`, holding `rpc_func` elements: `A` lists the occupied
positions `A[0..n-1]` in order, so `n` is its length; positions from `n` to
`capacity - 1` are never read.  The element destructor is not modelled. -/
structure array_t where
  A : List rpc_func
  capacity : Int
  cmp : rpc_func → List Nat → Int

/-- The field `n` of the array: the number of occupied positions. -/
def array_t.n (arr : array_t) : Int := (arr.A.length : Int)

/-- Function `create_array(cmp, free_elem)`; `mem_ok` tells whether the allocations succeed. -/
def create_array (cmp : rpc_func → List Nat → Int) (mem_ok : Bool) : Option array_t :=
  if !mem_ok then none
  else some { A := [], capacity := INIT_SIZE, cmp := cmp }

/-- Function `ensure_array_capacity(arr)`; `realloc_ok` tells whether `realloc` succeeds. -/
def ensure_array_capacity (arr : Option array_t) (realloc_ok : Bool) : Int × Option array_t :=
  match arr with
  | none => (FAILED, none)
  | some a =>
    if a.n < a.capacity then (SUCCESS, some a)
    else
      let new_capacity := a.capacity * 2
      if !realloc_ok then (FAILED, some a)
      else (SUCCESS, some { a with capacity := new_capacity })

/-- Function `array_append(arr, value)`: `arr->A[(arr->n)++] = value`. -/
def array_append (arr : Option array_t) (value : Option rpc_func) (realloc_ok : Bool) :
    Int × Option array_t :=
  match arr, value with
  | some _, some v =>
    let r := ensure_array_capacity arr realloc_ok
    if r.1 = FAILED then (FAILED, r.2)
    else (SUCCESS, r.2.map (fun a => { a with A := a.A ++ [v] }))
  | _, _ => (FAILED, arr)

/-- The `for` loop of `search_array` over the occupied positions, from index `i`. -/
def search_array_loop (cmp : rpc_func → List Nat → Int) (key : List Nat) :
    List rpc_func → Int → Int
  | [], _ => FAILED
  | f :: rest, i => if cmp f key = 0 then i else search_array_loop cmp key rest (i + 1)

/-- Function `search_array(arr, key)`. -/
def search_array (arr : Option array_t) (key : Option (List Nat)) : Int :=
  match arr, key with
  | some a, some k => search_array_loop a.cmp k a.A 0
  | _, _ => FAILED

/-- Function `is_valid_idx(arr, idx)`. -/
def is_valid_idx (arr : Option array_t) (idx : Int) : Int :=
  match arr with
  | none => FALSE
  | some a => if idx ≥ 0 ∧ idx < a.n then TRUE else FALSE

/-- Function `get_elem_at(arr, idx)`. -/
def get_elem_at (arr : Option array_t) (idx : Int) : Option rpc_func :=
  match arr with
  | none => none
  | some a =>
    if is_valid_idx arr idx = FALSE then none
    else a.A[idx.toNat]?

/-- Function `create_rpc_func(name, handler)`; `malloc_ok` tells whether `malloc` succeeds
(`strdup` is taken to succeed). -/
def create_rpc_func (name : Option (List Nat)) (handler : Option rpc_handler)
    (malloc_ok : Bool) : Option rpc_func :=
  match name, handler with
  | some p, some h =>
    if check_name name = FAILED then none
    else if !malloc_ok then none
    else some { name := strdup p, handler := h }
  | _, _ => none

/-- Function `cmp_func_name(func, s)`. -/
def cmp_func_name (func : rpc_func) (s : List Nat) : Int :=
  strcmp func.name s

/-- Function `replace_func(functions, idx, new_handler)`. -/
def replace_func (functions : Option array_t) (idx : Int) (new_handler : Option rpc_handler) :
    Int × Option array_t :=
  match functions, new_handler with
  | some a, some h =>
    if is_valid_idx functions idx = FALSE then (FAILED, functions)
    else
      match get_elem_at functions idx with
      | none => (FAILED, functions)
      | some func =>
        (SUCCESS, some { a with A := a.A.set idx.toNat { func with handler := h } })
  | _, _ => (FAILED, functions)

/-! ## `rpc.c`: server side -/

/-- The `struct rpc_server` of `rpc.c`. -/
structure rpc_server where
  listening_sd : Int
  functions : Option array_t

/-- The `struct rpc_handle` of `rpc.c`. -/
structure rpc_handle where
  idx : Nat
deriving DecidableEq, Repr

/-- Function `rpc_register(srv, name, handler)`; the two flags tell whether the `malloc` of
`create_rpc_func` and the `realloc` of `ensure_array_capacity` succeed. -/
def rpc_register (srv : Option rpc_server) (name : Option (List Nat))
    (handler : Option rpc_handler) (malloc_ok realloc_ok : Bool) : Int × Option rpc_server :=
  match srv with
  | none => (FAILED, srv)
  | some sv =>
    if sv.functions.isNone ∨ name.isNone ∨ handler.isNone then (FAILED, srv)
    else if check_name name = FAILED then (FAILED, srv)
    else
      let func_idx := search_array sv.functions name
      if func_idx ≠ FAILED then
        let r := replace_func sv.functions func_idx handler
        (r.1, some { sv with functions := r.2 })
      else
        let func := create_rpc_func name handler malloc_ok
        if func.isNone then (FAILED, srv)
        else
          let r := array_append sv.functions func realloc_ok
          if r.1 = FAILED then (FAILED, some { sv with functions := r.2 })
          else (SUCCESS, some { sv with functions := r.2 })

/-- Function `handle_find(srv, sockfd)`. -/
def handle_find (le : Bool) (srv : rpc_server) (s : Sock) : Option (Int × Sock) := do
  let r ← read_name le s
  let name := r.1
  if check_name name = FAILED then pure (FAILED, r.2)
  else
    let idx := search_array srv.functions name
    if idx = FAILED then
      let n := write_prefix le r.2 FAILURE_STAT
      if n.1 ≤ 0 then pure n
      else pure (SUCCESS, n.2)
    else
      let n := write_prefix le r.2 SUCCESS_STAT
      if n.1 ≤ 0 then pure n
      else
        let n2 := write_u32 le n.2 (to_u32 idx)
        if n2.1 ≤ 0 then pure n2
        else pure (SUCCESS, n2.2)

/-! ## `rpc.c`: client side -/

/-- The `struct rpc_client` of `rpc.c`; `sockfd` is the connection behind the descriptor. -/
structure rpc_client where
  addr : List Nat
  port : List Nat
  sockfd : Sock
  state : Int
deriving DecidableEq, Repr

/-- Function `rpc_call(cl, h, payload)`: the result and the client afterwards. -/
def rpc_call (le : Bool) (w : Nat) (cl : Option rpc_client) (h : Option rpc_handle)
    (payload : Option rpc_data) : Option (Option rpc_data × Option rpc_client) :=
  match cl, h with
  | some c, some hd =>
    if check_rpc_data payload = FAILED then some (none, cl)
    else
      let n := write_prefix le c.sockfd CALL_REQ
      if n.1 ≤ 0 then some (none, some { c with sockfd := n.2 })
      else
        let n2 := write_u32 le n.2 hd.idx
        if n2.1 ≤ 0 then some (none, some { c with sockfd := n2.2 })
        else
          let n3 := write_rpc_data le n2.2 payload
          if n3.1 ≤ 0 then some (none, some { c with sockfd := n3.2 })
          else do
            let p ← read_prefix le n3.2
            let pfx := to_int p.1
            if pfx = FAILURE_STAT then pure (none, some { c with sockfd := p.2 })
            else if check_prefix (to_u32 pfx) = FAILED then
              pure (none, some { c with sockfd := p.2 })
            else
              let d ← read_rpc_data le w p.2
              pure (d.1, some { c with sockfd := d.2 })
  | _, _ => some (none, cl)

/-! ## Specification predicates -/

/-- Outcome `r` of an operation that sends the bytes `bs` on socket `s` and returns `n`
when all of them were sent: the read side is untouched, a prefix of `bs` has been
appended to the output, all of `bs` when the result is positive, and the result is
`n` when no scripted `write` result is a failure. -/
def Sent (s : Sock) (bs : List Nat) (n : Int) (r : Int × Sock) : Prop :=
  r.2.inp = s.inp ∧ r.2.rd = s.rd ∧ r.2.wr <:+ s.wr ∧
  (∃ k : Nat, k ≤ bs.length ∧ r.2.out = s.out ++ bs.take k) ∧
  (0 < r.1 → r.1 = n ∧ r.2.out = s.out ++ bs) ∧
  ((∀ x ∈ s.wr, 0 < x) → r.1 = n)

/-- The socket `t` is the socket `s` after the bytes `bs` at the front of its input
were consumed: the write side is untouched and the rest of the read script has no
failure when the one of `s` has none. -/
def Consumed (s : Sock) (bs : List Nat) (t : Sock) : Prop :=
  s.inp = bs ++ t.inp ∧ t.out = s.out ∧ t.wr = s.wr ∧ t.rd <:+ s.rd

/-- A valid procedure name of the spec: 1 to 65535 bytes, each in `[32, 126]`. -/
def valid_name (n : List Nat) : Prop :=
  1 ≤ n.length ∧ n.length ≤ 65535 ∧ ∀ b ∈ n, 32 ≤ b ∧ b ≤ 126

instance (n : List Nat) : Decidable (valid_name n) := by
  unfold valid_name
  infer_instance

/-- A valid payload of the spec: `data2_len` at most `2^32 - 1`, and `data2` absent
exactly when `data2_len` is 0. -/
def valid_data (d : rpc_data) : Prop :=
  d.data2_len ≤ 4294967295 ∧ (d.data2 = none ↔ d.data2_len = 0)

instance (d : rpc_data) : Decidable (valid_data d) := by
  unfold valid_data
  infer_instance

/-- A name pointer that is not `NULL` and whose C string is a valid name. -/
def valid_cname : Option (List Nat) → Prop
  | none => False
  | some p => valid_name (cstr p)

instance (name : Option (List Nat)) : Decidable (valid_cname name) := by
  cases name with
  | none => exact isFalse (fun h => h)
  | some p => exact inferInstanceAs (Decidable (valid_name (cstr p)))

/-- A payload pointer that is not `NULL` and whose payload satisfies the invariant. -/
def valid_payload : Option rpc_data → Prop
  | none => False
  | some d => valid_data d

instance (data : Option rpc_data) : Decidable (valid_payload data) := by
  cases data with
  | none => exact isFalse (fun h => h)
  | some d => exact inferInstanceAs (Decidable (valid_data d))

/-! ## `rpc.c`: the registry of a server and the CALL request -/

/-- The registry part of `rpc_init_server`: `create_array(cmp_func_name, free_rpc_func)`, the
allocations succeeding. -/
def init_functions : Option array_t := create_array cmp_func_name true

/-- The arguments of one call of `rpc_register`, with the outcome of its allocations. -/
structure reg_call where
  name : Option (List Nat)
  handler : Option rpc_handler
  malloc_ok : Bool
  realloc_ok : Bool

/-- The server after a sequence of `rpc_register` calls (their results are not used). -/
def rpc_register_seq (srv : Option rpc_server) : List reg_call → Option rpc_server
  | [] => srv
  | c :: cs =>
    rpc_register_seq (rpc_register srv c.name c.handler c.malloc_ok c.realloc_ok).2 cs

/-- The distinct elements of a list in the order of their first occurrence, after those
of `acc`. -/
def first_occurrences (acc : List (List Nat)) : List (List Nat) → List (List Nat)
  | [] => acc
  | n :: ns => first_occurrences (if n ∈ acc then acc else acc ++ [n]) ns

/-- The names stored in an array, as C strings, in index order. -/
def array_t.names (arr : array_t) : List (List Nat) := arr.A.map (fun f => cstr f.name)

/-- Function `handle_call(srv, sockfd)`; `w` is the width of the field `data1`.  The third
component of the result lists the handler invocations made: the index converted to `int`
and the argument. -/
def handle_call (le : Bool) (w : Nat) (srv : rpc_server) (s : Sock) :
    Option (Int × Sock × List (Int × rpc_data)) := do
  let r ← read_u32 le s
  if r.1 ≤ 0 then pure (r.1, r.2.2, [])
  else
    let idx := r.2.1
    let inp ← read_rpc_data le w r.2.2
    let func := get_elem_at srv.functions (to_int idx)
    match inp.1, func with
    | some input, some f =>
      let result := f.handler input
      if check_rpc_data result = FAILED then
        let n := write_prefix le inp.2 FAILURE_STAT
        pure (SUCCESS, n.2, [(to_int idx, input)])
      else
        let n := write_prefix le inp.2 SUCCESS_STAT
        if n.1 ≤ 0 then pure (n.1, n.2, [(to_int idx, input)])
        else
          let n2 := write_rpc_data le n.2 result
          if n2.1 ≤ 0 then pure (n2.1, n2.2, [(to_int idx, input)])
          else pure (SUCCESS, n2.2, [(to_int idx, input)])
    | _, _ =>
      let n := write_prefix le inp.2 FAILURE_STAT
      pure (SUCCESS, n.2, [])

/-- The names, as C strings, of the calls of a sequence that returned `SUCCESS`, in the
order of the calls. -/
def registered_names (srv : Option rpc_server) : List reg_call → List (List Nat)
  | [] => []
  | c :: cs =>
    (if (rpc_register srv c.name c.handler c.malloc_ok c.realloc_ok).1 = SUCCESS
      then [cstr (c.name.getD [])] else []) ++
    registered_names (rpc_register srv c.name c.handler c.malloc_ok c.realloc_ok).2 cs

/-- The socket `t` is the socket `s` after some reads: the write side is untouched, the
read script is a rest of the one of `s`, and the input is a rest of the input of `s`. -/
def ReadFrame (s t : Sock) : Prop :=
  t.out = s.out ∧ t.wr = s.wr ∧ t.rd <:+ s.rd ∧ ∃ k : Nat, t.inp = s.inp.drop k

/-- The wire layout of a payload in the spec: `data1` as a `u64`, `data2_len` as a `u32`
(both most significant byte first), then the `data2_len` bytes of `data2`. -/
def wire_rpc_data (d : rpc_data) : List Nat :=
  be_bytes 8 (to_u64 d.data1) ++ be_bytes 4 d.data2_len ++ (d.data2.getD []).take d.data2_len

/-! ## `rpc.c`: the requests of a connection -/

/-- Function `handle_request(srv, sockfd)`: the result, the socket, the handler
invocations made, and the server structure as the function leaves it (no statement of
`handle_request`, `handle_find` or `handle_call` assigns through `srv`, and
`search_array` and `get_elem_at` only read the array).  The `uint32_t` result of
`read_prefix` is stored in an `int`. -/
def handle_request (le : Bool) (w : Nat) (srv : rpc_server) (s : Sock) :
    Option (Int × Sock × List (Int × rpc_data) × rpc_server) := do
  let p ← read_prefix le s
  let pfx := to_int p.1
  if check_prefix (to_u32 pfx) = FAILED then pure (FAILED, p.2, [], srv)
  else if pfx = FIND_REQ then
    let r ← handle_find le srv p.2
    pure (r.1, r.2, [], srv)
  else if pfx = CALL_REQ then
    let r ← handle_call le w srv p.2
    pure (r.1, r.2.1, r.2.2, srv)
  else if pfx = CLOSE_REQ then pure (EMPTY, p.2, [], srv)
  else pure (FAILED, p.2, [], srv)

/-- The loop `do res = handle_request(srv, newsockfd); while (res > 0);` of the child
process in `rpc_serve_all`; the first argument bounds the number of requests.  The
result is the last `res`, the socket, the handler invocations made and the server; a
positive `res` means that the bound was reached before the loop ended. -/
def serve_loop (le : Bool) (w : Nat) :
    Nat → rpc_server → Sock → Option (Int × Sock × List (Int × rpc_data) × rpc_server)
  | 0, srv, s => some (SUCCESS, s, [], srv)
  | fuel + 1, srv, s => do
    let r ← handle_request le w srv s
    if r.1 > 0 then
      let r2 ← serve_loop le w fuel r.2.2.2 r.2.1
      pure (r2.1, r2.2.1, r.2.2.1 ++ r2.2.2.1, r2.2.2.2)
    else pure r

/-- The child process of `rpc_serve_all` on an accepted connection: every request
that returns a positive result reads at least the four bytes of its prefix, so the
length of the input bounds the number of requests (see `serve_loop_fuel`). -/
def serve_connection (le : Bool) (w : Nat) (srv : rpc_server) (s : Sock) :
    Option (Int × Sock × List (Int × rpc_data) × rpc_server) :=
  serve_loop le w (s.inp.length + 1) srv s

/-! ## `rpc.c`: the operations of a client -/

/-- Function `create_rpc_handle(idx)`; `malloc_ok` tells whether `malloc` succeeds. -/
def create_rpc_handle (idx : Nat) (malloc_ok : Bool) : Option rpc_handle :=
  if !malloc_ok then none else some { idx := idx }

/-- Function `init_connection(cl)`.  The argument `conn` is what
`connect_to_server(cl->addr, cl->port)` returns if it is called: `none` for `FAILED`,
else the connected socket.  The result is the value returned, the client afterwards and
the number of calls of `connect_to_server` made. -/
def init_connection (cl : rpc_client) (conn : Option Sock) : Int × rpc_client × Nat :=
  if cl.state = OPEN then (SUCCESS, cl, 0)
  else
    match conn with
    | none => (FAILED, cl, 1)
    | some sockfd => (SUCCESS, { cl with sockfd := sockfd, state := OPEN }, 1)

/-- Function `rpc_find(cl, name)`: the handle, the client afterwards and the number of
calls of `connect_to_server` made.  The value `init_connection` returns is not used. -/
def rpc_find (le : Bool) (cl : Option rpc_client) (name : Option (List Nat))
    (conn : Option Sock) (malloc_ok : Bool) :
    Option (Option rpc_handle × Option rpc_client × Nat) :=
  match cl with
  | none => some (none, none, 0)
  | some c0 =>
    if name.isNone ∨ check_name name = FAILED then some (none, cl, 0)
    else
      let ic := init_connection c0 conn
      let c := ic.2.1
      let n := write_prefix le c.sockfd FIND_REQ
      if n.1 ≤ 0 then some (none, some { c with sockfd := n.2 }, ic.2.2)
      else
        let n2 := write_name le n.2 name
        if n2.1 ≤ 0 then some (none, some { c with sockfd := n2.2 }, ic.2.2)
        else do
          let p ← read_prefix le n2.2
          let pfx := to_int p.1
          if pfx = FAILURE_STAT then pure (none, some { c with sockfd := p.2 }, ic.2.2)
          else if check_prefix (to_u32 pfx) = FAILED then
            pure (none, some { c with sockfd := p.2 }, ic.2.2)
          else
            let r ← read_u32 le p.2
            if r.1 ≤ 0 then pure (none, some { c with sockfd := r.2.2 }, ic.2.2)
            else
              pure (create_rpc_handle r.2.1 malloc_ok, some { c with sockfd := r.2.2 }, ic.2.2)

/-- Function `rpc_close_client(cl)`: the client structure as it is when `free(cl)` is
reached, and the socket given to `close(2)`, if any. -/
def rpc_close_client (le : Bool) (cl : Option rpc_client) : Option rpc_client × Option Sock :=
  match cl with
  | none => (none, none)
  | some c =>
    if c.state = OPEN then
      let n := write_prefix le c.sockfd CLOSE_REQ
      (some { c with sockfd := n.2, state := CLOSED }, some n.2)
    else (some c, none)

/-- Function `add2_i8` of `server.c`: `data1` is converted to a `char`, the first byte
of `data2` is read as a `char`, and their sum as `int` is the `data1` of the result. -/
def add2_i8 (inp : rpc_data) : Option rpc_data :=
  if inp.data2 = none ∨ inp.data2_len ≠ 1 then none
  else
    let n1 := to_signed 8 inp.data1
    let n2 := to_char ((inp.data2.getD []).getD 0 0)
    let res := n1 + n2
    some { data1 := res, data2_len := 0, data2 := none }

/-- Function `subtract_i8` of `server.c`. -/
def subtract_i8 (inp : rpc_data) : Option rpc_data :=
  if inp.data2 = none ∨ inp.data2_len ≠ 1 then none
  else
    let n1 := to_signed 8 inp.data1
    let n2 := to_char ((inp.data2.getD []).getD 0 0)
    let res := n1 - n2
    some { data1 := res, data2_len := 0, data2 := none }

/-- The registrations of `main` in `server.c` on the server of `rpc_init_server`, the
allocations succeeding: `"add2"` with `add2_i8`, then `"subtract2"` with `subtract_i8`. -/
def server_main (sd : Int) : Option rpc_server :=
  rpc_register_seq (some ⟨sd, init_functions⟩)
    [⟨some [97, 100, 100, 50, 0], some add2_i8, true, true⟩,
     ⟨some [115, 117, 98, 116, 114, 97, 99, 116, 50, 0], some subtract_i8, true, true⟩]

/-- The socket `t` is the socket `s` later on the same connection: the output of `s` is
the beginning of the output of `t`, and the input of `t` is a rest of the input of `s`. -/
def Continues (s t : Sock) : Prop :=
  s.out <+: t.out ∧ ∃ k : Nat, t.inp = s.inp.drop k

/-! ## `rpc.c`: the creation and the closing of a client -/

/-- Function `is_valid_ip(addr)`; `pton_ok` tells whether `inet_pton(AF_INET6, addr, ..)`
accepts the string.  When it does, it stores the 16 bytes of a `struct in6_addr` at
`&sa.sin_addr`, which is the 4-byte field at offset 4 of the local `struct sockaddr_in`
of 16 bytes: 4 bytes are written past the end of the object, which is undefined
behaviour (no result).  A string that is not accepted is not stored. -/
def is_valid_ip (addr : Option (List Nat)) (pton_ok : Bool) : Option Int :=
  match addr with
  | none => some FALSE
  | some a => if a.getD 0 0 = 0 then some FALSE else if pton_ok then none else some FALSE

/-- Function `check_ip`. -/
def check_ip (addr : Option (List Nat)) (pton_ok : Bool) : Option Int := do
  let v ← is_valid_ip addr pton_ok
  if v = FALSE then pure FAILED else pure SUCCESS

/-- Function `rpc_init_client(addr, port)`; `malloc_ok` tells whether `malloc` succeeds.
The port is stored as its decimal digits.  The field `sockfd` is not assigned: `junk` is
what its indeterminate value denotes as a descriptor.  The outer `Option` is the one of
`check_ip`, which is called when `addr` is not `NULL`. -/
def rpc_init_client (addr : Option (List Nat)) (port : Int) (pton_ok malloc_ok : Bool)
    (junk : Sock) : Option (Option rpc_client) :=
  if addr.isNone then some none
  else do
    let c ← check_ip addr pton_ok
    if c = FAILED ∨ check_port port = FAILED then pure none
    else if !malloc_ok then pure none
    else pure (some { addr := strdup (addr.getD []),
                      port := (Nat.toDigits 10 port.toNat).map Char.toNat ++ [0],
                      sockfd := junk, state := CLOSED })

/-- The values that the successive calls of `read` in the loop of `read_all` return, in
order (the loop of `read_all_loop`, keeping only these values). -/
def read_all_calls (len : Int) : Nat → Sock → Int → Int → List Int
  | 0, _, _, _ => []
  | fuel + 1, s, total_bytes, bytes_left =>
    if total_bytes < len then
      let r := sys_read s bytes_left
      if r.1 ≤ 0 then [r.1]
      else r.1 :: read_all_calls len fuel r.2.2 (total_bytes + r.1) (bytes_left - r.1)
    else []

/-- Outcome `res` of reading `len` bytes from `s`, in terms of the values the calls of
`read` return: every call before the last returns a positive count; a last call that
returns 0 gives `EMPTY`, a negative one gives `FAILED`, and a positive one completes the
`len` bytes and gives `len`; a positive `res` arises in that last case only. -/
def ReadOutcome (s : Sock) (len : Int) (res : Int) : Prop :=
  ∃ pre last, read_all_calls len (len.toNat + 1) s 0 len = pre ++ [last] ∧
    (∀ x ∈ pre, 0 < x) ∧
    (last = 0 → res = EMPTY) ∧ (last < 0 → res = FAILED) ∧
    (0 < last → res = len ∧ pre.sum + last = len) ∧
    (0 < res → 0 < last)

/-- The handler passed by the last call of a sequence of `rpc_register` calls that
returned `SUCCESS` with the C string `n` as name; `cur` when there is no such call. -/
def last_registered (srv : Option rpc_server) :
    List reg_call → List Nat → Option rpc_handler → Option rpc_handler
  | [], _, cur => cur
  | c :: cs, n, cur =>
    last_registered (rpc_register srv c.name c.handler c.malloc_ok c.realloc_ok).2 cs n
      (if (rpc_register srv c.name c.handler c.malloc_ok c.realloc_ok).1 = SUCCESS ∧
          cstr (c.name.getD []) = n then c.handler else cur)

/-- Three registrations on one server: `"a"` with `add2_i8`, `"b"` with `subtract_i8`,
then `"a"` again with `subtract_i8`. -/
def sample_calls : List reg_call :=
  [⟨some [97, 0], some add2_i8, true, true⟩, ⟨some [98, 0], some subtract_i8, true, true⟩,
   ⟨some [97, 0], some subtract_i8, true, true⟩]

/-! ## Bytes of an integer -/

theorem be_bytes_length (n v : Nat) : (be_bytes n v).length = n := by
  induction n with
  | zero => rfl
  | succ n ih => simp [be_bytes, ih]

theorem be_bytes_lt (n v : Nat) : ∀ b ∈ be_bytes n v, b < 256 := by
  induction n with
  | zero => intro b hb; simp [be_bytes] at hb
  | succ n ih =>
    intro b hb
    simp only [be_bytes, List.mem_cons] at hb
    rcases hb with h | h
    · rw [h]; exact Nat.mod_lt _ (by decide)
    · exact ih b h

theorem foldl_be (bs : List Nat) (acc : Nat) :
    bs.foldl (fun a b => a * 256 + b) acc = acc * 256 ^ bs.length + of_be bs := by
  induction bs generalizing acc with
  | nil => simp [of_be]
  | cons b bs ih =>
    simp only [List.foldl_cons, List.length_cons, of_be]
    rw [ih (acc * 256 + b), ih (0 * 256 + b)]
    simp only [of_be]
    ring

theorem of_be_cons (b : Nat) (bs : List Nat) :
    of_be (b :: bs) = b * 256 ^ bs.length + of_be bs := by
  have h := foldl_be bs (0 * 256 + b)
  simp only [of_be, List.foldl_cons] at h ⊢
  rw [h]; simp

theorem of_be_append_single (bs : List Nat) (b : Nat) :
    of_be (bs ++ [b]) = of_be bs * 256 + b := by
  simp [of_be, List.foldl_append]

theorem of_be_lt (bs : List Nat) (hb : ∀ b ∈ bs, b < 256) : of_be bs < 256 ^ bs.length := by
  induction bs with
  | nil => simp [of_be]
  | cons b bs ih =>
    rw [of_be_cons, List.length_cons, pow_succ]
    have h1 : b < 256 := hb b (List.mem_cons_self _ _)
    have h2 := ih (fun x hx => hb x (List.mem_cons_of_mem _ hx))
    nlinarith

theorem of_be_be_bytes (n v : Nat) : of_be (be_bytes n v) = v % 256 ^ n := by
  induction n with
  | zero => simp [be_bytes, of_be, Nat.mod_one]
  | succ n ih =>
    rw [be_bytes, of_be_cons, ih, be_bytes_length, Nat.shiftRight_eq_div_pow]
    have h8 : (2:Nat) ^ (8 * n) = 256 ^ n := by
      rw [pow_mul]; norm_num
    rw [h8, pow_succ, Nat.mod_mul, Nat.add_comm, Nat.mul_comm]

theorem be_bytes_add_mul (a x : Nat) : ∀ n m : Nat, n ≤ m →
    be_bytes n (a * 256 ^ m + x) = be_bytes n x := by
  intro n
  induction n with
  | zero => intro m _; rfl
  | succ n ih =>
    intro m hm
    simp only [be_bytes]
    rw [ih m (Nat.le_of_succ_le hm)]
    congr 1
    have h8 : (2:Nat) ^ (8 * n) = 256 ^ n := by
      rw [pow_mul]; norm_num
    rw [Nat.shiftRight_eq_div_pow, Nat.shiftRight_eq_div_pow, h8]
    obtain ⟨d, rfl⟩ : ∃ d, m = n + 1 + d := ⟨m - (n + 1), by omega⟩
    have hp : a * 256 ^ (n + 1 + d) = 256 ^ n * (256 * (a * 256 ^ d)) := by
      rw [pow_add, pow_succ]; ring
    rw [hp, Nat.mul_add_div (by positivity), Nat.mul_add_mod]

theorem be_bytes_of_be (bs : List Nat) (hb : ∀ b ∈ bs, b < 256) :
    be_bytes bs.length (of_be bs) = bs := by
  induction bs with
  | nil => rfl
  | cons b bs ih =>
    have h1 : b < 256 := hb b (List.mem_cons_self _ _)
    have hb2 : ∀ x ∈ bs, x < 256 := fun x hx => hb x (List.mem_cons_of_mem _ hx)
    have h2 := of_be_lt bs hb2
    rw [List.length_cons, be_bytes, of_be_cons, be_bytes_add_mul b (of_be bs) _ _ (le_refl _),
      ih hb2]
    congr 1
    have h8 : (2:Nat) ^ (8 * bs.length) = 256 ^ bs.length := by
      rw [pow_mul]; norm_num
    rw [Nat.shiftRight_eq_div_pow, h8, Nat.mul_comm, Nat.mul_add_div (by positivity),
      Nat.div_eq_of_lt h2, Nat.add_zero, Nat.mod_eq_of_lt h1]

theorem mem_of_val_of_mem (le : Bool) (bs : List Nat) (hb : ∀ b ∈ bs, b < 256) :
    mem_of le bs.length (val_of_mem le bs) = bs := by
  cases le
  · simp only [mem_of, val_of_mem, Bool.false_eq_true, if_false]
    exact be_bytes_of_be bs hb
  · simp only [mem_of, val_of_mem, if_true]
    have h := be_bytes_of_be bs.reverse (by simpa using hb)
    rw [List.length_reverse] at h
    rw [h, List.reverse_reverse]

theorem val_of_mem_mem_of (le : Bool) (n v : Nat) :
    val_of_mem le (mem_of le n v) = v % 256 ^ n := by
  cases le
  · simp only [mem_of, val_of_mem, Bool.false_eq_true, if_false]
    exact of_be_be_bytes n v
  · simp only [mem_of, val_of_mem, if_true, List.reverse_reverse]
    exact of_be_be_bytes n v

theorem mem_of_htons (le : Bool) (u : Nat) : mem_of le 2 (htons le u) = be_bytes 2 u := by
  have h := mem_of_val_of_mem le (be_bytes 2 u) (be_bytes_lt 2 u)
  rwa [be_bytes_length] at h

theorem mem_of_htonl (le : Bool) (u : Nat) : mem_of le 4 (htonl le u) = be_bytes 4 u := by
  have h := mem_of_val_of_mem le (be_bytes 4 u) (be_bytes_lt 4 u)
  rwa [be_bytes_length] at h

theorem htonll_buf (hostll : Nat) :
    (List.range 8).map (fun i => (hostll >>> (8 * (8 - i - 1))) % 256) = be_bytes 8 hostll := by
  rfl

theorem mem_of_htonll (le : Bool) (u : Nat) : mem_of le 8 (htonll le u) = be_bytes 8 u := by
  have h := mem_of_val_of_mem le (be_bytes 8 u) (be_bytes_lt 8 u)
  rw [be_bytes_length] at h
  simpa [htonll, htonll_buf] using h

theorem ntohs_val_of_mem (le : Bool) (bs : List Nat) (hl : bs.length = 2)
    (hb : ∀ b ∈ bs, b < 256) : ntohs le (val_of_mem le bs) = of_be bs := by
  have h := mem_of_val_of_mem le bs hb
  rw [hl] at h
  rw [ntohs, h]

theorem ntohl_val_of_mem (le : Bool) (bs : List Nat) (hl : bs.length = 4)
    (hb : ∀ b ∈ bs, b < 256) : ntohl le (val_of_mem le bs) = of_be bs := by
  have h := mem_of_val_of_mem le bs hb
  rw [hl] at h
  rw [ntohl, h]

theorem or_shift_step (y b i : Nat) (hb : b < 256) :
    (y <<< (i + 8)) ||| (b <<< i) = (y * 256 + b) <<< i := by
  have hlt : b <<< i < 2 ^ (i + 8) := by
    rw [Nat.shiftLeft_eq, pow_add, Nat.mul_comm]
    exact Nat.mul_lt_mul_of_pos_left hb (by positivity)
  have hor := Nat.mul_add_lt_is_or hlt y
  rw [Nat.shiftLeft_eq y, Nat.mul_comm y, ← hor]
  simp only [Nat.shiftLeft_eq, pow_add]
  ring

theorem ntohll_or (b0 b1 b2 b3 b4 b5 b6 b7 : Nat)
    (h1 : b1 < 256) (h2 : b2 < 256) (h3 : b3 < 256)
    (h4 : b4 < 256) (h5 : b5 < 256) (h6 : b6 < 256) (h7 : b7 < 256) :
    (b0 <<< 56) ||| (b1 <<< 48) ||| (b2 <<< 40) ||| (b3 <<< 32) ||| (b4 <<< 24) |||
      (b5 <<< 16) ||| (b6 <<< 8) ||| b7 = of_be [b0, b1, b2, b3, b4, b5, b6, b7] := by
  have e7 : b7 = b7 <<< 0 := rfl
  rw [or_shift_step b0 b1 48 h1, or_shift_step _ b2 40 h2, or_shift_step _ b3 32 h3,
    or_shift_step _ b4 24 h4, or_shift_step _ b5 16 h5, or_shift_step _ b6 8 h6]
  conv_lhs => rw [e7]
  rw [or_shift_step _ b7 0 h7]
  simp [of_be]

theorem ntohll_val_of_mem (le : Bool) (bs : List Nat) (hl : bs.length = 8)
    (hb : ∀ b ∈ bs, b < 256) : ntohll le (val_of_mem le bs) = of_be bs := by
  have h := mem_of_val_of_mem le bs hb
  rw [hl] at h
  have hlt := of_be_lt bs hb
  rw [hl] at hlt
  match bs, hl with
  | [b0, b1, b2, b3, b4, b5, b6, b7], _ =>
    simp only [ntohll, h, List.getD_cons_zero, List.getD_cons_succ]
    rw [ntohll_or b0 b1 b2 b3 b4 b5 b6 b7 (hb _ (by simp)) (hb _ (by simp)) (hb _ (by simp))
      (hb _ (by simp)) (hb _ (by simp)) (hb _ (by simp)) (hb _ (by simp))]
    exact Nat.mod_eq_of_lt (by simpa using hlt)

theorem ntohll_htonll (le : Bool) (u : Nat) (hu : u < 2 ^ 64) : ntohll le (htonll le u) = u := by
  have h := ntohll_val_of_mem le (be_bytes 8 u) (be_bytes_length 8 u) (be_bytes_lt 8 u)
  have e : htonll le u = val_of_mem le (be_bytes 8 u) := by simp [htonll, htonll_buf]
  rw [e, h, of_be_be_bytes]
  exact Nat.mod_eq_of_lt (by simpa using hu)

/-! ## The transport -/

theorem sys_write_nil (s : Sock) (buf : List Nat) (count : Int) (hw : s.wr = []) :
    sys_write s buf count = (count, { s with out := s.out ++ buf.take count.toNat }) := by
  simp [sys_write, hw]

theorem sys_write_neg (s : Sock) (buf : List Nat) (count r : Int) (rest : List Int)
    (hw : s.wr = r :: rest) (hr : r < 0) :
    sys_write s buf count = (-1, { s with wr := rest }) := by
  simp [sys_write, hw, hr]

theorem sys_write_nonneg (s : Sock) (buf : List Nat) (count r : Int) (rest : List Int)
    (hw : s.wr = r :: rest) (hr : ¬ r < 0) :
    sys_write s buf count =
      (min r count, { s with out := s.out ++ buf.take (min r count).toNat, wr := rest }) := by
  simp [sys_write, hw, hr]

theorem sys_write_spec (s : Sock) (buf : List Nat) (count : Int) (hc : 0 < count) :
    (sys_write s buf count).1 ≤ count ∧
    (sys_write s buf count).2.inp = s.inp ∧
    (sys_write s buf count).2.rd = s.rd ∧
    (sys_write s buf count).2.wr <:+ s.wr ∧
    (0 < (sys_write s buf count).1 →
      (sys_write s buf count).2.out = s.out ++ buf.take (sys_write s buf count).1.toNat) ∧
    ((sys_write s buf count).1 ≤ 0 → (sys_write s buf count).2.out = s.out) ∧
    ((∀ x ∈ s.wr, 0 < x) → 0 < (sys_write s buf count).1) := by
  cases hw : s.wr with
  | nil =>
    rw [sys_write_nil s buf count hw]
    refine ⟨le_refl _, rfl, rfl, ?_, ?_, ?_, ?_⟩
    · show s.wr <:+ []
      rw [hw]
    · intro _; rfl
    · intro h; exact absurd h (not_le.mpr hc)
    · intro _; exact hc
  | cons r rest =>
    by_cases hr : r < 0
    · rw [sys_write_neg s buf count r rest hw hr]
      refine ⟨by omega, rfl, rfl, ?_, ?_, ?_, ?_⟩
      · exact List.suffix_cons r rest
      · intro h; exact absurd h (by show ¬ (0:Int) < -1; decide)
      · intro _; rfl
      · intro h; have := h r (List.mem_cons_self _ _); omega
    · rw [sys_write_nonneg s buf count r rest hw hr]
      refine ⟨min_le_right _ _, rfl, rfl, ?_, ?_, ?_, ?_⟩
      · exact List.suffix_cons r rest
      · intro _; rfl
      · intro h
        have h0 : min r count = 0 := by
          have : 0 ≤ min r count := le_min (by omega) (le_of_lt hc)
          exact le_antisymm h this
        show s.out ++ List.take (min r count).toNat buf = s.out
        simp [h0]
      · intro h; have := h r (List.mem_cons_self _ _); exact lt_min this hc

theorem check_io_err_nonpos (n : Int) (h : n ≤ 0) : check_io_err n ≤ 0 := by
  simp only [check_io_err, EMPTY, FAILED]
  split_ifs <;> omega

theorem check_io_err_pos (n : Int) (h : 0 < n) : check_io_err n = n := by
  simp only [check_io_err, EMPTY, FAILED]
  split_ifs <;> omega

theorem write_all_loop_fail (buf : List Nat) (len : Int) (fuel : Nat) (s : Sock)
    (total left : Int) (h1 : total < len)
    (h2 : (sys_write s (buf.drop total.toNat) left).1 ≤ 0) :
    write_all_loop buf len (fuel + 1) s total left =
      (check_io_err (sys_write s (buf.drop total.toNat) left).1,
        (sys_write s (buf.drop total.toNat) left).2) := by
  simp [write_all_loop, h1, h2]

theorem write_all_loop_step (buf : List Nat) (len : Int) (fuel : Nat) (s : Sock)
    (total left : Int) (h1 : total < len)
    (h2 : ¬ (sys_write s (buf.drop total.toNat) left).1 ≤ 0) :
    write_all_loop buf len (fuel + 1) s total left =
      write_all_loop buf len fuel (sys_write s (buf.drop total.toNat) left).2
        (total + (sys_write s (buf.drop total.toNat) left).1)
        (left - (sys_write s (buf.drop total.toNat) left).1) := by
  rw [write_all_loop]
  simp only [h1, if_true, h2, if_false]

theorem write_all_loop_done (buf : List Nat) (len : Int) (fuel : Nat) (s : Sock)
    (left : Int) :
    write_all_loop buf len (fuel + 1) s len left = (len, s) := by
  simp [write_all_loop]

theorem write_all_loop_over (buf : List Nat) (len : Int) (fuel : Nat) (s : Sock)
    (total left : Int) (h1 : len < total) :
    write_all_loop buf len (fuel + 1) s total left = (FAILED, s) := by
  have h2 : ¬ total < len := by omega
  have h3 : total ≠ len := by omega
  simp [write_all_loop, h2, h3]

theorem write_all_loop_spec (buf : List Nat) (len : Int) :
    ∀ (fuel : Nat) (s : Sock) (t l : Nat), (t : Int) + l = len → l < fuel →
      (write_all_loop buf len fuel s t l).2.inp = s.inp ∧
      (write_all_loop buf len fuel s t l).2.rd = s.rd ∧
      (write_all_loop buf len fuel s t l).2.wr <:+ s.wr ∧
      (∃ k : Nat, k ≤ l ∧
        (write_all_loop buf len fuel s t l).2.out = s.out ++ (buf.drop t).take k) ∧
      (0 < (write_all_loop buf len fuel s t l).1 →
        (write_all_loop buf len fuel s t l).1 = len ∧
        (write_all_loop buf len fuel s t l).2.out = s.out ++ (buf.drop t).take l) ∧
      ((∀ x ∈ s.wr, 0 < x) → (write_all_loop buf len fuel s t l).1 = len) := by
  intro fuel
  induction fuel with
  | zero => intro s t l _ hf; omega
  | succ fuel ih =>
    intro s t l hsum hf
    by_cases hlt : (t : Int) < len
    · have hl : 0 < (l : Int) := by omega
      obtain ⟨w1, w2, w3, w4, w5, w6, w7⟩ := sys_write_spec s (buf.drop t) l hl
      by_cases hn : (sys_write s (buf.drop t) l).1 ≤ 0
      · rw [write_all_loop_fail buf len fuel s t l hlt (by simpa using hn)]
        simp only [Int.toNat_ofNat]
        refine ⟨w2, w3, w4, ⟨0, Nat.zero_le _, ?_⟩, ?_, ?_⟩
        · simp [w6 hn]
        · intro h
          have := check_io_err_nonpos _ hn
          omega
        · intro h; have := w7 h; omega
      · rw [write_all_loop_step buf len fuel s t l hlt (by simpa using hn)]
        simp only [Int.toNat_ofNat]
        have hpos : 0 < (sys_write s (buf.drop t) l).1 := by omega
        obtain ⟨m, hm⟩ : ∃ m : Nat, (sys_write s (buf.drop t) l).1 = (m : Int) :=
          ⟨(sys_write s (buf.drop t) l).1.toNat, by omega⟩
        have hm0 : 0 < m := by omega
        have hml : m ≤ l := by omega
        have e1 : (t : Int) + (sys_write s (buf.drop t) l).1 = ((t + m : Nat) : Int) := by
          rw [hm]; push_cast; ring
        have e2 : (l : Int) - (sys_write s (buf.drop t) l).1 = ((l - m : Nat) : Int) := by
          rw [hm]; omega
        rw [e1, e2]
        obtain ⟨i1, i2, i3, ⟨k, hk, i4⟩, i5, i6⟩ :=
          ih (sys_write s (buf.drop t) l).2 (t + m) (l - m) (by omega) (by omega)
        have hout := w5 hpos
        rw [hm, Int.toNat_ofNat] at hout
        have hdd : List.drop (t + m) buf = List.drop m (List.drop t buf) := by
          rw [List.drop_drop, Nat.add_comm]
        refine ⟨i1.trans w2, i2.trans w3, i3.trans w4, ⟨m + k, by omega, ?_⟩, ?_, ?_⟩
        · rw [i4, hout, hdd, List.take_add, List.append_assoc]
        · intro h
          obtain ⟨j1, j2⟩ := i5 h
          refine ⟨j1, ?_⟩
          rw [j2, hout, hdd, List.append_assoc, ← List.take_add]
          congr 2
          omega
        · intro h
          exact i6 (fun x hx => h x (w4.subset hx))
    · have hl : l = 0 := by omega
      have ht : (t : Int) = len := by omega
      subst hl
      rw [ht, write_all_loop_done]
      refine ⟨rfl, rfl, List.suffix_refl _, ⟨0, le_refl _, by simp⟩, ?_, ?_⟩
      · intro _; exact ⟨rfl, by simp⟩
      · intro _; rfl

theorem write_all_loop_fuel (buf : List Nat) (len : Int) :
    ∀ (fuel : Nat) (s : Sock) (t l : Nat), (t : Int) + l = len → l < fuel →
      write_all_loop buf len (fuel + 1) s t l = write_all_loop buf len fuel s t l := by
  intro fuel
  induction fuel with
  | zero => intro s t l _ hf; omega
  | succ fuel ih =>
    intro s t l hsum hf
    by_cases hlt : (t : Int) < len
    · have hl : 0 < (l : Int) := by omega
      obtain ⟨w1, -⟩ := sys_write_spec s (buf.drop t) l hl
      by_cases hn : (sys_write s (buf.drop t) l).1 ≤ 0
      · rw [write_all_loop_fail buf len _ s t l hlt (by simpa using hn),
          write_all_loop_fail buf len _ s t l hlt (by simpa using hn)]
      · rw [write_all_loop_step buf len _ s t l hlt (by simpa using hn),
          write_all_loop_step buf len _ s t l hlt (by simpa using hn)]
        simp only [Int.toNat_ofNat]
        obtain ⟨m, hm⟩ : ∃ m : Nat, (sys_write s (buf.drop t) l).1 = (m : Int) :=
          ⟨(sys_write s (buf.drop t) l).1.toNat, by omega⟩
        have e1 : (t : Int) + (sys_write s (buf.drop t) l).1 = ((t + m : Nat) : Int) := by
          rw [hm]; push_cast; ring
        have e2 : (l : Int) - (sys_write s (buf.drop t) l).1 = ((l - m : Nat) : Int) := by
          rw [hm]; omega
        rw [e1, e2]
        exact ih _ _ _ (by omega) (by omega)
    · have ht : (t : Int) = len := by omega
      rw [ht, write_all_loop_done, write_all_loop_done]

theorem write_all_neg (s : Sock) (buf : List Nat) (len : Int) (h : len < 0) :
    write_all s buf len = (FAILED, s) := by
  have e : len.toNat = 0 := by omega
  unfold write_all
  rw [e]
  exact write_all_loop_over buf len 0 s 0 len h

theorem write_all_spec (s : Sock) (buf : List Nat) (len : Int) (h0 : 0 ≤ len) :
    (write_all s buf len).2.inp = s.inp ∧
    (write_all s buf len).2.rd = s.rd ∧
    (write_all s buf len).2.wr <:+ s.wr ∧
    (∃ k : Nat, k ≤ len.toNat ∧ (write_all s buf len).2.out = s.out ++ buf.take k) ∧
    (0 < (write_all s buf len).1 →
      (write_all s buf len).1 = len ∧
      (write_all s buf len).2.out = s.out ++ buf.take len.toNat) ∧
    ((∀ x ∈ s.wr, 0 < x) → (write_all s buf len).1 = len) := by
  obtain ⟨l, rfl⟩ : ∃ l : Nat, len = (l : Int) := ⟨len.toNat, by omega⟩
  have h := write_all_loop_spec buf (l : Int) (l + 1) s 0 l (by simp) (by omega)
  simpa [write_all] using h

theorem sys_read_nil (s : Sock) (count : Int) (hr : s.rd = []) :
    sys_read s count =
      (((min count.toNat s.inp.length : Nat) : Int), s.inp.take (min count.toNat s.inp.length),
        { s with inp := s.inp.drop (min count.toNat s.inp.length) }) := by
  simp [sys_read, hr]

theorem sys_read_neg (s : Sock) (count r : Int) (rest : List Int)
    (hw : s.rd = r :: rest) (hr : r < 0) :
    sys_read s count = (-1, [], { s with rd := rest }) := by
  simp [sys_read, hw, hr]

theorem sys_read_nonneg (s : Sock) (count r : Int) (rest : List Int)
    (hw : s.rd = r :: rest) (hr : ¬ r < 0) :
    sys_read s count =
      (((min (min r count).toNat s.inp.length : Nat) : Int),
        s.inp.take (min (min r count).toNat s.inp.length),
        { s with inp := s.inp.drop (min (min r count).toNat s.inp.length), rd := rest }) := by
  simp [sys_read, hw, hr]

theorem sys_read_spec (s : Sock) (count : Int) (hc : 0 < count) :
    (sys_read s count).1 ≤ count ∧
    (sys_read s count).2.2.out = s.out ∧
    (sys_read s count).2.2.wr = s.wr ∧
    (sys_read s count).2.2.rd <:+ s.rd ∧
    (0 < (sys_read s count).1 →
      (sys_read s count).2.1 = s.inp.take (sys_read s count).1.toNat ∧
      (sys_read s count).2.2.inp = s.inp.drop (sys_read s count).1.toNat ∧
      (sys_read s count).1.toNat ≤ s.inp.length) ∧
    ((sys_read s count).1 ≤ 0 → (sys_read s count).2.2.inp = s.inp) ∧
    ((∀ x ∈ s.rd, 0 < x) → 0 < s.inp.length → 0 < (sys_read s count).1) := by
  cases hw : s.rd with
  | nil =>
    rw [sys_read_nil s count hw]
    refine ⟨?_, rfl, rfl, ?_, ?_, ?_, ?_⟩
    · show ((min count.toNat s.inp.length : Nat) : Int) ≤ count
      omega
    · show s.rd <:+ []
      rw [hw]
    · intro _
      refine ⟨?_, ?_, ?_⟩
      · show List.take _ s.inp = List.take (Int.toNat ((min count.toNat s.inp.length : Nat) : Int)) s.inp
        rw [Int.toNat_ofNat]
      · show List.drop _ s.inp = List.drop (Int.toNat ((min count.toNat s.inp.length : Nat) : Int)) s.inp
        rw [Int.toNat_ofNat]
      · show Int.toNat ((min count.toNat s.inp.length : Nat) : Int) ≤ s.inp.length
        rw [Int.toNat_ofNat]; exact min_le_right _ _
    · intro h
      have h0 : min count.toNat s.inp.length = 0 := by
        have : ((min count.toNat s.inp.length : Nat) : Int) ≤ 0 := h
        omega
      show List.drop (min count.toNat s.inp.length) s.inp = s.inp
      rw [h0]; rfl
    · intro _ hl
      show (0 : Int) < ((min count.toNat s.inp.length : Nat) : Int)
      omega
  | cons r rest =>
    by_cases hr : r < 0
    · rw [sys_read_neg s count r rest hw hr]
      refine ⟨by omega, rfl, rfl, ?_, ?_, ?_, ?_⟩
      · exact List.suffix_cons r rest
      · intro h; exact absurd h (by show ¬ (0:Int) < -1; decide)
      · intro _; rfl
      · intro h; have := h r (List.mem_cons_self _ _); omega
    · rw [sys_read_nonneg s count r rest hw hr]
      refine ⟨?_, rfl, rfl, ?_, ?_, ?_, ?_⟩
      · show ((min (min r count).toNat s.inp.length : Nat) : Int) ≤ count
        omega
      · exact List.suffix_cons r rest
      · intro _
        refine ⟨?_, ?_, ?_⟩
        · show List.take _ s.inp =
            List.take (Int.toNat ((min (min r count).toNat s.inp.length : Nat) : Int)) s.inp
          rw [Int.toNat_ofNat]
        · show List.drop _ s.inp =
            List.drop (Int.toNat ((min (min r count).toNat s.inp.length : Nat) : Int)) s.inp
          rw [Int.toNat_ofNat]
        · show Int.toNat ((min (min r count).toNat s.inp.length : Nat) : Int) ≤ s.inp.length
          rw [Int.toNat_ofNat]; exact min_le_right _ _
      · intro h
        have h0 : min (min r count).toNat s.inp.length = 0 := by
          have : ((min (min r count).toNat s.inp.length : Nat) : Int) ≤ 0 := h
          omega
        show List.drop (min (min r count).toNat s.inp.length) s.inp = s.inp
        rw [h0]; rfl
      · intro h hl
        have := h r (List.mem_cons_self _ _)
        show (0 : Int) < ((min (min r count).toNat s.inp.length : Nat) : Int)
        omega

theorem read_all_loop_fail (len : Int) (fuel : Nat) (s : Sock) (acc : List Nat)
    (total left : Int) (h1 : total < len) (h2 : (sys_read s left).1 ≤ 0) :
    read_all_loop len (fuel + 1) s acc total left =
      (check_io_err (sys_read s left).1, acc, (sys_read s left).2.2) := by
  simp [read_all_loop, h1, h2]

theorem read_all_loop_step (len : Int) (fuel : Nat) (s : Sock) (acc : List Nat)
    (total left : Int) (h1 : total < len) (h2 : ¬ (sys_read s left).1 ≤ 0) :
    read_all_loop len (fuel + 1) s acc total left =
      read_all_loop len fuel (sys_read s left).2.2 (acc ++ (sys_read s left).2.1)
        (total + (sys_read s left).1) (left - (sys_read s left).1) := by
  rw [read_all_loop]
  simp only [h1, if_true, h2, if_false]

theorem read_all_loop_done (len : Int) (fuel : Nat) (s : Sock) (acc : List Nat) (left : Int) :
    read_all_loop len (fuel + 1) s acc len left = (len, acc, s) := by
  simp [read_all_loop]

theorem read_all_loop_spec (len : Int) :
    ∀ (fuel : Nat) (s : Sock) (acc : List Nat) (t l : Nat), (t : Int) + l = len → l < fuel →
      (read_all_loop len fuel s acc t l).2.2.out = s.out ∧
      (read_all_loop len fuel s acc t l).2.2.wr = s.wr ∧
      (read_all_loop len fuel s acc t l).2.2.rd <:+ s.rd ∧
      (∃ k : Nat, k ≤ l ∧ k ≤ s.inp.length ∧
        (read_all_loop len fuel s acc t l).2.1 = acc ++ s.inp.take k ∧
        (read_all_loop len fuel s acc t l).2.2.inp = s.inp.drop k) ∧
      (0 < (read_all_loop len fuel s acc t l).1 →
        (read_all_loop len fuel s acc t l).1 = len ∧
        l ≤ s.inp.length ∧
        (read_all_loop len fuel s acc t l).2.1 = acc ++ s.inp.take l ∧
        (read_all_loop len fuel s acc t l).2.2.inp = s.inp.drop l) ∧
      ((∀ x ∈ s.rd, 0 < x) → l ≤ s.inp.length →
        (read_all_loop len fuel s acc t l).1 = len) := by
  intro fuel
  induction fuel with
  | zero => intro s acc t l _ hf; omega
  | succ fuel ih =>
    intro s acc t l hsum hf
    by_cases hlt : (t : Int) < len
    · have hl : 0 < (l : Int) := by omega
      obtain ⟨w1, w2, w3, w4, w5, w6, w7⟩ := sys_read_spec s l hl
      by_cases hn : (sys_read s l).1 ≤ 0
      · rw [read_all_loop_fail len fuel s acc t l hlt hn]
        refine ⟨w2, w3, w4, ⟨0, Nat.zero_le _, Nat.zero_le _, ?_, ?_⟩, ?_, ?_⟩
        · simp
        · simp [w6 hn]
        · intro h
          have := check_io_err_nonpos _ hn
          omega
        · intro h hlen; have := w7 h (by omega); omega
      · rw [read_all_loop_step len fuel s acc t l hlt hn]
        have hpos : 0 < (sys_read s l).1 := by omega
        obtain ⟨m, hm⟩ : ∃ m : Nat, (sys_read s l).1 = (m : Int) :=
          ⟨(sys_read s l).1.toNat, by omega⟩
        have hm0 : 0 < m := by omega
        have hml : m ≤ l := by omega
        have e1 : (t : Int) + (sys_read s l).1 = ((t + m : Nat) : Int) := by
          rw [hm]; push_cast; ring
        have e2 : (l : Int) - (sys_read s l).1 = ((l - m : Nat) : Int) := by
          rw [hm]; omega
        rw [e1, e2]
        obtain ⟨d1, d2, d3⟩ := w5 hpos
        rw [hm, Int.toNat_ofNat] at d1 d2 d3
        obtain ⟨i1, i2, i3, ⟨k, hk, hk2, i4, i4b⟩, i5, i6⟩ :=
          ih (sys_read s l).2.2 (acc ++ (sys_read s l).2.1) (t + m) (l - m) (by omega) (by omega)
        have hlen2 : (sys_read s l).2.2.inp.length = s.inp.length - m := by
          rw [d2, List.length_drop]
        refine ⟨i1.trans w2, i2.trans w3, i3.trans w4,
          ⟨m + k, by omega, by omega, ?_, ?_⟩, ?_, ?_⟩
        · rw [i4, d1, d2, List.append_assoc, ← List.take_add]
        · rw [i4b, d2, List.drop_drop, Nat.add_comm]
        · intro h
          obtain ⟨j1, j2, j3, j4⟩ := i5 h
          refine ⟨j1, by omega, ?_, ?_⟩
          · rw [j3, d1, d2, List.append_assoc, ← List.take_add]
            congr 2
            omega
          · rw [j4, d2, List.drop_drop]
            congr 1
            omega
        · intro h hlen
          exact i6 (fun x hx => h x (w4.subset hx)) (by omega)
    · have hl : l = 0 := by omega
      have ht : (t : Int) = len := by omega
      subst hl
      rw [ht, read_all_loop_done]
      refine ⟨rfl, rfl, List.suffix_refl _, ⟨0, le_refl _, Nat.zero_le _, by simp, by simp⟩, ?_, ?_⟩
      · intro _; exact ⟨rfl, Nat.zero_le _, by simp, by simp⟩
      · intro _ _; rfl

theorem read_all_loop_fuel (len : Int) :
    ∀ (fuel : Nat) (s : Sock) (acc : List Nat) (t l : Nat), (t : Int) + l = len → l < fuel →
      read_all_loop len (fuel + 1) s acc t l = read_all_loop len fuel s acc t l := by
  intro fuel
  induction fuel with
  | zero => intro s acc t l _ hf; omega
  | succ fuel ih =>
    intro s acc t l hsum hf
    by_cases hlt : (t : Int) < len
    · have hl : 0 < (l : Int) := by omega
      obtain ⟨w1, -⟩ := sys_read_spec s l hl
      by_cases hn : (sys_read s l).1 ≤ 0
      · rw [read_all_loop_fail len _ s acc t l hlt hn, read_all_loop_fail len _ s acc t l hlt hn]
      · rw [read_all_loop_step len _ s acc t l hlt hn, read_all_loop_step len _ s acc t l hlt hn]
        obtain ⟨m, hm⟩ : ∃ m : Nat, (sys_read s l).1 = (m : Int) :=
          ⟨(sys_read s l).1.toNat, by omega⟩
        have e1 : (t : Int) + (sys_read s l).1 = ((t + m : Nat) : Int) := by
          rw [hm]; push_cast; ring
        have e2 : (l : Int) - (sys_read s l).1 = ((l - m : Nat) : Int) := by
          rw [hm]; omega
        rw [e1, e2]
        exact ih _ _ _ _ (by omega) (by omega)
    · have ht : (t : Int) = len := by omega
      rw [ht, read_all_loop_done, read_all_loop_done]

theorem read_all_neg (s : Sock) (len : Int) (h : len < 0) : read_all s len = none := by
  simp [read_all, h]

theorem read_all_spec (s : Sock) (len : Int) (h0 : 0 ≤ len) :
    ∃ r, read_all s len = some r ∧
      r.2.2.out = s.out ∧ r.2.2.wr = s.wr ∧ r.2.2.rd <:+ s.rd ∧
      r.2.1.length = len.toNat ∧
      (∃ k : Nat, k ≤ len.toNat ∧ k ≤ s.inp.length ∧ r.2.2.inp = s.inp.drop k) ∧
      (0 < r.1 → r.1 = len ∧ len.toNat ≤ s.inp.length ∧
        r.2.1 = s.inp.take len.toNat ∧ r.2.2.inp = s.inp.drop len.toNat) ∧
      ((∀ x ∈ s.rd, 0 < x) → len.toNat ≤ s.inp.length → r.1 = len) := by
  obtain ⟨l, rfl⟩ : ∃ l : Nat, len = (l : Int) := ⟨len.toNat, by omega⟩
  obtain ⟨i1, i2, i3, ⟨k, hk, hk2, i4, i4b⟩, i5, i6⟩ :=
    read_all_loop_spec (l : Int) (l + 1) s [] 0 l (by simp) (by omega)
  have hneg : ¬ ((l : Int) < 0) := by omega
  simp only [Nat.cast_zero, List.nil_append] at i1 i2 i3 i4 i4b i5 i6
  refine ⟨((read_all_loop (l : Int) (l + 1) s [] 0 l).1,
      (read_all_loop (l : Int) (l + 1) s [] 0 l).2.1 ++
        List.replicate (l - (read_all_loop (l : Int) (l + 1) s [] 0 l).2.1.length) 0,
      (read_all_loop (l : Int) (l + 1) s [] 0 l).2.2), ?_, i1, i2, i3, ?_,
    ⟨k, by simpa using hk, hk2, i4b⟩, ?_, ?_⟩
  · simp [read_all, hneg]
  · simp only [Int.toNat_ofNat]
    rw [i4]
    simp only [List.length_append, List.length_take, List.length_replicate]
    omega
  · intro h
    obtain ⟨j1, j2, j3, j4⟩ := i5 h
    simp only [Int.toNat_ofNat]
    refine ⟨j1, j2, ?_, j4⟩
    show (read_all_loop (l : Int) (l + 1) s [] 0 l).2.1 ++
        List.replicate (l - (read_all_loop (l : Int) (l + 1) s [] 0 l).2.1.length) 0 = _
    rw [j3]
    simp only [List.length_take]
    rw [Nat.min_eq_left j2, Nat.sub_self]
    simp
  · intro h hl
    exact i6 h (by simpa using hl)

/-! ## Fixed width integers on the wire -/

theorem write_all_sent (s : Sock) (bs : List Nat) :
    Sent s bs (bs.length : Int) (write_all s bs (bs.length : Int)) := by
  obtain ⟨h1, h2, h3, ⟨k, hk, h4⟩, h5, h6⟩ := write_all_spec s bs (bs.length : Int) (by omega)
  refine ⟨h1, h2, h3, ⟨k, by simpa using hk, h4⟩, ?_, h6⟩
  intro h
  obtain ⟨j1, j2⟩ := h5 h
  refine ⟨j1, ?_⟩
  rw [j2, Int.toNat_ofNat, List.take_length]

theorem write_u16_sent (le : Bool) (s : Sock) (u : Nat) :
    Sent s (be_bytes 2 u) 2 (write_u16 le s u) := by
  have h := write_all_sent s (be_bytes 2 u)
  rw [be_bytes_length] at h
  simp only [Nat.cast_ofNat] at h
  obtain ⟨h1, h2, h3, h4, h5, h6⟩ := h
  unfold write_u16
  simp only [mem_of_htons, U16_SIZE]
  by_cases c1 : (write_all s (be_bytes 2 u) 2).1 ≤ 0
  · have c1' : (write_all s (be_bytes 2 u) 2).1 ≤ 0 := c1
    rw [if_pos c1']
    refine ⟨h1, h2, h3, h4, ?_, ?_⟩
    · intro h; have := check_io_err_nonpos _ c1; exact absurd h (not_lt.mpr this)
    · intro h; have := h6 h; omega
  · have c1' : ¬ (write_all s (be_bytes 2 u) 2).1 ≤ 0 := c1
    have e := (h5 (by omega)).1
    have e' : (write_all s (be_bytes 2 u) 2).1 = 2 := e
    rw [if_neg c1', if_neg (by simp [e'])]
    exact ⟨h1, h2, h3, h4, h5, h6⟩

theorem write_u32_sent (le : Bool) (s : Sock) (u : Nat) :
    Sent s (be_bytes 4 u) 4 (write_u32 le s u) := by
  have h := write_all_sent s (be_bytes 4 u)
  rw [be_bytes_length] at h
  simp only [Nat.cast_ofNat] at h
  obtain ⟨h1, h2, h3, h4, h5, h6⟩ := h
  unfold write_u32
  simp only [mem_of_htonl, U32_SIZE]
  by_cases c1 : (write_all s (be_bytes 4 u) 4).1 = 4
  · have c1' : (write_all s (be_bytes 4 u) 4).1 = 4 := c1
    rw [if_neg (by simp [c1'])]
    exact ⟨h1, h2, h3, h4, h5, h6⟩
  · have c1' : (write_all s (be_bytes 4 u) 4).1 ≠ 4 := c1
    rw [if_pos c1']
    refine ⟨h1, h2, h3, h4, ?_, ?_⟩
    · intro h; exact absurd h (by show ¬ (0:Int) < -1; decide)
    · intro h; exact absurd (h6 h) c1

theorem write_u64_sent (le : Bool) (s : Sock) (u : Nat) :
    Sent s (be_bytes 8 u) 8 (write_u64 le s u) := by
  have h := write_all_sent s (be_bytes 8 u)
  rw [be_bytes_length] at h
  simp only [Nat.cast_ofNat] at h
  obtain ⟨h1, h2, h3, h4, h5, h6⟩ := h
  unfold write_u64
  simp only [mem_of_htonll, U64_SIZE]
  by_cases c1 : (write_all s (be_bytes 8 u) 8).1 ≤ 0
  · have c1' : (write_all s (be_bytes 8 u) 8).1 ≤ 0 := c1
    rw [if_pos c1']
    refine ⟨h1, h2, h3, h4, ?_, ?_⟩
    · intro h; have := check_io_err_nonpos _ c1; exact absurd h (not_lt.mpr this)
    · intro h; have := h6 h; omega
  · have c1' : ¬ (write_all s (be_bytes 8 u) 8).1 ≤ 0 := c1
    have e := (h5 (by omega)).1
    have e' : (write_all s (be_bytes 8 u) 8).1 = 8 := e
    rw [if_neg c1', if_neg (by simp [e'])]
    exact ⟨h1, h2, h3, h4, h5, h6⟩

theorem write_u32_result (le : Bool) (s : Sock) (u : Nat) :
    (write_u32 le s u).1 = 4 ∨ (write_u32 le s u).1 = FAILED := by
  unfold write_u32
  simp only [U32_SIZE]
  split_ifs with h
  · right; rfl
  · left; simpa using h

/-- Chaining: what was sent by two operations one after the other. -/
theorem Sent.out_append {s : Sock} {bs : List Nat} {n : Int} {r : Int × Sock}
    (h : Sent s bs n r) (hp : 0 < r.1) : r.2.out = s.out ++ bs := (h.2.2.2.2.1 hp).2

theorem Sent.script_pos {s : Sock} {bs : List Nat} {n : Int} {r : Int × Sock}
    (h : Sent s bs n r) (hs : ∀ x ∈ s.wr, 0 < x) : ∀ x ∈ r.2.wr, 0 < x :=
  fun x hx => hs x (h.2.2.1.subset hx)

/-! ## Validation -/

theorem cstr_append_dropWhile (p : List Nat) :
    cstr p ++ p.dropWhile (fun b => b != 0) = p := by
  unfold cstr
  exact List.takeWhile_append_dropWhile _ _

theorem cstr_ne_zero (p : List Nat) : ∀ b ∈ cstr p, b ≠ 0 := by
  intro b hb
  have := List.mem_takeWhile_imp hb
  simpa using this

theorem cstr_of_ne_zero (n : List Nat) (h : ∀ b ∈ n, b ≠ 0) (rest : List Nat) :
    cstr (n ++ 0 :: rest) = n := by
  induction n with
  | nil => simp [cstr, List.takeWhile]
  | cons a n ih =>
    have ha : a ≠ 0 := h a (List.mem_cons_self _ _)
    have := ih (fun b hb => h b (List.mem_cons_of_mem _ hb))
    have hb : (a != 0) = true := by simpa using ha
    simp only [cstr] at this ⊢
    simp only [List.cons_append, List.takeWhile_cons, hb, if_true, this]

theorem cstr_self (n : List Nat) (h : ∀ b ∈ n, b ≠ 0) : cstr n = n := by
  induction n with
  | nil => rfl
  | cons a n ih =>
    have ha : a ≠ 0 := h a (List.mem_cons_self _ _)
    have := ih (fun b hb => h b (List.mem_cons_of_mem _ hb))
    have hb : (a != 0) = true := by simpa using ha
    simp only [cstr] at this ⊢
    simp only [List.cons_append, List.takeWhile_cons, hb, if_true, this]

theorem getD_cstr (p : List Nat) (i : Nat) (h : i < (cstr p).length) :
    p.getD i 0 = (cstr p).getD i 0 := by
  conv_lhs => rw [← cstr_append_dropWhile p]
  rw [List.getD_append _ _ _ _ h]

theorem any_range_getD (l : List Nat) (g : Nat → Bool) :
    (List.range l.length).any (fun i => g (l.getD i 0)) = l.any g := by
  rw [Bool.eq_iff_iff]
  simp only [List.any_eq_true, List.mem_range]
  constructor
  · rintro ⟨i, hi, hg⟩
    refine ⟨l[i], List.getElem_mem _, ?_⟩
    rwa [List.getD_eq_getElem _ _ hi] at hg
  · rintro ⟨b, hb, hg⟩
    obtain ⟨i, hi, rfl⟩ := List.getElem_of_mem hb
    exact ⟨i, hi, by rwa [List.getD_eq_getElem _ _ hi]⟩

theorem name_char_ok (b : Nat) (hb : b < 256) :
    (to_char b < MIN_NAME_CHAR ∨ to_char b > MAX_NAME_CHAR) ↔ ¬ (32 ≤ b ∧ b ≤ 126) := by
  simp only [to_char, MIN_NAME_CHAR, MAX_NAME_CHAR, Nat.mod_eq_of_lt hb]
  split_ifs <;> omega

/-- With an unsigned `char` (value `b` itself) the test of `is_valid_name` has the
same verdict. -/
theorem name_char_ok_unsigned (b : Nat) (hb : b < 256) :
    (to_char b < MIN_NAME_CHAR ∨ to_char b > MAX_NAME_CHAR) ↔
      ((b : Int) < MIN_NAME_CHAR ∨ (b : Int) > MAX_NAME_CHAR) := by
  rw [name_char_ok b hb]
  simp only [MIN_NAME_CHAR, MAX_NAME_CHAR]
  omega

theorem is_valid_name_some (p : List Nat) (hp : ∀ b ∈ p, b < 256) :
    is_valid_name (some p) = TRUE ↔ valid_name (cstr p) := by
  have hany : (List.range (strlen p)).any
      (fun i => decide (to_char (p.getD i 0) < MIN_NAME_CHAR ∨ to_char (p.getD i 0) > MAX_NAME_CHAR))
      = (cstr p).any (fun b => decide (to_char b < MIN_NAME_CHAR ∨ to_char b > MAX_NAME_CHAR)) := by
    rw [← any_range_getD (cstr p)]
    unfold strlen
    rw [Bool.eq_iff_iff]
    simp only [List.any_eq_true, List.mem_range]
    constructor
    · rintro ⟨i, hi, hg⟩
      exact ⟨i, hi, by rwa [getD_cstr p i hi] at hg⟩
    · rintro ⟨i, hi, hg⟩
      exact ⟨i, hi, by rwa [getD_cstr p i hi]⟩
  have hc : ∀ b ∈ cstr p, b < 256 := fun b hb => hp b ((List.takeWhile_sublist _).subset hb)
  unfold is_valid_name valid_name
  simp only [hany, MIN_NAME_LEN, MAX_NAME_LEN, UINT16_MAX, TRUE, FALSE]
  unfold strlen
  by_cases h1 : (cstr p).length < 1 ∨ (cstr p).length > 65535
  · rw [if_pos h1]
    constructor
    · intro h; exact absurd h (by decide)
    · intro h; omega
  · rw [if_neg h1]
    by_cases h2 : (cstr p).any (fun b => decide (to_char b < 32 ∨ to_char b > 126)) = true
    · rw [if_pos h2]
      constructor
      · intro h; exact absurd h (by decide)
      · intro h
        rw [List.any_eq_true] at h2
        obtain ⟨b, hb, hbad⟩ := h2
        have := (name_char_ok b (hc b hb)).mp (by simpa using hbad)
        exact absurd (h.2.2 b hb) this
    · rw [if_neg h2]
      refine ⟨fun _ => ⟨by omega, by omega, ?_⟩, fun _ => rfl⟩
      intro b hb
      by_contra hcon
      apply h2
      rw [List.any_eq_true]
      exact ⟨b, hb, by simpa using (name_char_ok b (hc b hb)).mpr hcon⟩

theorem is_valid_name_bool (name : Option (List Nat)) :
    is_valid_name name = TRUE ∨ is_valid_name name = FALSE := by
  unfold is_valid_name
  cases name with
  | none => right; rfl
  | some p =>
    simp only []
    split_ifs
    · right; rfl
    · right; rfl
    · left; rfl

theorem check_name_success_iff (name : Option (List Nat)) :
    check_name name = SUCCESS ↔ is_valid_name name = TRUE := by
  unfold check_name
  rcases is_valid_name_bool name with h | h <;> rw [h] <;> simp [TRUE, FALSE, SUCCESS, FAILED]

theorem check_name_failed_iff (name : Option (List Nat)) :
    check_name name = FAILED ↔ ¬ is_valid_name name = TRUE := by
  unfold check_name
  rcases is_valid_name_bool name with h | h <;> rw [h] <;> simp [TRUE, FALSE, SUCCESS, FAILED]

theorem valid_name_byte (n : List Nat) (h : valid_name n) : ∀ b ∈ n, b < 256 ∧ b ≠ 0 := by
  intro b hb
  have := h.2.2 b hb
  omega

theorem check_name_valid (n : List Nat) (h : valid_name n) : check_name (some n) = SUCCESS := by
  rw [check_name_success_iff, is_valid_name_some n (fun b hb => (valid_name_byte n h b hb).1),
    cstr_self n (fun b hb => (valid_name_byte n h b hb).2)]
  exact h

theorem is_valid_data_iff (data : Option rpc_data) :
    is_valid_data data = TRUE ↔ valid_payload data := by
  cases data with
  | none => simp [is_valid_data, valid_payload, TRUE, FALSE]
  | some d =>
    simp only [is_valid_data, is_valid_data2_len, valid_payload, valid_data, MAX_DATA2_LEN,
      UINT32_MAX, TRUE, FALSE]
    by_cases h1 : d.data2_len ≤ 4294967295
    · by_cases h2 : d.data2_len = 0
      · by_cases h3 : d.data2 = none <;> simp [h1, h2, h3]
      · by_cases h3 : d.data2 = none <;> simp [h1, h2, h3]
    · simp [h1]

theorem is_valid_data_bool (data : Option rpc_data) :
    is_valid_data data = TRUE ∨ is_valid_data data = FALSE := by
  unfold is_valid_data
  cases data with
  | none => right; rfl
  | some d =>
    simp only []
    split_ifs
    · right; rfl
    · right; rfl
    · right; rfl
    · left; rfl

theorem check_rpc_data_success_iff (data : Option rpc_data) :
    check_rpc_data data = SUCCESS ↔ valid_payload data := by
  rw [← is_valid_data_iff]
  unfold check_rpc_data
  rcases is_valid_data_bool data with h | h <;> rw [h] <;> simp [TRUE, FALSE, SUCCESS, FAILED]

theorem check_rpc_data_failed_iff (data : Option rpc_data) :
    check_rpc_data data = FAILED ↔ ¬ valid_payload data := by
  rw [← is_valid_data_iff]
  unfold check_rpc_data
  rcases is_valid_data_bool data with h | h <;> rw [h] <;> simp [TRUE, FALSE, SUCCESS, FAILED]


theorem is_valid_name_iff (name : Option (List Nat)) (hp : ∀ b ∈ name.getD [], b < 256) :
    is_valid_name name = TRUE ↔ valid_cname name := by
  cases name with
  | none => simp [is_valid_name, valid_cname, TRUE, FALSE]
  | some p => exact is_valid_name_some p hp

/-! ## Claims on validation and byte order -/

/-- C5: on a little-endian and on a big-endian host, for every 64-bit `u`, the bytes
in memory of `htonll(u)`, which `write_u64` sends, are the bytes of `u` most
significant first (byte `i` is `(u >> 8*(7-i)) mod 256`), and `ntohll(htonll(u)) = u`;
when no write fails `write_u64` returns 8 and has sent exactly these bytes. -/
theorem htonll_big_endian (le : Bool) (u : Nat) (hu : u < 2 ^ 64) :
    mem_of le 8 (htonll le u) = (List.range 8).map (fun i => (u >>> (8 * (7 - i))) % 256) ∧
    ntohll le (htonll le u) = u ∧
    ∀ s : Sock, (∀ x ∈ s.wr, 0 < x) →
      (write_u64 le s u).1 = 8 ∧
      (write_u64 le s u).2.out =
        s.out ++ (List.range 8).map (fun i => (u >>> (8 * (7 - i))) % 256) := by
  have hb : (List.range 8).map (fun i => (u >>> (8 * (7 - i))) % 256) = be_bytes 8 u := rfl
  rw [hb]
  refine ⟨mem_of_htonll le u, ntohll_htonll le u hu, ?_⟩
  intro s hs
  have h := write_u64_sent le s u
  have h8 := h.2.2.2.2.2 hs
  exact ⟨h8, h.out_append (by omega)⟩

theorem htonll_big_endian_witness :
    (mem_of true 8 (htonll true 72623859790382856) = [1, 2, 3, 4, 5, 6, 7, 8] ∧
      ntohll true (htonll true 72623859790382856) = 72623859790382856) ∧
    (mem_of false 8 (htonll false 72623859790382856) = [1, 2, 3, 4, 5, 6, 7, 8] ∧
      ntohll false (htonll false 72623859790382856) = 72623859790382856) :=
  ⟨⟨(htonll_big_endian true 72623859790382856 (by norm_num)).1,
      (htonll_big_endian true 72623859790382856 (by norm_num)).2.1⟩,
    ⟨(htonll_big_endian false 72623859790382856 (by norm_num)).1,
      (htonll_big_endian false 72623859790382856 (by norm_num)).2.1⟩⟩

/-- C6: for a name pointer over a byte buffer, `check_name` returns `SUCCESS` exactly
when the pointer is not `NULL` and the string has 1 to 65535 bytes, each in
`[32, 126]`, and `FAILED` in every other case; for every rejected name `write_name`
returns `FAILED` and leaves the socket as it was (no byte written). -/
theorem check_name_exact (name : Option (List Nat)) (hp : ∀ b ∈ name.getD [], b < 256) :
    (check_name name = SUCCESS ↔ valid_cname name) ∧
    (check_name name = FAILED ↔ ¬ valid_cname name) ∧
    (¬ valid_cname name → ∀ (le : Bool) (s : Sock), write_name le s name = (FAILED, s)) := by
  have h1 : check_name name = SUCCESS ↔ valid_cname name := by
    rw [check_name_success_iff, is_valid_name_iff name hp]
  have h2 : check_name name = FAILED ↔ ¬ valid_cname name := by
    rw [check_name_failed_iff, is_valid_name_iff name hp]
  refine ⟨h1, h2, ?_⟩
  intro hv le s
  unfold write_name
  rw [if_pos (h2.mpr hv)]

theorem check_name_exact_witness :
    (check_name (some [97, 100, 100, 0, 7]) = SUCCESS ↔ valid_cname (some [97, 100, 100, 0, 7])) ∧
    (check_name (some [97, 10, 100]) = FAILED ↔ ¬ valid_cname (some [97, 10, 100])) ∧
    (check_name none = FAILED ↔ ¬ valid_cname none) :=
  ⟨(check_name_exact (some [97, 100, 100, 0, 7]) (by decide)).1,
    (check_name_exact (some [97, 10, 100]) (by decide)).2.1,
    (check_name_exact none (by decide)).2.1⟩

/-- C8: `check_rpc_data` returns `SUCCESS` exactly when the payload is present, its
`data2_len` is at most `2^32 - 1` and `data2` is absent exactly when `data2_len` is 0;
it returns `FAILED` for every other payload, in particular for a zero length with
a buffer and for a non-zero length without one. -/
theorem check_rpc_data_exact (data : Option rpc_data) :
    (check_rpc_data data = SUCCESS ↔
      ∃ d, data = some d ∧ d.data2_len ≤ 4294967295 ∧ (d.data2 = none ↔ d.data2_len = 0)) ∧
    (check_rpc_data data = FAILED ↔
      ¬ ∃ d, data = some d ∧ d.data2_len ≤ 4294967295 ∧ (d.data2 = none ↔ d.data2_len = 0)) ∧
    (∀ (x : Int) (bs : List Nat),
      check_rpc_data (some { data1 := x, data2_len := 0, data2 := some bs }) = FAILED) ∧
    (∀ (x : Int) (n : Nat),
      check_rpc_data (some { data1 := x, data2_len := n + 1, data2 := none }) = FAILED) := by
  have e : valid_payload data ↔
      ∃ d, data = some d ∧ d.data2_len ≤ 4294967295 ∧ (d.data2 = none ↔ d.data2_len = 0) := by
    cases data with
    | none => simp [valid_payload]
    | some d => simp [valid_payload, valid_data]
  refine ⟨?_, ?_, ?_, ?_⟩
  · rw [check_rpc_data_success_iff, e]
  · rw [check_rpc_data_failed_iff, e]
  · intro x bs
    rw [check_rpc_data_failed_iff]
    simp [valid_payload, valid_data]
  · intro x n
    rw [check_rpc_data_failed_iff]
    simp [valid_payload, valid_data]

/-- C9: for every payload that violates the invariant (or is absent), `rpc_call`
returns `NULL` and leaves the client and its socket as they were, so not even the
CALL prefix or the handle is written, and `write_rpc_data` returns `FAILED` and
leaves the socket as it was. -/
theorem invalid_payload_not_sent (le : Bool) (w : Nat) (cl : Option rpc_client)
    (h : Option rpc_handle) (payload : Option rpc_data) (hinv : ¬ valid_payload payload) :
    rpc_call le w cl h payload = some (none, cl) ∧
    ∀ s : Sock, write_rpc_data le s payload = (FAILED, s) := by
  have hf := (check_rpc_data_failed_iff payload).mpr hinv
  constructor
  · unfold rpc_call
    cases cl with
    | none => rfl
    | some c =>
      cases h with
      | none => rfl
      | some hd => simp only [hf, if_true]
  · intro s
    unfold write_rpc_data
    rw [if_pos hf]

theorem invalid_payload_not_sent_witness :
    rpc_call true 32
        (some { addr := [], port := [], sockfd := { inp := [], out := [], rd := [], wr := [] },
                state := OPEN })
        (some { idx := 0 }) (some { data1 := 5, data2_len := 0, data2 := some [100] }) =
      some (none,
        some { addr := [], port := [], sockfd := { inp := [], out := [], rd := [], wr := [] },
               state := OPEN }) ∧
    ∀ s : Sock,
      write_rpc_data true s (some { data1 := 5, data2_len := 0, data2 := some [100] }) =
        (FAILED, s) :=
  invalid_payload_not_sent true 32 _ _ _ (by decide)

/-! ## Composite writes -/

theorem Sent.chain {s : Sock} {a b : List Nat} {n1 n2 : Int} {r1 r2 : Int × Sock}
    (h1 : Sent s a n1 r1) (hp : 0 < r1.1) (h2 : Sent r1.2 b n2 r2) :
    Sent s (a ++ b) n2 r2 := by
  obtain ⟨a1, a2, a3, -, a5, -⟩ := h1
  obtain ⟨b1, b2, b3, ⟨k, hk, b4⟩, b5, b6⟩ := h2
  have ha := (a5 hp).2
  refine ⟨b1.trans a1, b2.trans a2, b3.trans a3, ⟨a.length + k, ?_, ?_⟩, ?_, ?_⟩
  · simp only [List.length_append]; omega
  · rw [b4, ha, List.append_assoc, List.take_append]
  · intro h
    obtain ⟨c1, c2⟩ := b5 h
    exact ⟨c1, by rw [c2, ha, List.append_assoc]⟩
  · intro h
    exact b6 (fun x hx => h x (a3.subset hx))

theorem Sent.stop {s : Sock} {a : List Nat} {n1 : Int} {r1 : Int × Sock}
    (h1 : Sent s a n1 r1) (hn : r1.1 ≤ 0) (hn1 : 0 < n1) (b : List Nat) (n2 x : Int)
    (hx : x ≤ 0) : Sent s (a ++ b) n2 (x, r1.2) := by
  obtain ⟨a1, a2, a3, ⟨k, hk, a4⟩, -, a6⟩ := h1
  refine ⟨a1, a2, a3, ⟨k, ?_, ?_⟩, ?_, ?_⟩
  · simp only [List.length_append]; omega
  · show r1.2.out = _
    rw [a4, List.take_append_of_le_length hk]
  · intro h
    exact absurd h (not_lt.mpr hx)
  · intro h
    have := a6 h
    omega

theorem Sent.stop' {s : Sock} {a b : List Nat} {n1 n2 : Int} {r1 r2 : Int × Sock}
    (h1 : Sent s a n1 r1) (hp : ¬ r1.1 ≤ 0) (h2 : Sent r1.2 b n2 r2) (hn : r2.1 ≤ 0)
    (hn2 : 0 < n2) (m x : Int) (hx : x ≤ 0) : Sent s (a ++ b) m (x, r2.2) := by
  have h12 := h1.chain (by omega) h2
  obtain ⟨a1, a2, a3, a4, -, a6⟩ := h12
  refine ⟨a1, a2, a3, a4, ?_, ?_⟩
  · intro h; exact absurd h (not_lt.mpr hx)
  · intro h
    have := a6 h
    omega

theorem write_all_take_sent (s : Sock) (buf : List Nat) (n : Nat) :
    Sent s (buf.take n) (n : Int) (write_all s buf (n : Int)) := by
  obtain ⟨h1, h2, h3, ⟨k, hk, h4⟩, h5, h6⟩ := write_all_spec s buf (n : Int) (by omega)
  rw [Int.toNat_ofNat] at hk h5
  refine ⟨h1, h2, h3, ⟨min k (buf.take n).length, min_le_right _ _, ?_⟩, h5, h6⟩
  rw [h4, List.take_take, List.length_take]
  congr 1
  rw [List.take_eq_take]
  omega

theorem be_bytes_two (v : Nat) : be_bytes 2 v = [v / 256 % 256, v % 256] := by
  simp [be_bytes, Nat.shiftRight_eq_div_pow]

theorem to_u16_of_le (n : Nat) (h : n ≤ 65535) : to_u16 (n : Int) = n := by
  unfold to_u16
  omega

theorem to_u32_of_le (n : Nat) (h : n ≤ 4294967295) : to_u32 (n : Int) = n := by
  unfold to_u32
  omega

theorem to_int_of_lt (n : Nat) (h : n < 2147483648) : to_int (n : Int) = n := by
  unfold to_int
  omega

theorem to_int_neg (n : Nat) (h1 : 2147483648 ≤ n) (h2 : n ≤ 4294967295) :
    to_int (n : Int) < 0 := by
  unfold to_int
  omega

theorem take_strlen (p : List Nat) : p.take (strlen p) = cstr p := by
  unfold strlen cstr
  exact (List.prefix_iff_eq_take.mp (List.takeWhile_prefix _)).symm

theorem write_name_sent (le : Bool) (s : Sock) (p : List Nat) (hp : ∀ b ∈ p, b < 256)
    (hv : valid_name (cstr p)) :
    Sent s (be_bytes 2 (strlen p) ++ cstr p) (strlen p : Int) (write_name le s (some p)) := by
  have hc : check_name (some p) = SUCCESS := by
    rw [check_name_success_iff, is_valid_name_some p hp]; exact hv
  have hlen : strlen p ≤ 65535 := hv.2.1
  have hpos : 0 < strlen p := hv.1
  unfold write_name
  rw [if_neg (by rw [hc]; decide)]
  simp only [Option.getD_some, to_u16_of_le _ hlen]
  have h1 := write_u16_sent le s (strlen p)
  have h2 := write_all_take_sent (write_u16 le s (strlen p)).2 p (strlen p)
  rw [take_strlen] at h2
  by_cases c1 : (write_u16 le s (strlen p)).1 ≤ 0
  · rw [if_pos c1]
    exact h1.stop c1 (by decide) _ _ _ c1
  · rw [if_neg c1]
    have h12 := h1.chain (by omega) h2
    split_ifs <;> exact h12


theorem write_rpc_data_sent (le : Bool) (s : Sock) (d : rpc_data) (hv : valid_data d)
    (hlen : d.data2_len < 2147483648) :
    Sent s (be_bytes 8 (to_u64 d.data1) ++ be_bytes 4 d.data2_len ++
        (d.data2.getD []).take d.data2_len) SUCCESS (write_rpc_data le s (some d)) := by
  have hc : check_rpc_data (some d) = SUCCESS := (check_rpc_data_success_iff _).mpr hv
  unfold write_rpc_data
  rw [if_neg (by rw [hc]; decide)]
  simp only [to_u32_of_le _ hv.1, to_int_of_lt _ hlen]
  have h1 := write_u64_sent le s (to_u64 d.data1)
  by_cases c1 : (write_u64 le s (to_u64 d.data1)).1 ≤ 0
  · rw [if_pos c1, List.append_assoc]
    exact h1.stop c1 (by decide) _ _ _ (check_io_err_nonpos _ c1)
  · rw [if_neg c1]
    have h2 := write_u32_sent le (write_u64 le s (to_u64 d.data1)).2 d.data2_len
    have h12 := h1.chain (by omega) h2
    by_cases c2 : (write_u32 le (write_u64 le s (to_u64 d.data1)).2 d.data2_len).1 ≤ 0
    · rw [if_pos c2]
      exact h12.stop c2 (by decide) _ _ _ (check_io_err_nonpos _ c2)
    · rw [if_neg c2]
      by_cases c3 : d.data2_len > 0
      · rw [if_pos c3]
        have h3 := write_all_take_sent
          (write_u32 le (write_u64 le s (to_u64 d.data1)).2 d.data2_len).2 (d.data2.getD [])
          d.data2_len
        have h123 := h12.chain (by omega) h3
        by_cases c4 : (write_all (write_u32 le (write_u64 le s (to_u64 d.data1)).2 d.data2_len).2
            (d.data2.getD []) (d.data2_len : Int)).1 ≤ 0
        · rw [if_pos c4]
          exact h12.stop' c2 h3 c4 (by omega) _ _ (check_io_err_nonpos _ c4)
        · rw [if_neg c4]
          obtain ⟨a1, a2, a3, a4, a5, a6⟩ := h123
          refine ⟨a1, a2, a3, a4, ?_, ?_⟩
          · intro _; exact ⟨rfl, (a5 (by omega)).2⟩
          · intro _; rfl
      · rw [if_neg c3]
        have e : d.data2_len = 0 := by omega
        rw [e, List.take_zero, List.append_nil]
        rw [e] at h12
        obtain ⟨a1, a2, a3, a4, a5, a6⟩ := h12
        refine ⟨a1, a2, a3, a4, ?_, ?_⟩
        · intro _; exact ⟨rfl, (a5 (by rw [e] at c2; omega)).2⟩
        · intro _; rfl
theorem write_rpc_data_overlong (le : Bool) (s : Sock) (d : rpc_data) (hv : valid_data d)
    (hlen : 2147483648 ≤ d.data2_len) : (write_rpc_data le s (some d)).1 ≤ 0 := by
  have hc : check_rpc_data (some d) = SUCCESS := (check_rpc_data_success_iff _).mpr hv
  have hneg := to_int_neg d.data2_len hlen hv.1
  unfold write_rpc_data
  rw [if_neg (by rw [hc]; decide)]
  simp only []
  by_cases c1 : (write_u64 le s (to_u64 d.data1)).1 ≤ 0
  · rw [if_pos c1]; exact check_io_err_nonpos _ c1
  · rw [if_neg c1]
    by_cases c2 : (write_u32 le (write_u64 le s (to_u64 d.data1)).2 (to_u32 d.data2_len)).1 ≤ 0
    · rw [if_pos c2]; exact check_io_err_nonpos _ c2
    · rw [if_neg c2, if_pos (by omega), write_all_neg _ _ _ hneg]
      show (if FAILED ≤ (0 : Int) then _ else _ : Int × Sock).1 ≤ 0
      rw [if_pos (by decide)]
      show check_io_err FAILED ≤ 0
      exact check_io_err_nonpos _ (by decide)

theorem write_rpc_data_invalid (le : Bool) (s : Sock) (data : Option rpc_data)
    (hv : ¬ valid_payload data) : write_rpc_data le s data = (FAILED, s) := by
  unfold write_rpc_data
  rw [if_pos ((check_rpc_data_failed_iff data).mpr hv)]

/-! ## Claims on the wire layout -/

/-- C3: whenever `write_rpc_data` reports success for a payload, the payload is valid
and the bytes appended to the output are exactly the 8 bytes of `data1` (as a
`uint64_t`) most significant first, the 4 bytes of `data2_len` most significant
first, and the first `data2_len` bytes of `data2`, nothing else: `12 + data2_len`
bytes when the buffer holds `data2_len` bytes, and 12 bytes when `data2_len = 0`. -/
theorem write_rpc_data_layout (le : Bool) (s : Sock) (data : Option rpc_data)
    (hs : (write_rpc_data le s data).1 = SUCCESS) :
    ∃ d, data = some d ∧ valid_data d ∧
      (write_rpc_data le s data).2.out =
        s.out ++ (be_bytes 8 (to_u64 d.data1) ++ be_bytes 4 d.data2_len ++
          (d.data2.getD []).take d.data2_len) ∧
      (d.data2_len ≤ (d.data2.getD []).length →
        (write_rpc_data le s data).2.out.length = s.out.length + (12 + d.data2_len)) ∧
      (d.data2_len = 0 →
        (write_rpc_data le s data).2.out =
          s.out ++ (be_bytes 8 (to_u64 d.data1) ++ be_bytes 4 0)) := by
  by_cases hv : valid_payload data
  · cases data with
    | none => exact absurd hv (fun h => h)
    | some d =>
      have hvd : valid_data d := hv
      by_cases hlen : d.data2_len < 2147483648
      · have h := write_rpc_data_sent le s d hvd hlen
        have hout := h.out_append (by rw [hs]; decide)
        refine ⟨d, rfl, hvd, hout, ?_, ?_⟩
        · intro hb
          rw [hout]
          simp only [List.length_append, be_bytes_length, List.length_take]
          omega
        · intro h0
          rw [hout, h0, List.take_zero, List.append_nil]
      · have := write_rpc_data_overlong le s d hvd (by omega)
        rw [hs] at this
        exact absurd this (by decide)
  · rw [write_rpc_data_invalid le s data hv] at hs
    have hs' : FAILED = SUCCESS := hs
    exact absurd hs' (by decide)

theorem write_rpc_data_layout_witness :
    ∃ d, some { data1 := -100, data2_len := 2, data2 := some [5, 6] } = some d ∧ valid_data d ∧
      (write_rpc_data true { inp := [], out := [9], rd := [], wr := [3, 20] }
          (some { data1 := -100, data2_len := 2, data2 := some [5, 6] })).2.out =
        [9] ++ (be_bytes 8 (to_u64 d.data1) ++ be_bytes 4 d.data2_len ++
          (d.data2.getD []).take d.data2_len) ∧
      (d.data2_len ≤ (d.data2.getD []).length →
        (write_rpc_data true { inp := [], out := [9], rd := [], wr := [3, 20] }
          (some { data1 := -100, data2_len := 2, data2 := some [5, 6] })).2.out.length =
          [9].length + (12 + d.data2_len)) ∧
      (d.data2_len = 0 →
        (write_rpc_data true { inp := [], out := [9], rd := [], wr := [3, 20] }
          (some { data1 := -100, data2_len := 2, data2 := some [5, 6] })).2.out =
          [9] ++ (be_bytes 8 (to_u64 d.data1) ++ be_bytes 4 0)) :=
  write_rpc_data_layout true { inp := [], out := [9], rd := [], wr := [3, 20] }
    (some { data1 := -100, data2_len := 2, data2 := some [5, 6] }) (by decide)

/-- C4: for every valid name (the C string at a pointer over a byte buffer),
`write_name`, when it reports success, has appended to the output exactly the
length as a big-endian 16-bit integer followed by the bytes of the name; when no
write fails it reports success (the name length), and the appended bytes are
`2 + len` in number and end without a terminating zero byte (no byte of the name
is zero). -/
theorem write_name_layout (le : Bool) (s : Sock) (p : List Nat) (hp : ∀ b ∈ p, b < 256)
    (hv : valid_name (cstr p)) :
    (0 < (write_name le s (some p)).1 →
      (write_name le s (some p)).2.out =
        s.out ++ ([strlen p / 256, strlen p % 256] ++ cstr p)) ∧
    ((∀ x ∈ s.wr, 0 < x) →
      (write_name le s (some p)).1 = strlen p ∧
      (write_name le s (some p)).2.out =
        s.out ++ ([strlen p / 256, strlen p % 256] ++ cstr p) ∧
      (write_name le s (some p)).2.out.length = s.out.length + (2 + strlen p)) ∧
    (∀ b ∈ cstr p, b ≠ 0) := by
  have h := write_name_sent le s p hp hv
  have hlen : strlen p ≤ 65535 := hv.2.1
  have hpos : 0 < strlen p := hv.1
  have e2 : be_bytes 2 (strlen p) = [strlen p / 256, strlen p % 256] := by
    rw [be_bytes_two, Nat.mod_eq_of_lt (by omega)]
  rw [e2] at h
  refine ⟨fun hp => h.out_append hp, ?_, cstr_ne_zero p⟩
  intro hs
  have h1 := h.2.2.2.2.2 hs
  have h2 := h.out_append (by omega)
  refine ⟨h1, h2, ?_⟩
  rw [h2]
  simp only [List.length_append, List.length_cons, List.length_nil, strlen]

theorem write_name_layout_witness :
    (write_name false { inp := [], out := [], rd := [], wr := [1, 1, 2, 7] }
        (some [97, 100, 100, 0, 33])).1 = 3 ∧
    (write_name false { inp := [], out := [], rd := [], wr := [1, 1, 2, 7] }
        (some [97, 100, 100, 0, 33])).2.out = [0, 3, 97, 100, 100] :=
  ⟨((write_name_layout false { inp := [], out := [], rd := [], wr := [1, 1, 2, 7] }
      [97, 100, 100, 0, 33] (by decide) (by decide)).2.1 (by decide)).1,
   ((write_name_layout false { inp := [], out := [], rd := [], wr := [1, 1, 2, 7] }
      [97, 100, 100, 0, 33] (by decide) (by decide)).2.1 (by decide)).2.1⟩

/-! ## Reads of what was written -/

theorem Consumed.rd_pos {s t : Sock} {bs : List Nat} (h : Consumed s bs t)
    (hs : ∀ x ∈ s.rd, 0 < x) : ∀ x ∈ t.rd, 0 < x :=
  fun x hx => hs x (h.2.2.2.subset hx)

theorem Consumed.append {s t u : Sock} {a b : List Nat} (h1 : Consumed s a t)
    (h2 : Consumed t b u) : Consumed s (a ++ b) u := by
  obtain ⟨a1, a2, a3, a4⟩ := h1
  obtain ⟨b1, b2, b3, b4⟩ := h2
  exact ⟨by rw [a1, b1, List.append_assoc], b2.trans a2, b3.trans a3, b4.trans a4⟩

theorem read_all_ok (s : Sock) (bs rest : List Nat) (hin : s.inp = bs ++ rest)
    (hpos : 0 < bs.length) (hrd : ∀ x ∈ s.rd, 0 < x) :
    ∃ t, read_all s (bs.length : Int) = some ((bs.length : Int), bs, t) ∧
      Consumed s bs t ∧ t.inp = rest := by
  obtain ⟨r, hr, h1, h2, h3, -, -, h5, h6⟩ := read_all_spec s (bs.length : Int) (by omega)
  rw [Int.toNat_ofNat] at h5 h6
  have hle : bs.length ≤ s.inp.length := by rw [hin, List.length_append]; omega
  have e := h6 hrd hle
  obtain ⟨-, -, j3, j4⟩ := h5 (by omega)
  rw [hin, List.take_left'] at j3
  rw [hin, List.drop_left'] at j4
  refine ⟨r.2.2, ?_, ⟨by rw [hin, j4], h1, h2, h3⟩, j4⟩
  rw [hr, ← e, ← j3]
  all_goals rfl

theorem read_u16_ok (le : Bool) (s : Sock) (u : Nat) (rest : List Nat) (hu : u < 65536)
    (hin : s.inp = be_bytes 2 u ++ rest) (hrd : ∀ x ∈ s.rd, 0 < x) :
    ∃ t, read_u16 le s = some (2, u, t) ∧ Consumed s (be_bytes 2 u) t ∧ t.inp = rest := by
  obtain ⟨t, h1, h2, h3⟩ := read_all_ok s (be_bytes 2 u) rest hin
    (by rw [be_bytes_length]; decide) hrd
  rw [be_bytes_length] at h1
  refine ⟨t, ?_, h2, h3⟩
  have hv : ntohs le (val_of_mem le (be_bytes 2 u)) = u := by
    rw [ntohs_val_of_mem le _ (be_bytes_length 2 u) (be_bytes_lt 2 u), of_be_be_bytes]
    exact Nat.mod_eq_of_lt (by simpa using hu)
  have h1' : read_all s U16_SIZE = some (2, be_bytes 2 u, t) := h1
  simp only [read_u16, h1', Option.bind_eq_bind, Option.some_bind, hv]
  rfl

theorem read_u32_ok (le : Bool) (s : Sock) (u : Nat) (rest : List Nat) (hu : u < 4294967296)
    (hin : s.inp = be_bytes 4 u ++ rest) (hrd : ∀ x ∈ s.rd, 0 < x) :
    ∃ t, read_u32 le s = some (4, u, t) ∧ Consumed s (be_bytes 4 u) t ∧ t.inp = rest := by
  obtain ⟨t, h1, h2, h3⟩ := read_all_ok s (be_bytes 4 u) rest hin
    (by rw [be_bytes_length]; decide) hrd
  rw [be_bytes_length] at h1
  refine ⟨t, ?_, h2, h3⟩
  have hv : ntohl le (val_of_mem le (be_bytes 4 u)) = u := by
    rw [ntohl_val_of_mem le _ (be_bytes_length 4 u) (be_bytes_lt 4 u), of_be_be_bytes]
    exact Nat.mod_eq_of_lt (by simpa using hu)
  have h1' : read_all s U32_SIZE = some (4, be_bytes 4 u, t) := h1
  simp only [read_u32, h1', Option.bind_eq_bind, Option.some_bind, hv]
  rfl

theorem read_u64_ok (le : Bool) (s : Sock) (u : Nat) (rest : List Nat)
    (hu : u < 18446744073709551616)
    (hin : s.inp = be_bytes 8 u ++ rest) (hrd : ∀ x ∈ s.rd, 0 < x) :
    ∃ t, read_u64 le s = some (8, u, t) ∧ Consumed s (be_bytes 8 u) t ∧ t.inp = rest := by
  obtain ⟨t, h1, h2, h3⟩ := read_all_ok s (be_bytes 8 u) rest hin
    (by rw [be_bytes_length]; decide) hrd
  rw [be_bytes_length] at h1
  refine ⟨t, ?_, h2, h3⟩
  have hv : ntohll le (val_of_mem le (be_bytes 8 u)) = u := by
    rw [ntohll_val_of_mem le _ (be_bytes_length 8 u) (be_bytes_lt 8 u), of_be_be_bytes]
    exact Nat.mod_eq_of_lt (by simpa using hu)
  have h1' : read_all s U64_SIZE = some (8, be_bytes 8 u, t) := h1
  simp only [read_u64, h1', Option.bind_eq_bind, Option.some_bind, hv]
  rfl

theorem read_name_ok (le : Bool) (s : Sock) (n rest : List Nat) (h1 : 1 ≤ n.length)
    (h2 : n.length ≤ 65535) (hin : s.inp = be_bytes 2 n.length ++ n ++ rest)
    (hrd : ∀ x ∈ s.rd, 0 < x) :
    ∃ t, read_name le s = some (some (n ++ [0]), t) ∧
      Consumed s (be_bytes 2 n.length ++ n) t ∧ t.inp = rest := by
  obtain ⟨t1, a1, a2, a3⟩ := read_u16_ok le s n.length (n ++ rest) (by omega)
    (by rw [hin, List.append_assoc]) hrd
  obtain ⟨t2, b1, b2, b3⟩ := read_all_ok t1 n rest a3 (by omega) (a2.rd_pos hrd)
  refine ⟨t2, ?_, a2.append b2, b3⟩
  simp only [read_name, a1, Option.bind_eq_bind, Option.some_bind, b1]
  have c1 : ¬ ((2 : Int) ≤ 0) := by decide
  have c2 : ¬ ((n.length : Int) ≤ 0) := by omega
  simp [c1, c2]

theorem to_signed_to_u64 (w : Nat) (x : Int) (h1 : 1 ≤ w) (h64 : w ≤ 64)
    (hlo : -(2 ^ (w - 1)) ≤ x) (hhi : x < 2 ^ (w - 1)) :
    to_signed w ((to_u64 x : Nat) : Int) = x := by
  have e64 : ((to_u64 x : Nat) : Int) = x % 18446744073709551616 := by
    unfold to_u64
    omega
  have hdvd : (2 : Int) ^ w ∣ 18446744073709551616 := by
    have : (18446744073709551616 : Int) = 2 ^ 64 := by norm_num
    rw [this]
    exact pow_dvd_pow 2 h64
  have hw : (2 : Int) ^ w = 2 * 2 ^ (w - 1) := by
    obtain ⟨v, rfl⟩ : ∃ v, w = v + 1 := ⟨w - 1, by omega⟩
    rw [Nat.add_sub_cancel, pow_succ]; ring
  unfold to_signed
  rw [e64, Int.add_emod, Int.emod_emod_of_dvd _ hdvd, ← Int.add_emod]
  have hp : (0 : Int) < 2 ^ (w - 1) := by positivity
  rw [Int.emod_eq_of_lt (by omega) (by omega)]
  ring

theorem read_rpc_data_ok (le : Bool) (w : Nat) (s : Sock) (d : rpc_data) (rest : List Nat)
    (hv : valid_data d) (hlen : d.data2_len < 2147483648)
    (hbuf : ∀ bs, d.data2 = some bs → bs.length = d.data2_len)
    (h1 : 1 ≤ w) (h64 : w ≤ 64) (hlo : -(2 ^ (w - 1)) ≤ d.data1) (hhi : d.data1 < 2 ^ (w - 1))
    (hin : s.inp = be_bytes 8 (to_u64 d.data1) ++ be_bytes 4 d.data2_len ++
      (d.data2.getD []).take d.data2_len ++ rest)
    (hrd : ∀ x ∈ s.rd, 0 < x) :
    ∃ t, read_rpc_data le w s = some (some d, t) ∧ t.inp = rest ∧ t.out = s.out := by
  have hu64 : to_u64 d.data1 < 18446744073709551616 := by unfold to_u64; omega
  obtain ⟨t1, a1, a2, a3⟩ := read_u64_ok le s (to_u64 d.data1)
    (be_bytes 4 d.data2_len ++ (d.data2.getD []).take d.data2_len ++ rest) hu64
    (by rw [hin]; simp only [List.append_assoc]) hrd
  obtain ⟨t2, b1, b2, b3⟩ := read_u32_ok le t1 d.data2_len
    ((d.data2.getD []).take d.data2_len ++ rest) (by omega)
    (by rw [a3]; simp only [List.append_assoc]) (a2.rd_pos hrd)
  have hs := to_signed_to_u64 w d.data1 h1 h64 hlo hhi
  have c8 : ¬ ((8 : Int) ≤ 0) := by decide
  have c4 : ¬ ((4 : Int) ≤ 0) := by decide
  obtain ⟨x, n, o⟩ := d
  simp only at hv hlen hbuf hin hs a1 a3 b1 b3 hlo hhi
  by_cases h0 : n = 0
  · subst h0
    have ho : o = none := hv.2.mpr rfl
    subst ho
    refine ⟨t2, ?_, by simpa using b3, b2.2.1.trans a2.2.1⟩
    have hchk : check_rpc_data (some { data1 := x, data2_len := 0, data2 := none }) ≠ FAILED := by
      rw [(check_rpc_data_success_iff _).mpr (show valid_payload (some _) from hv)]; decide
    simp only [read_rpc_data, a1, Option.bind_eq_bind, Option.some_bind, b1, c8, c4, if_false,
      hs, gt_iff_lt, lt_self_iff_false, hchk]
    rfl
  · obtain ⟨bs, rfl⟩ : ∃ bs, o = some bs := by
      cases o with
      | none => exact absurd (hv.2.mp rfl) h0
      | some bs => exact ⟨bs, rfl⟩
    have hbl : bs.length = n := hbuf bs rfl
    have e : (some bs : Option (List Nat)).getD [] = bs := rfl
    rw [e, ← hbl, List.take_length] at b3
    obtain ⟨t3, c1, c2, c3⟩ := read_all_ok t2 bs rest b3 (by omega) (b2.rd_pos (a2.rd_pos hrd))
    refine ⟨t3, ?_, c3, c2.2.1.trans (b2.2.1.trans a2.2.1)⟩
    have hti : to_int (n : Int) = (bs.length : Int) := by
      rw [to_int_of_lt n hlen, hbl]
    have hchk : check_rpc_data (some { data1 := x, data2_len := n, data2 := some bs }) ≠ FAILED := by
      rw [(check_rpc_data_success_iff _).mpr (show valid_payload (some _) from hv)]; decide
    have hn0 : n > 0 := by omega
    have cl : ¬ ((bs.length : Int) ≤ 0) := by omega
    simp only [read_rpc_data, a1, Option.bind_eq_bind, Option.some_bind, b1, c8, c4, if_false,
      hs, hn0, if_true, hti, c1, cl, hchk]
    rfl

/-- Payload round trip below `2^31` bytes: with no transport failure, `write_rpc_data`
succeeds for a valid payload whose `data2_len` is below `2^31`, and `read_rpc_data`
applied to the bytes it emitted returns the same payload. -/
theorem payload_round_trip_small (lw lr : Bool) (w : Nat) (s t : Sock) (d : rpc_data)
    (rest : List Nat) (hv : valid_data d) (hlen : d.data2_len < 2147483648)
    (hbuf : ∀ bs, d.data2 = some bs → bs.length = d.data2_len)
    (h1 : 1 ≤ w) (h64 : w ≤ 64) (hlo : -(2 ^ (w - 1)) ≤ d.data1) (hhi : d.data1 < 2 ^ (w - 1))
    (hw : ∀ x ∈ s.wr, 0 < x) (hr : ∀ x ∈ t.rd, 0 < x)
    (hin : t.inp = (write_rpc_data lw s (some d)).2.out.drop s.out.length ++ rest) :
    (write_rpc_data lw s (some d)).1 = SUCCESS ∧
    ∃ t', read_rpc_data lr w t = some (some d, t') ∧ t'.inp = rest := by
  have h := write_rpc_data_sent lw s d hv hlen
  have hres := h.2.2.2.2.2 hw
  have hout := h.out_append (by rw [hres]; decide)
  rw [hout, List.drop_left'] at hin
  · obtain ⟨t', e1, e2, -⟩ := read_rpc_data_ok lr w t d rest hv hlen hbuf h1 h64 hlo hhi hin hr
    exact ⟨hres, t', e1, e2⟩
  · rfl

/-! ## Claims on round trips -/

/-- C2: for every valid name (the C string at a pointer over a byte buffer, 1 to
65535 bytes, each in `[32, 126]`), when no read or write of the transport fails,
`write_name` succeeds and `read_name` applied to the bytes it emitted returns a
string equal to the name, byte for byte, and consumes exactly these bytes. -/
theorem name_round_trip (lw lr : Bool) (s t : Sock) (p rest : List Nat)
    (hp : ∀ b ∈ p, b < 256) (hv : valid_name (cstr p))
    (hw : ∀ x ∈ s.wr, 0 < x) (hr : ∀ x ∈ t.rd, 0 < x)
    (hin : t.inp = (write_name lw s (some p)).2.out.drop s.out.length ++ rest) :
    (write_name lw s (some p)).1 = strlen p ∧
    ∃ q t', read_name lr t = some (some q, t') ∧ cstr q = cstr p ∧ t'.inp = rest := by
  have h := write_name_sent lw s p hp hv
  have hres := h.2.2.2.2.2 hw
  have hpos : 0 < strlen p := hv.1
  have hout := h.out_append (by omega)
  rw [hout, List.drop_left'] at hin
  · obtain ⟨t', e1, -, e3⟩ := read_name_ok lr t (cstr p) rest hv.1 hv.2.1
      (by rw [hin]; rfl) hr
    refine ⟨hres, cstr p ++ [0], t', e1, ?_, e3⟩
    exact cstr_of_ne_zero (cstr p) (cstr_ne_zero p) []
  · rfl

theorem name_round_trip_witness :
    (write_name true { inp := [], out := [], rd := [], wr := [1, 3] } (some [97, 100, 100])).1
      = strlen [97, 100, 100] ∧
    ∃ q t', read_name false { inp := [0, 3, 97, 100, 100, 7], out := [], rd := [1, 2, 1], wr := [] }
        = some (some q, t') ∧ cstr q = cstr [97, 100, 100] ∧ t'.inp = [7] :=
  name_round_trip true false { inp := [], out := [], rd := [], wr := [1, 3] }
    { inp := [0, 3, 97, 100, 100, 7], out := [], rd := [1, 2, 1], wr := [] }
    [97, 100, 100] [7] (by decide) (by decide) (by decide) (by decide) (by decide)

theorem write_rpc_data_at_2_31 (buf : List Nat) :
    valid_data { data1 := 0, data2_len := 2147483648, data2 := some buf } ∧
    write_rpc_data true { inp := [], out := [], rd := [], wr := [] }
        (some { data1 := 0, data2_len := 2147483648, data2 := some buf }) =
      (FAILED, { inp := [], out := [0, 0, 0, 0, 0, 0, 0, 0, 128, 0, 0, 0], rd := [], wr := [] }) := by
  have hv : valid_data ⟨0, 2147483648, some buf⟩ := by
    refine ⟨?_, ?_⟩
    · show (2147483648 : Nat) ≤ 4294967295
      decide
    · constructor
      · intro h; exact absurd h (by simp)
      · intro h
        have h' : (2147483648 : Nat) = 0 := h
        exact absurd h' (by decide)
  refine ⟨hv, ?_⟩
  have hc := (check_rpc_data_success_iff _).mpr (show valid_payload (some _) from hv)
  have e1 : write_u64 true { inp := [], out := [], rd := [], wr := [] } (to_u64 0) =
      (8, { inp := [], out := [0, 0, 0, 0, 0, 0, 0, 0], rd := [], wr := [] }) := by decide
  have e2 : write_u32 true { inp := [], out := [0, 0, 0, 0, 0, 0, 0, 0], rd := [], wr := [] }
      (to_u32 ((2147483648 : Nat) : Int)) =
      (4, { inp := [], out := [0, 0, 0, 0, 0, 0, 0, 0, 128, 0, 0, 0], rd := [], wr := [] }) := by
    decide
  have e3 : to_int ((2147483648 : Nat) : Int) < 0 := by decide
  unfold write_rpc_data
  rw [if_neg (by rw [hc]; decide)]
  simp only [e1, e2, write_all_neg _ _ _ e3]
  decide

/-- C1, evaluated at a valid payload with `data2_len = 2^31`: `write_rpc_data` sends the
12 header bytes, then `write_all` receives the length converted to `int`, which is
negative, and fails; `read_rpc_data` applied to the bytes emitted has no defined
result (`read_all` is called with the same negative length). -/
theorem payload_round_trip_fails_at_2_31 :
    valid_data { data1 := 0, data2_len := 2147483648,
                 data2 := some (List.replicate 2147483648 0) } ∧
    write_rpc_data true { inp := [], out := [], rd := [], wr := [] }
        (some { data1 := 0, data2_len := 2147483648,
                data2 := some (List.replicate 2147483648 0) }) =
      (FAILED, { inp := [], out := [0, 0, 0, 0, 0, 0, 0, 0, 128, 0, 0, 0], rd := [], wr := [] }) ∧
    read_rpc_data true 64
        { inp := [0, 0, 0, 0, 0, 0, 0, 0, 128, 0, 0, 0], out := [], rd := [], wr := [] } = none :=
  ⟨(write_rpc_data_at_2_31 _).1, (write_rpc_data_at_2_31 _).2, by decide⟩

/-! ## The registry -/

theorem strcmp_eq_zero_iff (a b : List Nat) : strcmp a b = 0 ↔ cstr a = cstr b := by
  induction a generalizing b with
  | nil =>
    cases b with
    | nil => simp [strcmp, cstr]
    | cons y ys =>
      by_cases hy : y = 0
      · simp [strcmp, cstr, hy]
      · have hy' : (y != 0) = true := by simpa using hy
        simp only [strcmp, cstr, hy, if_false, List.takeWhile_nil, List.takeWhile_cons, hy',
          if_true]
        constructor
        · intro h; omega
        · intro h; exact absurd h (by simp)
  | cons x xs ih =>
    cases b with
    | nil =>
      by_cases hx : x = 0
      · simp [strcmp, cstr, hx]
      · have hx' : (x != 0) = true := by simpa using hx
        simp only [strcmp, cstr, hx, if_false, List.takeWhile_nil, List.takeWhile_cons, hx',
          if_true]
        constructor
        · intro h; omega
        · intro h; exact absurd h (by simp)
    | cons y ys =>
      by_cases hxy : x = y
      · subst hxy
        by_cases hx : x = 0
        · simp [strcmp, cstr, hx]
        · have hx' : (x != 0) = true := by simpa using hx
          have := ih ys
          simp only [cstr] at this
          simp only [strcmp, cstr, ne_eq, not_true_eq_false, if_false, hx, List.takeWhile_cons,
            hx', if_true, List.cons.injEq, true_and]
          exact this
      · simp only [strcmp, ne_eq, hxy, not_false_eq_true, if_true, cstr, List.takeWhile_cons]
        constructor
        · intro h; omega
        · intro h
          by_cases hx : x = 0
          · by_cases hy : y = 0
            · omega
            · have hy' : (y != 0) = true := by simpa using hy
              simp [hx, hy'] at h
          · have hx' : (x != 0) = true := by simpa using hx
            by_cases hy : y = 0
            · simp [hx', hy] at h
            · have hy' : (y != 0) = true := by simpa using hy
              simp only [hx', hy', if_true, List.cons.injEq] at h
              exact absurd h.1 hxy

theorem search_array_loop_failed_iff (cmp : rpc_func → List Nat → Int) (key : List Nat) :
    ∀ (A : List rpc_func) (i : Int), 0 ≤ i →
      (search_array_loop cmp key A i = FAILED ↔ ∀ f ∈ A, cmp f key ≠ 0) := by
  intro A
  induction A with
  | nil => intro i _; simp [search_array_loop]
  | cons f rest ih =>
    intro i hi
    by_cases hc : cmp f key = 0
    · simp only [search_array_loop, hc, if_true, List.mem_cons, forall_eq_or_imp, ne_eq,
        not_true_eq_false, false_and, iff_false]
      intro h
      have : i = -1 := h
      omega
    · simp only [search_array_loop, hc, if_false, List.mem_cons, forall_eq_or_imp, ne_eq,
        not_false_eq_true, true_and]
      exact ih (i + 1) (by omega)

theorem cstr_strdup (p : List Nat) : cstr (strdup p) = cstr p :=
  cstr_of_ne_zero (cstr p) (cstr_ne_zero p) []

/-! ## Claims on the registry and on the decode path -/

/-- C10: registering a new name appends.  If the name is valid, the handler is
present, no entry of the registry has that name and the allocations succeed, then
`rpc_register` returns `SUCCESS`, the registry has one more entry, the new entry is at
the index that was the size and holds a copy of the name and the handler, and the
earlier entries are unchanged. -/
theorem rpc_register_appends (sv : rpc_server) (arr : array_t) (p : List Nat) (h : rpc_handler)
    (hf : sv.functions = some arr) (hcmp : arr.cmp = cmp_func_name)
    (hp : ∀ b ∈ p, b < 256) (hv : valid_name (cstr p))
    (hnew : ∀ f ∈ arr.A, cstr f.name ≠ cstr p) :
    ∃ arr', rpc_register (some sv) (some p) (some h) true true =
        (SUCCESS, some { sv with functions := some arr' }) ∧
      arr'.A.length = arr.A.length + 1 ∧
      arr'.A[arr.A.length]? = some { name := strdup p, handler := h } ∧
      cstr (strdup p) = cstr p ∧
      (∀ i, i < arr.A.length → arr'.A[i]? = arr.A[i]?) ∧
      arr'.cmp = arr.cmp := by
  have hc : check_name (some p) = SUCCESS := by
    rw [check_name_success_iff, is_valid_name_some p hp]; exact hv
  have hs : search_array (some arr) (some p) = FAILED := by
    unfold search_array
    rw [search_array_loop_failed_iff _ _ _ _ (le_refl _), hcmp]
    intro f hfm
    unfold cmp_func_name
    rw [ne_eq, strcmp_eq_zero_iff]
    exact hnew f hfm
  have hcr : create_rpc_func (some p) (some h) true = some { name := strdup p, handler := h } := by
    unfold create_rpc_func
    simp only [hc]
    rfl
  by_cases hcap : arr.n < arr.capacity
  · refine ⟨{ arr with A := arr.A ++ [{ name := strdup p, handler := h }] }, ?_, ?_, ?_,
      cstr_strdup p, ?_, rfl⟩
    · simp only [rpc_register, hf, hc, hs, hcr, array_append, ensure_array_capacity, hcap]
      rfl
    · simp
    · simp
    · intro i hi
      exact List.getElem?_append_left hi
  · refine ⟨⟨arr.A ++ [{ name := strdup p, handler := h }], arr.capacity * 2, arr.cmp⟩,
      ?_, ?_, ?_, cstr_strdup p, ?_, rfl⟩
    · simp only [rpc_register, hf, hc, hs, hcr, array_append, ensure_array_capacity, hcap]
      rfl
    · simp
    · simp
    · intro i hi
      exact List.getElem?_append_left hi


theorem rpc_register_appends_witness :
    ∃ arr', rpc_register
        (some { listening_sd := 3,
                functions := some { A := [{ name := [97, 100, 100, 0], handler := fun _ => none }],
                                    capacity := 20, cmp := cmp_func_name } })
        (some [115, 117, 98]) (some (fun d => some d)) true true =
        (SUCCESS, some { listening_sd := 3, functions := some arr' }) ∧
      arr'.A.length = 1 + 1 ∧
      arr'.A[1]? = some { name := strdup [115, 117, 98], handler := fun d => some d } ∧
      cstr (strdup [115, 117, 98]) = cstr [115, 117, 98] ∧
      (∀ i, i < 1 → arr'.A[i]? =
        [({ name := [97, 100, 100, 0], handler := fun _ => none } : rpc_func)][i]?) ∧
      arr'.cmp = cmp_func_name :=
  rpc_register_appends
    { listening_sd := 3,
      functions := some { A := [{ name := [97, 100, 100, 0], handler := fun _ => none }],
                          capacity := 20, cmp := cmp_func_name } }
    { A := [{ name := [97, 100, 100, 0], handler := fun _ => none }],
      capacity := 20, cmp := cmp_func_name }
    [115, 117, 98] (fun d => some d) rfl rfl (by decide) (by decide) (by decide)

/-- C7, evaluated at a FIND body whose name bytes contain a zero byte: with `add`
registered at index 0, the body `00 04 'a' 'd' 'd' 00` (declared length 4, last name
byte 0, outside `[32, 126]`) is accepted: `check_name` sees the C string `add`, and
`handle_find` answers with the success status 2 and the handle 0. -/
theorem handle_find_accepts_embedded_nul :
    handle_find true
        { listening_sd := 3,
          functions := some { A := [{ name := [97, 100, 100, 0], handler := fun _ => none }],
                              capacity := 20, cmp := cmp_func_name } }
        { inp := [0, 4, 97, 100, 100, 0], out := [], rd := [], wr := [] } =
      some (SUCCESS, { inp := [], out := [0, 0, 0, 2, 0, 0, 0, 0], rd := [], wr := [] }) := by
  decide

theorem cstr_append_zero (n : List Nat) : cstr (n ++ [0]) = cstr n := by
  induction n with
  | nil => simp [cstr]
  | cons a n ih =>
    simp only [cstr] at ih ⊢
    by_cases ha : a = 0
    · simp [ha]
    · have ha' : (a != 0) = true := by simpa using ha
      simp only [List.cons_append, List.takeWhile_cons, ha', if_true, ih]

/-- What does hold on the decode path: when the C string of the received name bytes
(the bytes before the first zero byte) is not a valid name, in particular when the
declared length is 0 or the first byte is zero, or when reading fails, `handle_find`
returns `FAILED` and writes nothing. -/
theorem handle_find_rejects_invalid_cstr (le : Bool) (srv : rpc_server) (s : Sock)
    (b1 b2 : Nat) (n rest : List Nat) (hb1 : b1 < 256) (hb2 : b2 < 256)
    (hn : ∀ b ∈ n, b < 256) (hlen : n.length = b1 * 256 + b2)
    (hin : s.inp = [b1, b2] ++ n ++ rest) (hinv : ¬ valid_name (cstr n)) :
    ∃ t, handle_find le srv s = some (FAILED, t) ∧ t.out = s.out := by
  obtain ⟨r0, e0, o0, -, -, l0, -, p0, -⟩ := read_all_spec s 2 (by decide)
  have e0' : read_all s U16_SIZE = some r0 := e0
  by_cases c0 : r0.1 ≤ 0
  · refine ⟨r0.2.2, ?_, o0⟩
    simp only [handle_find, read_name, read_u16, e0', Option.bind_eq_bind, Option.some_bind, c0,
      if_true, Option.pure_def]
    have c0' := check_io_err_nonpos _ c0
    simp only [c0', if_true, Option.some_bind]
    rfl
  · obtain ⟨q1, -, q3, q4⟩ := p0 (by omega)
    have ht : r0.2.1 = [b1, b2] := by
      rw [q3, hin]; rfl
    have hi : r0.2.2.inp = n ++ rest := by
      rw [q4, hin]; rfl
    have hv : ntohs le (val_of_mem le r0.2.1) = n.length := by
      rw [ht, ntohs_val_of_mem le [b1, b2] rfl (by
        intro b hb
        simp only [List.mem_cons, List.mem_singleton, List.not_mem_nil, or_false] at hb
        rcases hb with h | h <;> omega), hlen]
      simp [of_be]
    obtain ⟨r1, e1, o1, -, -, l1, -, p1, -⟩ := read_all_spec r0.2.2 (n.length : Int) (by omega)
    have hq : ¬ (r0.1 ≤ 0) := c0
    by_cases c1 : r1.1 ≤ 0
    · refine ⟨r1.2.2, ?_, o1.trans o0⟩
      simp only [handle_find, read_name, read_u16, e0', Option.bind_eq_bind, Option.some_bind,
        hq, if_false, Option.pure_def, hv, e1, c1, if_true]
      rfl
    · obtain ⟨-, -, u3, -⟩ := p1 (by omega)
      rw [Int.toNat_ofNat, hi, List.take_left'] at u3
      · refine ⟨r1.2.2, ?_, o1.trans o0⟩
        have hbytes : ∀ b ∈ n ++ [0], b < 256 := by
          intro b hb
          rcases List.mem_append.mp hb with h | h
          · exact hn b h
          · simp only [List.mem_singleton] at h; omega
        have hck : check_name (some (n ++ [0])) = FAILED := by
          rw [check_name_failed_iff, is_valid_name_some _ hbytes, cstr_append_zero]
          exact hinv
        simp only [handle_find, read_name, read_u16, e0', Option.bind_eq_bind, Option.some_bind,
          hq, if_false, Option.pure_def, hv, e1, c1, u3, hck, if_true]
      · rfl

/-! ## Enough fuel -/

/-- The bound on the iterations of the loop of `write_all` is never reached: any larger
bound gives the same result. -/
theorem write_all_fuel (s : Sock) (buf : List Nat) (len : Int) (h0 : 0 ≤ len) (extra : Nat) :
    write_all_loop buf len (len.toNat + 1 + extra) s 0 len = write_all s buf len := by
  obtain ⟨l, rfl⟩ : ∃ l : Nat, len = (l : Int) := ⟨len.toNat, by omega⟩
  induction extra with
  | zero => rfl
  | succ k ih =>
    rw [← ih]
    have h := write_all_loop_fuel buf (l : Int) ((l : Int).toNat + 1 + k) s 0 l (by simp)
      (by simp only [Int.toNat_ofNat]; omega)
    simpa [Nat.add_assoc] using h

/-- The bound on the iterations of the loop of `read_all` is never reached. -/
theorem read_all_fuel (s : Sock) (len : Int) (h0 : 0 ≤ len) (extra : Nat) :
    read_all_loop len (len.toNat + 1 + extra) s [] 0 len =
      read_all_loop len (len.toNat + 1) s [] 0 len := by
  obtain ⟨l, rfl⟩ : ∃ l : Nat, len = (l : Int) := ⟨len.toNat, by omega⟩
  induction extra with
  | zero => rfl
  | succ k ih =>
    rw [← ih]
    have h := read_all_loop_fuel (l : Int) ((l : Int).toNat + 1 + k) s [] 0 l (by simp)
      (by simp only [Int.toNat_ofNat]; omega)
    simpa [Nat.add_assoc] using h

/-! ## Lookup by name -/

theorem cmp_func_name_eq_zero_iff (f : rpc_func) (key : List Nat) :
    cmp_func_name f key = 0 ↔ cstr f.name = cstr key := by
  unfold cmp_func_name
  exact strcmp_eq_zero_iff _ _

theorem search_array_loop_found (cmp : rpc_func → List Nat → Int) (key : List Nat) :
    ∀ (A : List rpc_func) (i0 : Int) (k : Nat) (f : rpc_func), A[k]? = some f →
      cmp f key = 0 → (∀ j, j < k → ∀ g, A[j]? = some g → cmp g key ≠ 0) →
      search_array_loop cmp key A i0 = i0 + k := by
  intro A
  induction A with
  | nil => intro i0 k f hk; simp at hk
  | cons a rest ih =>
    intro i0 k f hk hz hfirst
    cases k with
    | zero =>
      simp only [List.getElem?_cons_zero, Option.some.injEq] at hk
      subst hk
      simp [search_array_loop, hz]
    | succ k =>
      have ha : cmp a key ≠ 0 := hfirst 0 (Nat.succ_pos _) a (by simp)
      simp only [List.getElem?_cons_succ] at hk
      have := ih (i0 + 1) k f hk hz (fun j hj g hg => hfirst (j + 1) (by omega) g (by simpa using hg))
      simp only [search_array_loop, ha, if_false, this]
      push_cast
      ring

theorem search_array_loop_cases (cmp : rpc_func → List Nat → Int) (key : List Nat) :
    ∀ (A : List rpc_func) (i0 : Int),
      (search_array_loop cmp key A i0 = FAILED ∧ ∀ f ∈ A, cmp f key ≠ 0) ∨
      ∃ (k : Nat) (f : rpc_func), A[k]? = some f ∧ cmp f key = 0 ∧
        (∀ j, j < k → ∀ g, A[j]? = some g → cmp g key ≠ 0) ∧
        search_array_loop cmp key A i0 = i0 + k := by
  intro A
  induction A with
  | nil => intro i0; left; simp [search_array_loop]
  | cons a rest ih =>
    intro i0
    by_cases ha : cmp a key = 0
    · right
      refine ⟨0, a, by simp, ha, fun j hj => absurd hj (Nat.not_lt_zero _), ?_⟩
      simp [search_array_loop, ha]
    · rcases ih (i0 + 1) with ⟨h1, h2⟩ | ⟨k, f, h1, h2, h3, h4⟩
      · left
        refine ⟨by simp only [search_array_loop, ha, if_false, h1], ?_⟩
        intro f hf
        rcases List.mem_cons.mp hf with h | h
        · rw [h]; exact ha
        · exact h2 f h
      · right
        refine ⟨k + 1, f, by simpa using h1, h2, ?_, ?_⟩
        · intro j hj g hg
          cases j with
          | zero =>
            simp only [List.getElem?_cons_zero, Option.some.injEq] at hg
            rw [← hg]; exact ha
          | succ j =>
            exact h3 j (by omega) g (by simpa using hg)
        · simp only [search_array_loop, ha, if_false, h4]
          push_cast
          ring

theorem search_array_some (arr : array_t) (key : List Nat) :
    search_array (some arr) (some key) = search_array_loop arr.cmp key arr.A 0 := rfl

theorem getElem?_lt_length {α : Type} (l : List α) (k : Nat) (x : α) (h : l[k]? = some x) :
    k < l.length := by
  by_contra hc
  rw [List.getElem?_eq_none (by omega)] at h
  exact absurd h (by simp)

/-- The result of `search_array` with the comparator `cmp_func_name`: not found and no
entry has the name, or the index of the first entry that has it. -/
theorem search_array_cases (arr : array_t) (key : List Nat) (hcmp : arr.cmp = cmp_func_name) :
    (search_array (some arr) (some key) = FAILED ∧ ∀ f ∈ arr.A, cstr f.name ≠ cstr key) ∨
    ∃ (k : Nat) (f : rpc_func), arr.A[k]? = some f ∧ cstr f.name = cstr key ∧
      (∀ j, j < k → ∀ g, arr.A[j]? = some g → cstr g.name ≠ cstr key) ∧
      search_array (some arr) (some key) = (k : Int) := by
  rw [search_array_some, hcmp]
  rcases search_array_loop_cases cmp_func_name key arr.A 0 with ⟨h1, h2⟩ | ⟨k, f, h1, h2, h3, h4⟩
  · left
    exact ⟨h1, fun f hf => by rw [ne_eq, ← cmp_func_name_eq_zero_iff]; exact h2 f hf⟩
  · right
    refine ⟨k, f, h1, (cmp_func_name_eq_zero_iff f key).mp h2, ?_, by simpa using h4⟩
    intro j hj g hg
    rw [ne_eq, ← cmp_func_name_eq_zero_iff]
    exact h3 j hj g hg

theorem search_array_found (arr : array_t) (key : List Nat) (hcmp : arr.cmp = cmp_func_name)
    (k : Nat) (f : rpc_func) (hk : arr.A[k]? = some f) (hn : cstr f.name = cstr key)
    (hfirst : ∀ j, j < k → ∀ g, arr.A[j]? = some g → cstr g.name ≠ cstr key) :
    search_array (some arr) (some key) = (k : Int) := by
  rw [search_array_some, hcmp]
  have := search_array_loop_found cmp_func_name key arr.A 0 k f hk
    ((cmp_func_name_eq_zero_iff f key).mpr hn)
    (fun j hj g hg => by rw [ne_eq, cmp_func_name_eq_zero_iff]; exact hfirst j hj g hg)
  simpa using this

theorem search_array_not_found (arr : array_t) (key : List Nat) (hcmp : arr.cmp = cmp_func_name)
    (hnone : ∀ f ∈ arr.A, cstr f.name ≠ cstr key) :
    search_array (some arr) (some key) = FAILED := by
  rw [search_array_some, search_array_loop_failed_iff _ _ _ _ (le_refl _), hcmp]
  intro f hf
  rw [ne_eq, cmp_func_name_eq_zero_iff]
  exact hnone f hf

/-! ## Claim on lookup by name -/

/-- C13: with the comparator `cmp_func_name`, for every registry and every present key,
`search_array` returns either `FAILED` or an index in `[0, size)`; it returns `FAILED`
exactly when no entry has the key as its name (compared as C strings, byte for byte),
and it returns `i` exactly when entry `i` is the first entry whose name equals the key. -/
theorem search_array_correct (arr : array_t) (key : List Nat) (hcmp : arr.cmp = cmp_func_name) :
    (search_array (some arr) (some key) = FAILED ∨
      (0 ≤ search_array (some arr) (some key) ∧
        search_array (some arr) (some key) < (arr.A.length : Int))) ∧
    (search_array (some arr) (some key) = FAILED ↔ ∀ f ∈ arr.A, cstr f.name ≠ cstr key) ∧
    (∀ i : Nat, search_array (some arr) (some key) = (i : Int) ↔
      ∃ f, arr.A[i]? = some f ∧ cstr f.name = cstr key ∧
        ∀ j, j < i → ∀ g, arr.A[j]? = some g → cstr g.name ≠ cstr key) := by
  rcases search_array_cases arr key hcmp with ⟨h1, h2⟩ | ⟨k, f, h1, h2, h3, h4⟩
  · refine ⟨Or.inl h1, ⟨fun _ => h2, fun _ => h1⟩, ?_⟩
    intro i
    rw [h1]
    constructor
    · intro h
      have : (-1 : Int) = (i : Int) := h
      omega
    · rintro ⟨f, hf, hn, -⟩
      exact absurd hn (h2 f (List.getElem?_mem hf))
  · have hlt := getElem?_lt_length arr.A k f h1
    refine ⟨Or.inr ⟨by rw [h4]; omega, by rw [h4]; omega⟩, ?_, ?_⟩
    · rw [h4]
      constructor
      · intro h
        have : (k : Int) = -1 := h
        omega
      · intro h
        exact absurd h2 (h f (List.getElem?_mem h1))
    · intro i
      rw [h4]
      constructor
      · intro h
        have hki : k = i := by omega
        subst hki
        exact ⟨f, h1, h2, h3⟩
      · rintro ⟨g, hg, hn, hfirst⟩
        rcases Nat.lt_trichotomy k i with hlt' | heq | hgt
        · exact absurd h2 (hfirst k hlt' f h1)
        · rw [heq]
        · exact absurd hn (h3 i hgt g hg)

theorem search_array_correct_witness :
    search_array
        (some { A := [{ name := [97, 0], handler := fun _ => none },
                      { name := [98, 0], handler := fun _ => none },
                      { name := [98, 0, 7], handler := fun d => some d }],
                capacity := 20, cmp := cmp_func_name })
        (some [98]) = ((1 : Nat) : Int) ↔
      ∃ f, [({ name := [97, 0], handler := fun _ => none } : rpc_func),
            { name := [98, 0], handler := fun _ => none },
            { name := [98, 0, 7], handler := fun d => some d }][1]? = some f ∧
        cstr f.name = cstr [98] ∧
        ∀ j, j < 1 → ∀ g,
          [({ name := [97, 0], handler := fun _ => none } : rpc_func),
            { name := [98, 0], handler := fun _ => none },
            { name := [98, 0, 7], handler := fun d => some d }][j]? = some g →
          cstr g.name ≠ cstr [98] :=
  (search_array_correct
    { A := [{ name := [97, 0], handler := fun _ => none },
            { name := [98, 0], handler := fun _ => none },
            { name := [98, 0, 7], handler := fun d => some d }],
      capacity := 20, cmp := cmp_func_name } [98] rfl).2.2 1

/-! ## Registration -/

theorem cstr_cstr (p : List Nat) : cstr (cstr p) = cstr p :=
  cstr_self (cstr p) (cstr_ne_zero p)

theorem is_valid_name_cstr (p : List Nat) :
    is_valid_name (some (cstr p)) = is_valid_name (some p) := by
  have hl : strlen (cstr p) = strlen p := by unfold strlen; rw [cstr_cstr]
  have hany : ∀ g : Nat → Bool,
      (List.range (strlen p)).any (fun i => g ((cstr p).getD i 0)) =
      (List.range (strlen p)).any (fun i => g (p.getD i 0)) := by
    intro g
    rw [Bool.eq_iff_iff]
    simp only [List.any_eq_true, List.mem_range]
    constructor
    · rintro ⟨i, hi, hg⟩
      exact ⟨i, hi, by rwa [getD_cstr p i hi]⟩
    · rintro ⟨i, hi, hg⟩
      exact ⟨i, hi, by rwa [getD_cstr p i hi] at hg⟩
  unfold is_valid_name
  simp only [hl]
  rw [hany (fun b => decide (to_char b < MIN_NAME_CHAR ∨ to_char b > MAX_NAME_CHAR))]

theorem check_name_of_valid (p : List Nat) (hv : valid_name (cstr p)) :
    check_name (some p) = SUCCESS := by
  rw [check_name_success_iff, ← is_valid_name_cstr,
    is_valid_name_some (cstr p) (fun b hb => (valid_name_byte _ hv b hb).1), cstr_cstr]
  exact hv

theorem check_name_cases (name : Option (List Nat)) :
    check_name name = SUCCESS ∨ check_name name = FAILED := by
  unfold check_name
  split_ifs
  · right; rfl
  · left; rfl

theorem rpc_server_eta (sv : rpc_server) (arr : array_t) (hf : sv.functions = some arr) :
    ({ sv with functions := some arr } : rpc_server) = sv := by
  cases sv
  simp only at hf
  subst hf
  rfl

theorem rpc_register_rejects (srv : Option rpc_server) (name : Option (List Nat))
    (handler : Option rpc_handler) (m r : Bool)
    (h : srv = none ∨ name = none ∨ handler = none ∨ check_name name = FAILED) :
    rpc_register srv name handler m r = (FAILED, srv) := by
  unfold rpc_register
  cases srv with
  | none => rfl
  | some sv =>
    simp only []
    by_cases c1 : sv.functions.isNone = true ∨ name.isNone = true ∨ handler.isNone = true
    · rw [if_pos c1]
    · rw [if_neg c1]
      rcases h with h | h | h | h
      · exact absurd h (by simp)
      · exact absurd (Or.inr (Or.inl (by rw [h]; rfl))) c1
      · exact absurd (Or.inr (Or.inr (by rw [h]; rfl))) c1
      · rw [if_pos h]

theorem rpc_register_no_array (sv : rpc_server) (hf : sv.functions = none)
    (name : Option (List Nat)) (handler : Option rpc_handler) (m r : Bool) :
    rpc_register (some sv) name handler m r = (FAILED, some sv) := by
  unfold rpc_register
  simp [hf]

theorem rpc_register_replace (sv : rpc_server) (arr : array_t) (hf : sv.functions = some arr)
    (hcmp : arr.cmp = cmp_func_name) (p : List Nat) (h : rpc_handler) (i : Nat) (f : rpc_func)
    (hc : check_name (some p) = SUCCESS) (hi : arr.A[i]? = some f)
    (hname : cstr f.name = cstr p)
    (hfirst : ∀ j, j < i → ∀ g, arr.A[j]? = some g → cstr g.name ≠ cstr p) (m r : Bool) :
    rpc_register (some sv) (some p) (some h) m r =
      (SUCCESS,
        some ⟨sv.listening_sd, some ⟨arr.A.set i ⟨f.name, h⟩, arr.capacity, arr.cmp⟩⟩) := by
  have hs := search_array_found arr p hcmp i f hi hname hfirst
  have hlt := getElem?_lt_length arr.A i f hi
  have hne : ((i : Int) ≠ FAILED) := by
    intro hh
    have : (i : Int) = -1 := hh
    omega
  have hvi : is_valid_idx (some arr) (i : Int) = TRUE := by
    unfold is_valid_idx array_t.n
    simp only []
    rw [if_pos ⟨by omega, by omega⟩]
  have hg : get_elem_at (some arr) (i : Int) = some f := by
    unfold get_elem_at
    simp only [hvi, Int.toNat_ofNat, hi]
    rfl
  have hrep : replace_func (some arr) (i : Int) (some h) =
      (SUCCESS, some ⟨arr.A.set i ⟨f.name, h⟩, arr.capacity, arr.cmp⟩) := by
    unfold replace_func
    simp only [hvi, hg, Int.toNat_ofNat]
    rfl
  unfold rpc_register
  simp only [hf, hc, hs, hrep]
  rw [if_neg (by simp), if_neg (by decide), if_pos hne]

theorem rpc_register_new (sv : rpc_server) (arr : array_t) (hf : sv.functions = some arr)
    (hcmp : arr.cmp = cmp_func_name) (p : List Nat) (h : rpc_handler)
    (hc : check_name (some p) = SUCCESS) (hnone : ∀ f ∈ arr.A, cstr f.name ≠ cstr p)
    (m r : Bool) :
    rpc_register (some sv) (some p) (some h) m r =
      if m = true ∧ (arr.n < arr.capacity ∨ r = true) then
        (SUCCESS,
          some ⟨sv.listening_sd, some ⟨arr.A ++ [⟨strdup p, h⟩],
            if arr.n < arr.capacity then arr.capacity else arr.capacity * 2, arr.cmp⟩⟩)
      else (FAILED, some sv) := by
  have hs := search_array_not_found arr p hcmp hnone
  have heta := rpc_server_eta sv arr hf
  unfold rpc_register
  simp only [hf, hc, hs]
  rw [if_neg (by simp), if_neg (by decide), if_neg (by simp)]
  cases m with
  | false =>
    simp [create_rpc_func, hc]
  | true =>
    have hcr : create_rpc_func (some p) (some h) true = some { name := strdup p, handler := h } := by
      unfold create_rpc_func
      simp only [hc]
      rfl
    simp only [hcr]
    by_cases hcap : arr.n < arr.capacity
    · simp only [array_append, ensure_array_capacity, hcap, if_true, true_or, and_self]
      rfl
    · cases r with
      | false =>
        simp only [array_append, ensure_array_capacity, hcap, if_false]
        simp [heta]
      | true =>
        simp only [array_append, ensure_array_capacity, hcap, if_false]
        rfl

/-! ## Lookup by index -/

theorem is_valid_idx_in (arr : array_t) (idx : Int) (h0 : 0 ≤ idx)
    (h1 : idx < (arr.A.length : Int)) : is_valid_idx (some arr) idx = TRUE := by
  have hc : idx ≥ 0 ∧ idx < arr.n := ⟨h0, h1⟩
  simp only [is_valid_idx, hc, and_self, if_true]

theorem is_valid_idx_out (arr : array_t) (idx : Int)
    (h : idx < 0 ∨ (arr.A.length : Int) ≤ idx) : is_valid_idx (some arr) idx = FALSE := by
  have hc : ¬ (idx ≥ 0 ∧ idx < arr.n) := by
    unfold array_t.n
    omega
  simp only [is_valid_idx, hc, if_false]

theorem get_elem_at_in (arr : array_t) (i : Nat) (hlt : i < arr.A.length) :
    get_elem_at (some arr) (i : Int) = arr.A[i]? := by
  have hv := is_valid_idx_in arr (i : Int) (by omega) (by omega)
  have hne : ¬ (TRUE = FALSE) := by decide
  simp only [get_elem_at, hv, hne, if_false, Int.toNat_ofNat]

theorem get_elem_at_out (arr : array_t) (idx : Int)
    (h : idx < 0 ∨ (arr.A.length : Int) ≤ idx) : get_elem_at (some arr) idx = none := by
  have hv := is_valid_idx_out arr idx h
  simp only [get_elem_at, hv, if_true]

/-! ## Claims on registration -/

/-- C11: re-registering replaces in place.  If entry `i` is the entry found for the
name (the first one that has it, the only one in a name-unique registry) and the name
is valid, `rpc_register` with a present handler `h2` returns `SUCCESS` whatever the
allocator would do, the size and capacity are unchanged, entry `i` keeps its name and
has handler `h2`, so that `get_elem_at` at `i` yields it, and every other entry is
unchanged. -/
theorem rpc_register_replaces (sv : rpc_server) (arr : array_t) (p : List Nat)
    (h2 : rpc_handler) (i : Nat) (f : rpc_func) (m r : Bool)
    (hf : sv.functions = some arr) (hcmp : arr.cmp = cmp_func_name)
    (hv : valid_name (cstr p)) (hi : arr.A[i]? = some f) (hname : cstr f.name = cstr p)
    (hfirst : ∀ j, j < i → ∀ g, arr.A[j]? = some g → cstr g.name ≠ cstr p) :
    ∃ arr', rpc_register (some sv) (some p) (some h2) m r =
        (SUCCESS, some { sv with functions := some arr' }) ∧
      arr'.A.length = arr.A.length ∧
      arr'.A[i]? = some { name := f.name, handler := h2 } ∧
      get_elem_at (some arr') (i : Int) = some { name := f.name, handler := h2 } ∧
      (∀ j, j ≠ i → arr'.A[j]? = arr.A[j]?) ∧
      arr'.capacity = arr.capacity ∧ arr'.cmp = arr.cmp := by
  have hlt := getElem?_lt_length arr.A i f hi
  have hset : (arr.A.set i ⟨f.name, h2⟩)[i]? = some ⟨f.name, h2⟩ := by
    rw [List.getElem?_set_self hlt]
  refine ⟨⟨arr.A.set i ⟨f.name, h2⟩, arr.capacity, arr.cmp⟩,
    rpc_register_replace sv arr hf hcmp p h2 i f (check_name_of_valid p hv) hi hname hfirst m r,
    by simp, hset, ?_, ?_, rfl, rfl⟩
  · rw [get_elem_at_in _ i (by simpa using hlt)]
    exact hset
  · intro j hj
    exact List.getElem?_set_ne (Ne.symm hj)

theorem rpc_register_replaces_witness :
    ∃ arr', rpc_register
        (some { listening_sd := 3,
                functions := some { A := [{ name := [97, 0], handler := fun _ => none },
                                          { name := [98, 0], handler := fun _ => none }],
                                    capacity := 20, cmp := cmp_func_name } })
        (some [98]) (some (fun d => some d)) false false =
        (SUCCESS, some { listening_sd := 3, functions := some arr' }) ∧
      arr'.A.length = 2 ∧
      arr'.A[1]? = some { name := [98, 0], handler := fun d => some d } ∧
      get_elem_at (some arr') ((1 : Nat) : Int) =
        some { name := [98, 0], handler := fun d => some d } ∧
      (∀ j, j ≠ 1 → arr'.A[j]? =
        [({ name := [97, 0], handler := fun _ => none } : rpc_func),
          { name := [98, 0], handler := fun _ => none }][j]?) ∧
      arr'.capacity = 20 ∧ arr'.cmp = cmp_func_name :=
  rpc_register_replaces
    { listening_sd := 3,
      functions := some { A := [{ name := [97, 0], handler := fun _ => none },
                                { name := [98, 0], handler := fun _ => none }],
                          capacity := 20, cmp := cmp_func_name } }
    { A := [{ name := [97, 0], handler := fun _ => none },
            { name := [98, 0], handler := fun _ => none }],
      capacity := 20, cmp := cmp_func_name }
    [98] (fun d => some d) 1 { name := [98, 0], handler := fun _ => none } false false
    rfl rfl (by decide) rfl (by decide)
    (by
      intro j hj g hg
      have hj0 : j = 0 := by omega
      subst hj0
      simp only [List.getElem?_cons_zero, Option.some.injEq] at hg
      rw [← hg]
      decide)

/-- C12: registration fails atomically.  Whenever the server, the name or the handler
is absent, or the name (a byte buffer) is not a valid name (empty, longer than 65535
bytes, or with a byte outside `[32, 126]`), `rpc_register` returns `FAILED` and the
server it leaves is the one it was given: same size, names, handlers and order. -/
theorem rpc_register_fails_atomically (srv : Option rpc_server) (name : Option (List Nat))
    (handler : Option rpc_handler) (m r : Bool) (hp : ∀ b ∈ name.getD [], b < 256)
    (h : srv = none ∨ name = none ∨ handler = none ∨ ¬ valid_cname name) :
    rpc_register srv name handler m r = (FAILED, srv) := by
  apply rpc_register_rejects
  rcases h with h | h | h | h
  · exact Or.inl h
  · exact Or.inr (Or.inl h)
  · exact Or.inr (Or.inr (Or.inl h))
  · right; right; right
    rw [check_name_failed_iff, is_valid_name_iff name hp]
    exact h

theorem rpc_register_fails_atomically_witness :
    rpc_register
        (some { listening_sd := 3,
                functions := some { A := [{ name := [97, 0], handler := fun _ => none }],
                                    capacity := 20, cmp := cmp_func_name } })
        (some [97, 10, 98]) (some (fun d => some d)) true true =
      (FAILED,
        some { listening_sd := 3,
               functions := some { A := [{ name := [97, 0], handler := fun _ => none }],
                                   capacity := 20, cmp := cmp_func_name } }) :=
  rpc_register_fails_atomically _ (some [97, 10, 98]) _ true true (by decide)
    (Or.inr (Or.inr (Or.inr (by decide))))

/-! ## Lookup in terms of the stored names -/

theorem names_getElem? (arr : array_t) (k : Nat) :
    arr.names[k]? = (arr.A[k]?).map (fun f => cstr f.name) := by
  unfold array_t.names
  rw [List.getElem?_map]

theorem names_length (arr : array_t) : arr.names.length = arr.A.length := by
  unfold array_t.names
  rw [List.length_map]

theorem mem_names (arr : array_t) (n : List Nat) :
    n ∈ arr.names ↔ ∃ f ∈ arr.A, cstr f.name = n := by
  unfold array_t.names
  rw [List.mem_map]

theorem search_array_cases_names (arr : array_t) (key : List Nat)
    (hcmp : arr.cmp = cmp_func_name) :
    (search_array (some arr) (some key) = FAILED ∧ cstr key ∉ arr.names) ∨
    ∃ k : Nat, arr.names[k]? = some (cstr key) ∧
      (∀ j, j < k → arr.names[j]? ≠ some (cstr key)) ∧
      search_array (some arr) (some key) = (k : Int) := by
  rcases search_array_cases arr key hcmp with ⟨h1, h2⟩ | ⟨k, f, h1, h2, h3, h4⟩
  · left
    refine ⟨h1, ?_⟩
    rw [mem_names]
    rintro ⟨f, hf, hn⟩
    exact h2 f hf hn
  · right
    refine ⟨k, by rw [names_getElem?, h1]; simp [h2], ?_, h4⟩
    intro j hj hc
    rw [names_getElem?] at hc
    cases hg : arr.A[j]? with
    | none => rw [hg] at hc; simp at hc
    | some g =>
      rw [hg] at hc
      simp only [Option.map_some', Option.some.injEq] at hc
      exact h3 j hj g hg hc

theorem search_array_found_names (arr : array_t) (key : List Nat)
    (hcmp : arr.cmp = cmp_func_name) (k : Nat) (hk : arr.names[k]? = some (cstr key))
    (hfirst : ∀ j, j < k → arr.names[j]? ≠ some (cstr key)) :
    search_array (some arr) (some key) = (k : Int) := by
  rw [names_getElem?] at hk
  cases hf : arr.A[k]? with
  | none => rw [hf] at hk; simp at hk
  | some f =>
    rw [hf] at hk
    simp only [Option.map_some', Option.some.injEq] at hk
    refine search_array_found arr key hcmp k f hf hk ?_
    intro j hj g hg hc
    apply hfirst j hj
    rw [names_getElem?, hg]
    simp [hc]

theorem search_array_prefix (arr arr' : array_t) (key : List Nat)
    (hcmp : arr.cmp = cmp_func_name) (hcmp' : arr'.cmp = cmp_func_name)
    (hpre : arr.names <+: arr'.names)
    (hfound : search_array (some arr) (some key) ≠ FAILED) :
    search_array (some arr') (some key) = search_array (some arr) (some key) := by
  rcases search_array_cases_names arr key hcmp with ⟨h1, -⟩ | ⟨k, h1, h2, h3⟩
  · exact absurd h1 hfound
  · rw [h3]
    have hlt : k < arr.names.length := getElem?_lt_length _ _ _ h1
    have hsame : ∀ j, j < arr.names.length → arr'.names[j]? = arr.names[j]? := by
      intro j hj
      obtain ⟨t, ht⟩ := hpre
      rw [← ht, List.getElem?_append_left hj]
    refine search_array_found_names arr' key hcmp' k (by rw [hsame k hlt]; exact h1) ?_
    intro j hj
    rw [hsame j (by omega)]
    exact h2 j hj

theorem search_array_nodup (arr : array_t) (key : List Nat) (hcmp : arr.cmp = cmp_func_name)
    (hnd : arr.names.Nodup) (k : Nat) (hk : arr.names[k]? = some (cstr key)) :
    search_array (some arr) (some key) = (k : Int) := by
  refine search_array_found_names arr key hcmp k hk ?_
  intro j hj hc
  have hlt : k < arr.names.length := getElem?_lt_length _ _ _ hk
  have := (List.nodup_iff_getElem?_ne_getElem?.mp hnd) j k hj hlt
  exact this (by rw [hc, hk])

/-! ## One registration, in terms of the stored names -/

theorem names_set_handler (arr : array_t) (i : Nat) (f : rpc_func) (h : rpc_handler)
    (hi : arr.A[i]? = some f) :
    (arr.A.set i ⟨f.name, h⟩).map (fun g => cstr g.name) = arr.names := by
  unfold array_t.names
  apply List.ext_getElem?
  intro j
  rw [List.getElem?_map, List.getElem?_map]
  by_cases hj : i = j
  · subst hj
    have hlt := getElem?_lt_length arr.A i f hi
    rw [List.getElem?_set_self hlt, hi]
    rfl
  · rw [List.getElem?_set_ne hj]

/-- The three outcomes of `rpc_register` on a server with a registry: failure with the
server unchanged, success with a handler replaced (same names), success with an entry
appended for a name that no entry had. -/
theorem rpc_register_cases (sv : rpc_server) (arr : array_t) (hf : sv.functions = some arr)
    (hcmp : arr.cmp = cmp_func_name) (name : Option (List Nat))
    (handler : Option rpc_handler) (m r : Bool) :
    ∃ arr', (rpc_register (some sv) name handler m r).2 =
        some ⟨sv.listening_sd, some arr'⟩ ∧ arr'.cmp = cmp_func_name ∧
      (((rpc_register (some sv) name handler m r).1 = FAILED ∧ arr' = arr) ∨
       ((rpc_register (some sv) name handler m r).1 = SUCCESS ∧
          check_name name = SUCCESS ∧ cstr (name.getD []) ∈ arr.names ∧
          arr'.names = arr.names) ∨
       ((rpc_register (some sv) name handler m r).1 = SUCCESS ∧
          check_name name = SUCCESS ∧ cstr (name.getD []) ∉ arr.names ∧
          arr'.names = arr.names ++ [cstr (name.getD [])])) := by
  have heta := rpc_server_eta sv arr hf
  have hfail : ∀ h : rpc_register (some sv) name handler m r = (FAILED, some sv),
      ∃ arr', (rpc_register (some sv) name handler m r).2 =
        some ⟨sv.listening_sd, some arr'⟩ ∧ arr'.cmp = cmp_func_name ∧
      (((rpc_register (some sv) name handler m r).1 = FAILED ∧ arr' = arr) ∨
       ((rpc_register (some sv) name handler m r).1 = SUCCESS ∧
          check_name name = SUCCESS ∧ cstr (name.getD []) ∈ arr.names ∧
          arr'.names = arr.names) ∨
       ((rpc_register (some sv) name handler m r).1 = SUCCESS ∧
          check_name name = SUCCESS ∧ cstr (name.getD []) ∉ arr.names ∧
          arr'.names = arr.names ++ [cstr (name.getD [])])) := by
    intro h
    refine ⟨arr, ?_, hcmp, Or.inl ⟨by rw [h], rfl⟩⟩
    rw [h]
    show some sv = _
    rw [← heta]
  cases name with
  | none => exact hfail (rpc_register_rejects _ _ _ _ _ (Or.inr (Or.inl rfl)))
  | some p =>
    cases handler with
    | none => exact hfail (rpc_register_rejects _ _ _ _ _ (Or.inr (Or.inr (Or.inl rfl))))
    | some h =>
      rcases check_name_cases (some p) with hc | hc
      · rcases search_array_cases arr p hcmp with ⟨-, h2⟩ | ⟨k, f, h1, h2, h3, -⟩
        · have hnew := rpc_register_new sv arr hf hcmp p h hc h2 m r
          by_cases hok : m = true ∧ (arr.n < arr.capacity ∨ r = true)
          · rw [if_pos hok] at hnew
            refine ⟨⟨arr.A ++ [⟨strdup p, h⟩],
                if arr.n < arr.capacity then arr.capacity else arr.capacity * 2, arr.cmp⟩,
              by rw [hnew], hcmp, Or.inr (Or.inr ⟨by rw [hnew], hc, ?_, ?_⟩)⟩
            · rw [mem_names]
              rintro ⟨f, hfm, hn⟩
              exact h2 f hfm hn
            · simp [array_t.names, cstr_strdup]
          · rw [if_neg hok] at hnew
            exact hfail hnew
        · have hrep := rpc_register_replace sv arr hf hcmp p h k f hc h1 h2 h3 m r
          refine ⟨⟨arr.A.set k ⟨f.name, h⟩, arr.capacity, arr.cmp⟩,
            by rw [hrep], hcmp, Or.inr (Or.inl ⟨by rw [hrep], hc, ?_, ?_⟩)⟩
          · rw [mem_names]
            exact ⟨f, List.getElem?_mem h1, h2⟩
          · exact names_set_handler arr k f h h1
      · exact hfail (rpc_register_rejects _ _ _ _ _ (Or.inr (Or.inr (Or.inr hc))))

/-! ## Sequences of registrations -/

theorem first_occurrences_append (acc xs ys : List (List Nat)) :
    first_occurrences acc (xs ++ ys) = first_occurrences (first_occurrences acc xs) ys := by
  induction xs generalizing acc with
  | nil => rfl
  | cons x xs ih =>
    show first_occurrences (if x ∈ acc then acc else acc ++ [x]) (xs ++ ys) = _
    rw [ih]
    rfl

theorem rpc_register_seq_append (srv : Option rpc_server) (a b : List reg_call) :
    rpc_register_seq srv (a ++ b) = rpc_register_seq (rpc_register_seq srv a) b := by
  induction a generalizing srv with
  | nil => rfl
  | cons c cs ih =>
    show rpc_register_seq (rpc_register srv c.name c.handler c.malloc_ok c.realloc_ok).2
      (cs ++ b) = _
    rw [ih]
    rfl

theorem init_functions_eq : init_functions = some ⟨[], INIT_SIZE, cmp_func_name⟩ := rfl

theorem valid_of_check_name (name : Option (List Nat)) (hp : ∀ b ∈ name.getD [], b < 256)
    (hc : check_name name = SUCCESS) : valid_name (cstr (name.getD [])) := by
  rw [check_name_success_iff, is_valid_name_iff name hp] at hc
  cases name with
  | none => exact absurd hc (fun h => h)
  | some p => exact hc

/-- The registry after a sequence of `rpc_register` calls on a server whose registry is
name-unique: it is name-unique, it extends the earlier list of names, and its names are
the earlier names followed by the new names among the successful calls, in the order of
their first successful registration. -/
theorem rpc_register_seq_spec : ∀ (calls : List reg_call) (sv : rpc_server) (arr : array_t),
    sv.functions = some arr → arr.cmp = cmp_func_name → arr.names.Nodup →
    ∃ arr', rpc_register_seq (some sv) calls = some ⟨sv.listening_sd, some arr'⟩ ∧
      arr'.cmp = cmp_func_name ∧ arr'.names.Nodup ∧ arr.names <+: arr'.names ∧
      arr'.names = first_occurrences arr.names (registered_names (some sv) calls) ∧
      ((∀ c ∈ calls, ∀ b ∈ c.name.getD [], b < 256) → (∀ n ∈ arr.names, valid_name n) →
        ∀ n ∈ arr'.names, valid_name n) := by
  intro calls
  induction calls with
  | nil =>
    intro sv arr hf hcmp hnd
    refine ⟨arr, ?_, hcmp, hnd, List.prefix_refl _, rfl, fun _ h => h⟩
    show some sv = _
    rw [← rpc_server_eta sv arr hf]
  | cons c cs ih =>
    intro sv arr hf hcmp hnd
    obtain ⟨arr1, e1, hcmp1, hcase⟩ :=
      rpc_register_cases sv arr hf hcmp c.name c.handler c.malloc_ok c.realloc_ok
    have hstep : arr1.names.Nodup ∧ arr.names <+: arr1.names ∧
        arr1.names = first_occurrences arr.names
          (if (rpc_register (some sv) c.name c.handler c.malloc_ok c.realloc_ok).1 = SUCCESS
            then [cstr (c.name.getD [])] else []) ∧
        ((∀ b ∈ c.name.getD [], b < 256) → (∀ n ∈ arr.names, valid_name n) →
          ∀ n ∈ arr1.names, valid_name n) := by
      rcases hcase with ⟨h1, h2⟩ | ⟨h1, hc, h2, h3⟩ | ⟨h1, hc, h2, h3⟩
      · subst h2
        refine ⟨hnd, List.prefix_refl _, ?_, fun _ h => h⟩
        rw [h1, if_neg (by decide)]
        rfl
      · refine ⟨by rw [h3]; exact hnd, by rw [h3], ?_, fun _ h => by rw [h3]; exact h⟩
        rw [h1, if_pos rfl, h3]
        simp only [first_occurrences, h2, if_true]
      · refine ⟨?_, by rw [h3]; exact List.prefix_append _ _, ?_, ?_⟩
        · rw [h3]
          exact List.Nodup.append hnd (List.nodup_singleton _)
            (by
              intro x hx hx'
              rw [List.mem_singleton] at hx'
              rw [hx'] at hx
              exact h2 hx)
        · rw [h1, if_pos rfl, h3]
          simp only [first_occurrences, h2, if_false]
        · intro hb hv n hn
          rw [h3, List.mem_append, List.mem_singleton] at hn
          rcases hn with hn | hn
          · exact hv n hn
          · rw [hn]
            exact valid_of_check_name c.name hb hc
    obtain ⟨s1, s2, s3, s4⟩ := hstep
    obtain ⟨arr', i1, i2, i3, i4, i5, i6⟩ :=
      ih ⟨sv.listening_sd, some arr1⟩ arr1 rfl hcmp1 s1
    refine ⟨arr', ?_, i2, i3, s2.trans i4, ?_, ?_⟩
    · simp only [rpc_register_seq, e1]
      exact i1
    · simp only [registered_names, first_occurrences_append, ← s3, e1]
      exact i5
    · intro hb hv
      exact i6 (fun c' hc' => hb c' (List.mem_cons_of_mem _ hc'))
        (s4 (hb c (List.mem_cons_self _ _)) hv)


/-! ## Claims on sequences of registrations -/

/-- C15: handles are stable.  Take any sequence `calls` of `rpc_register` calls from the
empty registry of `rpc_init_server`, and any later calls `later` (successful or failed,
growing the array or not).  Every name that `search_array` finds after `calls` is found
at the same index after `later`.  The names stored after `calls` are the distinct names
of the calls that returned `SUCCESS`, in the order of their first registration, and the
name stored at index `k` is found at index `k`: the `k`-th distinct name registered has
index `k - 1`. -/
theorem handles_stable (sd : Int) (calls later : List reg_call) :
    ∃ arr arr',
      rpc_register_seq (some ⟨sd, init_functions⟩) calls = some ⟨sd, some arr⟩ ∧
      rpc_register_seq (some ⟨sd, init_functions⟩) (calls ++ later) = some ⟨sd, some arr'⟩ ∧
      (∀ key, search_array (some arr) (some key) ≠ FAILED →
        search_array (some arr') (some key) = search_array (some arr) (some key)) ∧
      arr.names =
        first_occurrences [] (registered_names (some ⟨sd, init_functions⟩) calls) ∧
      (∀ (k : Nat) (key : List Nat), arr.names[k]? = some (cstr key) →
        search_array (some arr) (some key) = (k : Int)) := by
  obtain ⟨arr, a1, a2, a3, -, a5, -⟩ :=
    rpc_register_seq_spec calls ⟨sd, init_functions⟩ ⟨[], INIT_SIZE, cmp_func_name⟩ rfl rfl
      List.nodup_nil
  obtain ⟨arr', b1, b2, -, b4, -, -⟩ :=
    rpc_register_seq_spec later ⟨sd, some arr⟩ arr rfl a2 a3
  refine ⟨arr, arr', a1, ?_, ?_, a5, ?_⟩
  · rw [rpc_register_seq_append, a1]
    exact b1
  · intro key hfound
    exact search_array_prefix arr arr' key a2 b2 b4 hfound
  · intro k key hk
    exact search_array_nodup arr key a2 a3 k hk

/-- C16: the registry is name-unique.  After any sequence of `rpc_register` calls from
the empty registry of `rpc_init_server`, the names passed being byte buffers, no two
entries have equal names and every stored name is a valid name. -/
theorem registry_name_unique (sd : Int) (calls : List reg_call)
    (hp : ∀ c ∈ calls, ∀ b ∈ c.name.getD [], b < 256) :
    ∃ arr, rpc_register_seq (some ⟨sd, init_functions⟩) calls = some ⟨sd, some arr⟩ ∧
      arr.names.Nodup ∧
      (∀ (i j : Nat) (f g : rpc_func), arr.A[i]? = some f → arr.A[j]? = some g →
        cstr f.name = cstr g.name → i = j) ∧
      (∀ f ∈ arr.A, valid_name (cstr f.name)) := by
  obtain ⟨arr, a1, -, a3, -, -, a6⟩ :=
    rpc_register_seq_spec calls ⟨sd, init_functions⟩ ⟨[], INIT_SIZE, cmp_func_name⟩ rfl rfl
      List.nodup_nil
  refine ⟨arr, a1, a3, ?_, ?_⟩
  · intro i j f g hi hj hn
    have h1 : arr.names[i]? = some (cstr f.name) := by rw [names_getElem?, hi]; rfl
    have h2 : arr.names[j]? = some (cstr f.name) := by rw [names_getElem?, hj, hn]; rfl
    have hli : i < arr.names.length := getElem?_lt_length _ _ _ h1
    have hlj : j < arr.names.length := getElem?_lt_length _ _ _ h2
    by_contra hne
    rcases Nat.lt_or_gt_of_ne hne with hlt | hgt
    · exact (List.nodup_iff_getElem?_ne_getElem?.mp a3) i j hlt hlj (by rw [h1, h2])
    · exact (List.nodup_iff_getElem?_ne_getElem?.mp a3) j i hgt hli (by rw [h1, h2])
  · intro f hf
    refine a6 hp ?_ (cstr f.name) ((mem_names arr _).mpr ⟨f, hf, rfl⟩)
    intro n hn
    simp [array_t.names] at hn

theorem registry_name_unique_witness :
    ∃ arr, rpc_register_seq (some ⟨3, init_functions⟩)
        [⟨some [97, 100, 100, 50], some (fun d => some d), true, true⟩,
         ⟨some [115, 117, 98, 10], some (fun d => some d), true, true⟩,
         ⟨some [97, 100, 100, 50, 0, 1], some (fun _ => none), false, false⟩,
         ⟨some [115, 117, 98], none, true, true⟩,
         ⟨some [115, 117, 98], some (fun _ => none), true, true⟩] = some ⟨3, some arr⟩ ∧
      arr.names.Nodup ∧
      (∀ (i j : Nat) (f g : rpc_func), arr.A[i]? = some f → arr.A[j]? = some g →
        cstr f.name = cstr g.name → i = j) ∧
      (∀ f ∈ arr.A, valid_name (cstr f.name)) :=
  registry_name_unique 3 _ (by decide)

/-- An instance of C15 with growth: 21 distinct one-letter names registered from the empty
registry (capacity 20) leave 21 entries in an array of capacity 40; the first name is
still found at index 0 and the 21st at index 20. -/
theorem registry_grows_past_initial_capacity :
    ((rpc_register_seq (some ⟨3, init_functions⟩)
        ((List.range 21).map
          (fun i => (⟨some [97 + i], some (fun d => some d), true, true⟩ : reg_call)))).bind
      (fun sv => sv.functions)).map
      (fun a => (a.A.length, a.capacity, search_array (some a) (some [97]),
        search_array (some a) (some [117]))) = some (21, 40, 0, 20) := by
  decide

/-! ## The CALL request, branch by branch -/

/-- The branches of `handle_call`, for a run with a defined result `res`. -/
theorem handle_call_cases (le : Bool) (w : Nat) (srv : rpc_server) (s : Sock)
    (res : Int × Sock × List (Int × rpc_data)) (h : handle_call le w srv s = some res) :
    ∃ r, read_u32 le s = some r ∧
      ((r.1 ≤ 0 ∧ res = (r.1, r.2.2, [])) ∨
       (0 < r.1 ∧ ∃ inp, read_rpc_data le w r.2.2 = some inp ∧
         (((inp.1 = none ∨ get_elem_at srv.functions (to_int r.2.1) = none) ∧
            res = (SUCCESS, ( write_prefix le inp.2 FAILURE_STAT).2, [])) ∨
          (∃ input f, inp.1 = some input ∧
            get_elem_at srv.functions (to_int r.2.1) = some f ∧
            ((check_rpc_data (f.handler input) = FAILED ∧
                res = (SUCCESS, ( write_prefix le inp.2 FAILURE_STAT).2,
                  [(to_int r.2.1, input)])) ∨
             (check_rpc_data (f.handler input) ≠ FAILED ∧
                ( write_prefix le inp.2 SUCCESS_STAT).1 ≤ 0 ∧
                res = (( write_prefix le inp.2 SUCCESS_STAT).1,
                  ( write_prefix le inp.2 SUCCESS_STAT).2, [(to_int r.2.1, input)])) ∨
             (check_rpc_data (f.handler input) ≠ FAILED ∧
                0 < ( write_prefix le inp.2 SUCCESS_STAT).1 ∧
                (write_rpc_data le ( write_prefix le inp.2 SUCCESS_STAT).2
                  (f.handler input)).1 ≤ 0 ∧
                res = ((write_rpc_data le ( write_prefix le inp.2 SUCCESS_STAT).2
                    (f.handler input)).1,
                  (write_rpc_data le ( write_prefix le inp.2 SUCCESS_STAT).2
                    (f.handler input)).2, [(to_int r.2.1, input)])) ∨
             (check_rpc_data (f.handler input) ≠ FAILED ∧
                0 < ( write_prefix le inp.2 SUCCESS_STAT).1 ∧
                0 < (write_rpc_data le ( write_prefix le inp.2 SUCCESS_STAT).2
                  (f.handler input)).1 ∧
                res = (SUCCESS,
                  (write_rpc_data le ( write_prefix le inp.2 SUCCESS_STAT).2
                    (f.handler input)).2, [(to_int r.2.1, input)]))))))) := by
  unfold handle_call at h
  cases hr : read_u32 le s with
  | none => rw [hr] at h; simp at h
  | some r =>
    rw [hr] at h
    simp only [Option.bind_eq_bind, Option.some_bind] at h
    refine ⟨r, rfl, ?_⟩
    by_cases c0 : r.1 ≤ 0
    · left
      rw [if_pos c0] at h
      exact ⟨c0, (Option.some.inj h).symm⟩
    · right
      rw [if_neg c0] at h
      refine ⟨by omega, ?_⟩
      cases hin : read_rpc_data le w r.2.2 with
      | none => rw [hin] at h; simp at h
      | some inp =>
        rw [hin] at h
        simp only [Option.some_bind] at h
        refine ⟨inp, rfl, ?_⟩
        cases hi : inp.1 with
        | none =>
          left
          rw [hi] at h
          exact ⟨Or.inl rfl, (Option.some.inj h).symm⟩
        | some input =>
          cases hg : get_elem_at srv.functions (to_int r.2.1) with
          | none =>
            left
            rw [hi, hg] at h
            exact ⟨Or.inr rfl, (Option.some.inj h).symm⟩
          | some f =>
            right
            rw [hi, hg] at h
            simp only [] at h
            refine ⟨input, f, rfl, rfl, ?_⟩
            by_cases c1 : check_rpc_data (f.handler input) = FAILED
            · left
              rw [if_pos c1] at h
              exact ⟨c1, (Option.some.inj h).symm⟩
            · right
              rw [if_neg c1] at h
              by_cases c2 : ( write_prefix le inp.2 SUCCESS_STAT).1 ≤ 0
              · left
                rw [if_pos c2] at h
                exact ⟨c1, c2, (Option.some.inj h).symm⟩
              · right
                rw [if_neg c2] at h
                by_cases c3 : (write_rpc_data le ( write_prefix le inp.2 SUCCESS_STAT).2
                    (f.handler input)).1 ≤ 0
                · left
                  rw [if_pos c3] at h
                  exact ⟨c1, by omega, c3, (Option.some.inj h).symm⟩
                · right
                  rw [if_neg c3] at h
                  exact ⟨c1, by omega, by omega, (Option.some.inj h).symm⟩

/-! ## Reads leave the write side alone -/

theorem ReadFrame.rfl' (s : Sock) : ReadFrame s s :=
  ⟨rfl, rfl, List.suffix_refl _, ⟨0, rfl⟩⟩

theorem ReadFrame.then {s t u : Sock} (h1 : ReadFrame s t) (h2 : ReadFrame t u) :
    ReadFrame s u := by
  obtain ⟨a1, a2, a3, ⟨k1, a4⟩⟩ := h1
  obtain ⟨b1, b2, b3, ⟨k2, b4⟩⟩ := h2
  refine ⟨b1.trans a1, b2.trans a2, b3.trans a3, ⟨k1 + k2, ?_⟩⟩
  rw [b4, a4, List.drop_drop]

theorem read_all_frame (s : Sock) (len : Int) (r : Int × List Nat × Sock)
    (h : read_all s len = some r) : ReadFrame s r.2.2 := by
  by_cases hl : len < 0
  · rw [read_all_neg s len hl] at h
    exact absurd h (by simp)
  · obtain ⟨r', e, h1, h2, h3, -, ⟨k, -, -, h5⟩, -, -⟩ := read_all_spec s len (by omega)
    rw [e] at h
    have := Option.some.inj h
    subst this
    exact ⟨h1, h2, h3, ⟨k, h5⟩⟩

theorem read_u16_frame (le : Bool) (s : Sock) (r : Int × Nat × Sock)
    (h : read_u16 le s = some r) : ReadFrame s r.2.2 := by
  unfold read_u16 at h
  cases h0 : read_all s U16_SIZE with
  | none => rw [h0] at h; simp at h
  | some r0 =>
    rw [h0] at h
    simp only [Option.bind_eq_bind, Option.some_bind, Option.pure_def] at h
    have hf := read_all_frame s _ r0 h0
    split_ifs at h <;> (have e := Option.some.inj h; subst e; exact hf)

theorem read_u32_frame (le : Bool) (s : Sock) (r : Int × Nat × Sock)
    (h : read_u32 le s = some r) : ReadFrame s r.2.2 := by
  unfold read_u32 at h
  cases h0 : read_all s U32_SIZE with
  | none => rw [h0] at h; simp at h
  | some r0 =>
    rw [h0] at h
    simp only [Option.bind_eq_bind, Option.some_bind, Option.pure_def] at h
    have hf := read_all_frame s _ r0 h0
    split_ifs at h <;> (have e := Option.some.inj h; subst e; exact hf)

theorem read_u64_frame (le : Bool) (s : Sock) (r : Int × Nat × Sock)
    (h : read_u64 le s = some r) : ReadFrame s r.2.2 := by
  unfold read_u64 at h
  cases h0 : read_all s U64_SIZE with
  | none => rw [h0] at h; simp at h
  | some r0 =>
    rw [h0] at h
    simp only [Option.bind_eq_bind, Option.some_bind, Option.pure_def] at h
    have hf := read_all_frame s _ r0 h0
    split_ifs at h <;> (have e := Option.some.inj h; subst e; exact hf)

theorem read_rpc_data_frame (le : Bool) (w : Nat) (s : Sock) (r : Option rpc_data × Sock)
    (h : read_rpc_data le w s = some r) : ReadFrame s r.2 := by
  unfold read_rpc_data at h
  cases h1 : read_u64 le s with
  | none => rw [h1] at h; simp at h
  | some r1 =>
    rw [h1] at h
    simp only [Option.bind_eq_bind, Option.some_bind, Option.pure_def] at h
    have f1 := read_u64_frame le s r1 h1
    by_cases c1 : r1.1 ≤ 0
    · rw [if_pos c1] at h
      have := Option.some.inj h; subst this; exact f1
    · rw [if_neg c1] at h
      cases h2 : read_u32 le r1.2.2 with
      | none => rw [h2] at h; simp at h
      | some r2 =>
        rw [h2] at h
        simp only [Option.some_bind] at h
        have f2 := f1.then (read_u32_frame le _ r2 h2)
        by_cases c2 : r2.1 ≤ 0
        · rw [if_pos c2] at h
          have := Option.some.inj h; subst this; exact f2
        · rw [if_neg c2] at h
          by_cases c3 : r2.2.1 > 0
          · rw [if_pos c3] at h
            cases h3 : read_all r2.2.2 (to_int r2.2.1) with
            | none => rw [h3] at h; simp at h
            | some r3 =>
              rw [h3] at h
              simp only [Option.some_bind] at h
              have f3 := f2.then (read_all_frame _ _ r3 h3)
              split_ifs at h <;> (have e := Option.some.inj h; subst e; exact f3)
          · rw [if_neg c3] at h
            split_ifs at h <;> (have e := Option.some.inj h; subst e; exact f2)

theorem check_rpc_data_cases (data : Option rpc_data) :
    check_rpc_data data = SUCCESS ∨ check_rpc_data data = FAILED := by
  unfold check_rpc_data
  split_ifs
  · right; rfl
  · left; rfl

theorem valid_of_check_rpc_data (d : rpc_data) (h : ¬ check_rpc_data (some d) = FAILED) :
    valid_data d := by
  rcases check_rpc_data_cases (some d) with hc | hc
  · exact (check_rpc_data_success_iff (some d)).mp hc
  · exact absurd hc h

/-! ## Claims on lookup by index and on a failing handler -/

theorem get_elem_at_some (arr : array_t) (idx : Int) (f : rpc_func)
    (h : get_elem_at (some arr) idx = some f) :
    0 ≤ idx ∧ idx < (arr.A.length : Int) ∧ arr.A[idx.toNat]? = some f := by
  by_cases hout : idx < 0 ∨ (arr.A.length : Int) ≤ idx
  · rw [get_elem_at_out arr idx hout] at h
    exact absurd h (by simp)
  · obtain ⟨i, rfl⟩ : ∃ i : Nat, idx = (i : Int) := ⟨idx.toNat, by omega⟩
    rw [get_elem_at_in arr i (by omega)] at h
    exact ⟨by omega, by omega, by simpa using h⟩

theorem get_elem_at_none (idx : Int) : get_elem_at none idx = none := rfl

theorem write_prefix_sent (le : Bool) (s : Sock) (pfx : Int) :
    Sent s (be_bytes 4 (to_u32 pfx)) 4 ( write_prefix le s pfx) :=
  write_u32_sent le s (to_u32 pfx)

theorem to_int_u32 (h : Nat) (hh : h < 4294967296) :
    (h < 2147483648 ∧ to_int (h : Int) = (h : Int)) ∨ (2147483648 ≤ h ∧ to_int (h : Int) < 0) := by
  unfold to_int
  omega

/-- C14: lookup by index is bounds-checked.  For a registry whose size fits an `int`,
`get_elem_at` returns the stored element for `0 <= idx < size` and `NULL` for every
negative `idx` and every `idx >= size`; for every 32-bit handle value `h`, converted to
`int` as in `handle_call`, it returns entry `h` when `h < size` and `NULL` otherwise, also
for `h >= 2^31`; and every handler invocation of `handle_call` is at an index in
`[0, size)` that holds an entry. -/
theorem get_elem_at_bounds (arr : array_t) (hlen : arr.A.length ≤ 2147483647) :
    (∀ idx : Int, 0 ≤ idx → idx < (arr.A.length : Int) →
      ∃ f, get_elem_at (some arr) idx = some f ∧ arr.A[idx.toNat]? = some f) ∧
    (∀ idx : Int, idx < 0 ∨ (arr.A.length : Int) ≤ idx → get_elem_at (some arr) idx = none) ∧
    (∀ h : Nat, h < 4294967296 → get_elem_at (some arr) (to_int (h : Int)) = arr.A[h]?) ∧
    (∀ h : Nat, h < 4294967296 → arr.A.length ≤ h →
      get_elem_at (some arr) (to_int (h : Int)) = none) ∧
    (∀ (le : Bool) (w : Nat) (sd : Int) (s t : Sock) (r : Int) (log : List (Int × rpc_data)),
      handle_call le w ⟨sd, some arr⟩ s = some (r, t, log) →
      ∀ e ∈ log, 0 ≤ e.1 ∧ e.1 < (arr.A.length : Int) ∧ ∃ f, arr.A[e.1.toNat]? = some f) := by
  have h3 : ∀ h : Nat, h < 4294967296 →
      get_elem_at (some arr) (to_int (h : Int)) = arr.A[h]? := by
    intro h hh
    rcases to_int_u32 h hh with ⟨h1, h2⟩ | ⟨h1, h2⟩
    · rw [h2]
      by_cases hin : h < arr.A.length
      · exact get_elem_at_in arr h hin
      · rw [get_elem_at_out arr _ (Or.inr (by omega)), List.getElem?_eq_none (by omega)]
    · rw [get_elem_at_out arr _ (Or.inl h2), List.getElem?_eq_none (by omega)]
  refine ⟨?_, get_elem_at_out arr, h3, ?_, ?_⟩
  · intro idx h0 h1
    obtain ⟨i, rfl⟩ : ∃ i : Nat, idx = (i : Int) := ⟨idx.toNat, by omega⟩
    have hi : i < arr.A.length := by omega
    refine ⟨arr.A[i], ?_, ?_⟩
    · rw [get_elem_at_in arr i hi, List.getElem?_eq_getElem hi]
    · rw [Int.toNat_ofNat, List.getElem?_eq_getElem hi]
  · intro h hh hge
    rw [h3 h hh, List.getElem?_eq_none hge]
  · intro le w sd s t r log hrun e he
    obtain ⟨r0, -, hcase⟩ := handle_call_cases le w ⟨sd, some arr⟩ s (r, t, log) hrun
    have hlog : ∀ (input : rpc_data) (f : rpc_func),
        get_elem_at (some arr) (to_int r0.2.1) = some f →
        log = [(to_int r0.2.1, input)] →
        0 ≤ e.1 ∧ e.1 < (arr.A.length : Int) ∧ ∃ f, arr.A[e.1.toNat]? = some f := by
      intro input f hg hl
      rw [hl, List.mem_singleton] at he
      obtain ⟨g1, g2, g3⟩ := get_elem_at_some arr _ f hg
      rw [he]
      exact ⟨g1, g2, f, g3⟩
    rcases hcase with ⟨-, hres⟩ | ⟨-, inp, -, hres⟩
    · have hl : log = [] := by
        have := congrArg (fun x => x.2.2) hres
        exact this
      rw [hl] at he
      exact absurd he (List.not_mem_nil _)
    · rcases hres with ⟨-, hres⟩ | ⟨input, f, -, hg, hres⟩
      · have hl : log = [] := by
          have := congrArg (fun x => x.2.2) hres
          exact this
        rw [hl] at he
        exact absurd he (List.not_mem_nil _)
      · rcases hres with ⟨-, hres⟩ | ⟨-, -, hres⟩ | ⟨-, -, -, hres⟩ | ⟨-, -, -, hres⟩ <;>
          exact hlog input f hg (congrArg (fun x => x.2.2) hres)

theorem get_elem_at_bounds_witness :
    get_elem_at
        (some { A := [{ name := [97, 0], handler := fun _ => none },
                      { name := [98, 0], handler := fun _ => none }],
                capacity := 20, cmp := cmp_func_name })
        (to_int ((4294967295 : Nat) : Int)) = none ∧
    get_elem_at
        (some { A := [{ name := [97, 0], handler := fun _ => none },
                      { name := [98, 0], handler := fun _ => none }],
                capacity := 20, cmp := cmp_func_name })
        (to_int ((1 : Nat) : Int)) =
      [({ name := [97, 0], handler := fun _ => none } : rpc_func),
        { name := [98, 0], handler := fun _ => none }][1]? :=
  ⟨(get_elem_at_bounds
      { A := [{ name := [97, 0], handler := fun _ => none },
              { name := [98, 0], handler := fun _ => none }],
        capacity := 20, cmp := cmp_func_name } (by decide)).2.2.2.1 4294967295 (by decide)
      (by decide),
   (get_elem_at_bounds
      { A := [{ name := [97, 0], handler := fun _ => none },
              { name := [98, 0], handler := fun _ => none }],
        capacity := 20, cmp := cmp_func_name } (by decide)).2.2.1 1 (by decide)⟩

/-- The runs of `handle_call` in which a handler was invoked (at index `i`, with argument
`P`) and the resolved handler returned `NULL` or a payload that violates the invariant:
that invocation is the only one, the result is `SUCCESS` whatever the write does, and
the bytes written are a part of the failure status `00 00 00 01`, all of it when no
write fails. -/
theorem handle_call_failing_run (le : Bool) (w : Nat) (srv : rpc_server) (s t : Sock)
    (r : Int) (log : List (Int × rpc_data)) (i : Int) (P : rpc_data)
    (hrun : handle_call le w srv s = some (r, t, log)) (hinv : (i, P) ∈ log)
    (hfail : ∀ f, get_elem_at srv.functions i = some f → ¬ valid_payload (f.handler P)) :
    r = SUCCESS ∧ log = [(i, P)] ∧
    (∃ k : Nat, k ≤ 4 ∧ t.out = s.out ++ ([0, 0, 0, 1] : List Nat).take k) ∧
    ((∀ x ∈ s.wr, 0 < x) → t.out = s.out ++ [0, 0, 0, 1]) := by
  obtain ⟨r0, hr0, hcase⟩ := handle_call_cases le w srv s (r, t, log) hrun
  have f0 := read_u32_frame le s r0 hr0
  rcases hcase with ⟨-, hres⟩ | ⟨-, inp, hin, hres⟩
  · have hl : log = [] := congrArg (fun x => x.2.2) hres
    rw [hl] at hinv
    exact absurd hinv (List.not_mem_nil _)
  · have f1 := f0.then (read_rpc_data_frame le w _ inp hin)
    rcases hres with ⟨-, hres⟩ | ⟨input, f, -, hg, hres⟩
    · have hl : log = [] := congrArg (fun x => x.2.2) hres
      rw [hl] at hinv
      exact absurd hinv (List.not_mem_nil _)
    · have key : ∀ hl : log = [(to_int r0.2.1, input)],
          check_rpc_data (f.handler input) = FAILED := by
        intro hl
        rw [hl, List.mem_singleton, Prod.mk.injEq] at hinv
        rw [check_rpc_data_failed_iff, ← hinv.2]
        exact hfail f (by rw [hinv.1]; exact hg)
      rcases hres with ⟨-, hres⟩ | ⟨hc, -, hres⟩ | ⟨hc, -, -, hres⟩ | ⟨hc, -, -, hres⟩
      · have hl : log = [(to_int r0.2.1, input)] := congrArg (fun x => x.2.2) hres
        have ht : t = ( write_prefix le inp.2 FAILURE_STAT).2 := congrArg (fun x => x.2.1) hres
        have hr : r = SUCCESS := congrArg (fun x => x.1) hres
        have hs := write_prefix_sent le inp.2 FAILURE_STAT
        obtain ⟨-, -, -, ⟨k, hk, hout⟩, -, hpos⟩ := hs
        have hl' := hl
        rw [hl, List.mem_singleton] at hinv
        refine ⟨hr, by rw [hl', hinv], ⟨k, by simpa [be_bytes_length] using hk, ?_⟩, ?_⟩
        · rw [ht, hout, f1.1]
          rfl
        · intro hw
          have hw' : ∀ x ∈ inp.2.wr, 0 < x := by rw [f1.2.1]; exact hw
          have h4 := hpos hw'
          have := (write_prefix_sent le inp.2 FAILURE_STAT).out_append (by rw [h4]; decide)
          rw [ht, this, f1.1]
          rfl
      · exact absurd (key (congrArg (fun x => x.2.2) hres)) hc
      · exact absurd (key (congrArg (fun x => x.2.2) hres)) hc
      · exact absurd (key (congrArg (fun x => x.2.2) hres)) hc

/-! ## Claim on the FIND response -/

theorem be_bytes_four_status (v : Nat) (hv : v < 256) : be_bytes 4 v = [0, 0, 0, v] := by
  simp only [be_bytes, Nat.shiftRight_eq_div_pow]
  have h1 : v / 2 ^ (8 * 3) % 256 = 0 := by omega
  have h2 : v / 2 ^ (8 * 2) % 256 = 0 := by omega
  have h3 : v / 2 ^ (8 * 1) % 256 = 0 := by omega
  have h4 : v / 2 ^ (8 * 0) % 256 = v := by omega
  rw [h1, h2, h3, h4]

theorem valid_name_cstr_self (n : List Nat) (hv : valid_name n) : cstr n = n :=
  cstr_self n (fun b hb => (valid_name_byte n hv b hb).2)

/-- C17: the FIND response.  For a FIND body carrying a valid name `n`, fully received, on
a server whose registry size fits an `int`, when no read or write fails: if no entry has
the name, `handle_find` writes exactly the 4-byte failure status `00 00 00 01`; if
entry `i` is the entry found for the name, it writes exactly the 4-byte success status
`00 00 00 02` followed by `i` as a big-endian `u32`.  In both cases it returns `SUCCESS`
and has consumed exactly the request, so the connection remains usable. -/
theorem handle_find_response (le : Bool) (srv : rpc_server) (arr : array_t) (s : Sock)
    (n rest : List Nat) (hf : srv.functions = some arr) (hcmp : arr.cmp = cmp_func_name)
    (hlen : arr.A.length ≤ 2147483647) (hv : valid_name n)
    (hin : s.inp = be_bytes 2 n.length ++ n ++ rest)
    (hrd : ∀ x ∈ s.rd, 0 < x) (hwr : ∀ x ∈ s.wr, 0 < x) :
    ((∀ f ∈ arr.A, cstr f.name ≠ n) →
      ∃ t, handle_find le srv s = some (SUCCESS, t) ∧ t.out = s.out ++ [0, 0, 0, 1] ∧
        t.inp = rest ∧ t.rd <:+ s.rd ∧ t.wr <:+ s.wr) ∧
    (∀ (i : Nat) (f : rpc_func), arr.A[i]? = some f → cstr f.name = n →
      (∀ j, j < i → ∀ g, arr.A[j]? = some g → cstr g.name ≠ n) →
      ∃ t, handle_find le srv s = some (SUCCESS, t) ∧
        t.out = s.out ++ ([0, 0, 0, 2] ++ be_bytes 4 i) ∧
        t.inp = rest ∧ t.rd <:+ s.rd ∧ t.wr <:+ s.wr) := by
  obtain ⟨t1, e1, c1, i1⟩ := read_name_ok le s n rest hv.1 hv.2.1 hin hrd
  have hkey : cstr (n ++ [0]) = n := by rw [cstr_append_zero, valid_name_cstr_self n hv]
  have hck : check_name (some (n ++ [0])) = SUCCESS :=
    check_name_of_valid _ (by rw [hkey]; exact hv)
  have hckne : ¬ check_name (some (n ++ [0])) = FAILED := by rw [hck]; decide
  have hwr1 : ∀ x ∈ t1.wr, 0 < x := by rw [c1.2.2.1]; exact hwr
  constructor
  · intro hnone
    have hs : search_array (some arr) (some (n ++ [0])) = FAILED :=
      search_array_not_found arr _ hcmp (by rw [hkey]; exact hnone)
    have hsent := write_prefix_sent le t1 FAILURE_STAT
    have h4 := hsent.2.2.2.2.2 hwr1
    have hout := hsent.out_append (by rw [h4]; decide)
    have hpos : ¬ ( write_prefix le t1 FAILURE_STAT).1 ≤ 0 := by rw [h4]; decide
    refine ⟨( write_prefix le t1 FAILURE_STAT).2, ?_, ?_, ?_, ?_, ?_⟩
    · simp only [handle_find, e1, Option.bind_eq_bind, Option.some_bind, hckne, if_false, hf, hs,
        if_true, hpos, Option.pure_def]
    · rw [hout, c1.2.1]
      rfl
    · rw [hsent.1, i1]
    · rw [hsent.2.1]; exact c1.2.2.2
    · rw [← c1.2.2.1]; exact hsent.2.2.1
  · intro i f hi hname hfirst
    have hlt := getElem?_lt_length arr.A i f hi
    have hs : search_array (some arr) (some (n ++ [0])) = (i : Int) :=
      search_array_found arr _ hcmp i f hi (by rw [hkey]; exact hname)
        (by rw [hkey]; exact hfirst)
    have hne : ¬ ((i : Int) = FAILED) := by
      intro hh
      have : (i : Int) = -1 := hh
      omega
    have hsent := write_prefix_sent le t1 SUCCESS_STAT
    have h4 := hsent.2.2.2.2.2 hwr1
    have hpos : ¬ ( write_prefix le t1 SUCCESS_STAT).1 ≤ 0 := by rw [h4]; decide
    have hsent2 := write_u32_sent le ( write_prefix le t1 SUCCESS_STAT).2 (to_u32 (i : Int))
    have h42 := hsent2.2.2.2.2.2 (hsent.script_pos hwr1)
    have hpos2 : ¬ (write_u32 le ( write_prefix le t1 SUCCESS_STAT).2 (to_u32 (i : Int))).1 ≤ 0 := by
      rw [h42]; decide
    have hboth := hsent.chain (by rw [h4]; decide) hsent2
    have hout := hboth.out_append (by rw [h42]; decide)
    refine ⟨(write_u32 le ( write_prefix le t1 SUCCESS_STAT).2 (to_u32 (i : Int))).2,
      ?_, ?_, ?_, ?_, ?_⟩
    · simp only [handle_find, e1, Option.bind_eq_bind, Option.some_bind, hckne, if_false, hf, hs,
        hne, hpos, hpos2, Option.pure_def]
    · rw [hout, c1.2.1, to_u32_of_le i (by omega)]
      rfl
    · rw [hboth.1, i1]
    · rw [hboth.2.1]; exact c1.2.2.2
    · rw [← c1.2.2.1]; exact hboth.2.2.1

theorem handle_find_response_witness :
    ∃ t, handle_find true
        ⟨3, some { A := [{ name := [97, 0], handler := fun _ => none },
                         { name := [98, 99, 0], handler := fun _ => none }],
                   capacity := 20, cmp := cmp_func_name }⟩
        { inp := [0, 2, 98, 99, 1, 2, 3], out := [], rd := [1, 5], wr := [3] } =
        some (SUCCESS, t) ∧
      t.out = [] ++ ([0, 0, 0, 2] ++ be_bytes 4 1) ∧ t.inp = [1, 2, 3] ∧
      t.rd <:+ [1, 5] ∧ t.wr <:+ [3] :=
  (handle_find_response true
    ⟨3, some { A := [{ name := [97, 0], handler := fun _ => none },
                     { name := [98, 99, 0], handler := fun _ => none }],
               capacity := 20, cmp := cmp_func_name }⟩
    { A := [{ name := [97, 0], handler := fun _ => none },
            { name := [98, 99, 0], handler := fun _ => none }],
      capacity := 20, cmp := cmp_func_name }
    { inp := [0, 2, 98, 99, 1, 2, 3], out := [], rd := [1, 5], wr := [3] }
    [98, 99] [1, 2, 3] rfl rfl (by decide) (by decide) (by decide) (by decide) (by decide)).2
    1 { name := [98, 99, 0], handler := fun _ => none } rfl (by decide)
    (by
      intro j hj g hg
      have hj0 : j = 0 := by omega
      subst hj0
      simp only [List.getElem?_cons_zero, Option.some.injEq] at hg
      rw [← hg]
      decide)

/-! ## The CALL request when nothing fails -/

/-- A payload that can cross the wire in both directions: valid, shorter than `2^31`
bytes, its buffer holding exactly `data2_len` bytes, its `data1` in the range of the
`w`-bit field. -/
theorem read_rpc_data_wire (le : Bool) (w : Nat) (s : Sock) (d : rpc_data) (rest : List Nat)
    (hv : valid_data d) (hlen : d.data2_len < 2147483648)
    (hbuf : ∀ bs, d.data2 = some bs → bs.length = d.data2_len)
    (h1 : 1 ≤ w) (h64 : w ≤ 64) (hlo : -(2 ^ (w - 1)) ≤ d.data1) (hhi : d.data1 < 2 ^ (w - 1))
    (hin : s.inp = wire_rpc_data d ++ rest) (hrd : ∀ x ∈ s.rd, 0 < x) :
    ∃ t, read_rpc_data le w s = some (some d, t) ∧ t.inp = rest ∧ ReadFrame s t := by
  obtain ⟨t, e1, e2, -⟩ := read_rpc_data_ok le w s d rest hv hlen hbuf h1 h64 hlo hhi hin hrd
  exact ⟨t, e1, e2, read_rpc_data_frame le w s _ e1⟩

/-- The CALL request with a handle in range, a payload that crosses the wire and a
handler result that is valid and shorter than `2^31` bytes: when no read or write
fails, `handle_call` invokes the handler at that index once, with the payload, writes
the success status and the encoding of the result, and returns `SUCCESS`. -/
theorem handle_call_ok (le : Bool) (w : Nat) (srv : rpc_server) (arr : array_t) (s : Sock)
    (i : Nat) (f : rpc_func) (P R : rpc_data) (rest : List Nat)
    (hf : srv.functions = some arr) (hlen : arr.A.length ≤ 2147483647)
    (hi : arr.A[i]? = some f)
    (hv : valid_data P) (hPlen : P.data2_len < 2147483648)
    (hbuf : ∀ bs, P.data2 = some bs → bs.length = P.data2_len)
    (h1 : 1 ≤ w) (h64 : w ≤ 64) (hlo : -(2 ^ (w - 1)) ≤ P.data1) (hhi : P.data1 < 2 ^ (w - 1))
    (hres : f.handler P = some R) (hRv : valid_data R) (hRlen : R.data2_len < 2147483648)
    (hin : s.inp = be_bytes 4 i ++ wire_rpc_data P ++ rest)
    (hrd : ∀ x ∈ s.rd, 0 < x) (hwr : ∀ x ∈ s.wr, 0 < x) :
    ∃ t, handle_call le w srv s = some (SUCCESS, t, [((i : Int), P)]) ∧
      t.out = s.out ++ ([0, 0, 0, 2] ++ wire_rpc_data R) ∧ t.inp = rest := by
  have hlt := getElem?_lt_length arr.A i f hi
  obtain ⟨t1, e1, c1, i1⟩ := read_u32_ok le s i (wire_rpc_data P ++ rest) (by omega)
    (by rw [hin, List.append_assoc]) hrd
  obtain ⟨t2, e2, i2, fr2⟩ := read_rpc_data_wire le w t1 P rest hv hPlen hbuf h1 h64 hlo hhi i1
    (c1.rd_pos hrd)
  have hti : to_int (i : Int) = (i : Int) := to_int_of_lt i (by omega)
  have hg : get_elem_at (some arr) (i : Int) = some f := by rw [get_elem_at_in arr i hlt, hi]
  have hwr2 : ∀ x ∈ t2.wr, 0 < x := by rw [fr2.2.1, c1.2.2.1]; exact hwr
  have hck : ¬ check_rpc_data (some R) = FAILED := by
    rw [(check_rpc_data_success_iff (some R)).mpr hRv]; decide
  have hsent := write_prefix_sent le t2 SUCCESS_STAT
  have h4 := hsent.2.2.2.2.2 hwr2
  have hpos : ¬ ( write_prefix le t2 SUCCESS_STAT).1 ≤ 0 := by rw [h4]; decide
  have hsent2 := write_rpc_data_sent le ( write_prefix le t2 SUCCESS_STAT).2 R hRv hRlen
  have h42 := hsent2.2.2.2.2.2 (hsent.script_pos hwr2)
  have hpos2 : ¬ (write_rpc_data le ( write_prefix le t2 SUCCESS_STAT).2 (some R)).1 ≤ 0 := by
    rw [h42]; decide
  have hboth := hsent.chain (by rw [h4]; decide) hsent2
  have hout := hboth.out_append (by rw [h42]; decide)
  have c4 : ¬ ((4 : Int) ≤ 0) := by decide
  refine ⟨(write_rpc_data le ( write_prefix le t2 SUCCESS_STAT).2 (some R)).2, ?_, ?_, ?_⟩
  · unfold handle_call
    rw [e1]
    simp only [Option.bind_eq_bind, Option.some_bind]
    rw [if_neg c4, e2]
    simp only [Option.some_bind]
    rw [hf, hti, hg]
    show (if check_rpc_data (f.handler P) = FAILED then _ else _) = _
    rw [hres, if_neg hck, if_neg hpos, if_neg hpos2]
    rfl
  · rw [hout, fr2.1, c1.2.1]
    rfl
  · rw [hboth.1, i2]

/-- The CALL request with a handle at or beyond the registry size (any 32-bit value) and
a payload that crosses the wire: when no read or write fails, `handle_call` invokes no
handler, writes exactly the failure status and returns `SUCCESS`. -/
theorem handle_call_bad_handle (le : Bool) (w : Nat) (srv : rpc_server) (arr : array_t)
    (s : Sock) (h : Nat) (P : rpc_data) (rest : List Nat)
    (hf : srv.functions = some arr)
    (hh : h < 4294967296) (hge : arr.A.length ≤ h)
    (hv : valid_data P) (hPlen : P.data2_len < 2147483648)
    (hbuf : ∀ bs, P.data2 = some bs → bs.length = P.data2_len)
    (h1 : 1 ≤ w) (h64 : w ≤ 64) (hlo : -(2 ^ (w - 1)) ≤ P.data1) (hhi : P.data1 < 2 ^ (w - 1))
    (hin : s.inp = be_bytes 4 h ++ wire_rpc_data P ++ rest)
    (hrd : ∀ x ∈ s.rd, 0 < x) (hwr : ∀ x ∈ s.wr, 0 < x) :
    ∃ t, handle_call le w srv s = some (SUCCESS, t, []) ∧
      t.out = s.out ++ [0, 0, 0, 1] ∧ t.inp = rest := by
  obtain ⟨t1, e1, c1, i1⟩ := read_u32_ok le s h (wire_rpc_data P ++ rest) hh
    (by rw [hin, List.append_assoc]) hrd
  obtain ⟨t2, e2, i2, fr2⟩ := read_rpc_data_wire le w t1 P rest hv hPlen hbuf h1 h64 hlo hhi i1
    (c1.rd_pos hrd)
  have hg : get_elem_at (some arr) (to_int (h : Int)) = none := by
    rcases to_int_u32 h hh with ⟨-, g2⟩ | ⟨-, g2⟩
    · rw [g2]; exact get_elem_at_out arr _ (Or.inr (by omega))
    · exact get_elem_at_out arr _ (Or.inl g2)
  have hwr2 : ∀ x ∈ t2.wr, 0 < x := by rw [fr2.2.1, c1.2.2.1]; exact hwr
  have hsent := write_prefix_sent le t2 FAILURE_STAT
  have h4 := hsent.2.2.2.2.2 hwr2
  have hout := hsent.out_append (by rw [h4]; decide)
  have c4 : ¬ ((4 : Int) ≤ 0) := by decide
  refine ⟨( write_prefix le t2 FAILURE_STAT).2, ?_, ?_, ?_⟩
  · unfold handle_call
    rw [e1]
    simp only [Option.bind_eq_bind, Option.some_bind]
    rw [if_neg c4, e2]
    simp only [Option.some_bind]
    rw [hf, hg]
    rfl
  · rw [hout, fr2.1, c1.2.1]
    rfl
  · rw [hsent.1, i2]

/-- C20: a failing handler.  A CALL request carries the handle `i` of an entry `f` of the
registry and a payload `P` that crosses the wire, and `f.handler P` is `NULL` or a
payload that violates the invariant.  When no read fails, `handle_call` has a result: it
invokes the handler once, on `P`, returns `SUCCESS` whatever the write does, has
consumed exactly the request, and the bytes it wrote are a beginning of the failure
status `00 00 00 01`: exactly these 4 bytes when no write fails, and no payload byte. -/
theorem handle_call_failing_handler (le : Bool) (w : Nat) (srv : rpc_server) (arr : array_t)
    (s : Sock) (i : Nat) (f : rpc_func) (P : rpc_data) (rest : List Nat)
    (hf : srv.functions = some arr) (hlen : arr.A.length ≤ 2147483647)
    (hi : arr.A[i]? = some f)
    (hv : valid_data P) (hPlen : P.data2_len < 2147483648)
    (hbuf : ∀ bs, P.data2 = some bs → bs.length = P.data2_len)
    (h1 : 1 ≤ w) (h64 : w ≤ 64) (hlo : -(2 ^ (w - 1)) ≤ P.data1) (hhi : P.data1 < 2 ^ (w - 1))
    (hres : ¬ valid_payload (f.handler P))
    (hin : s.inp = be_bytes 4 i ++ wire_rpc_data P ++ rest)
    (hrd : ∀ x ∈ s.rd, 0 < x) :
    ∃ t, handle_call le w srv s = some (SUCCESS, t, [((i : Int), P)]) ∧
      t.inp = rest ∧
      (∃ k : Nat, k ≤ 4 ∧ t.out = s.out ++ ([0, 0, 0, 1] : List Nat).take k) ∧
      ((∀ x ∈ s.wr, 0 < x) → t.out = s.out ++ [0, 0, 0, 1]) := by
  have hlt := getElem?_lt_length arr.A i f hi
  obtain ⟨t1, e1, c1, i1⟩ := read_u32_ok le s i (wire_rpc_data P ++ rest) (by omega)
    (by rw [hin, List.append_assoc]) hrd
  obtain ⟨t2, e2, i2, fr2⟩ := read_rpc_data_wire le w t1 P rest hv hPlen hbuf h1 h64 hlo hhi i1
    (c1.rd_pos hrd)
  have hti : to_int (i : Int) = (i : Int) := to_int_of_lt i (by omega)
  have hg : get_elem_at (some arr) (i : Int) = some f := by rw [get_elem_at_in arr i hlt, hi]
  have hck : check_rpc_data (f.handler P) = FAILED := (check_rpc_data_failed_iff _).mpr hres
  have hsent := write_prefix_sent le t2 FAILURE_STAT
  have c4 : ¬ ((4 : Int) ≤ 0) := by decide
  have hout2 : t2.out = s.out := by rw [fr2.1, c1.2.1]
  refine ⟨( write_prefix le t2 FAILURE_STAT).2, ?_, ?_, ?_, ?_⟩
  · unfold handle_call
    rw [e1]
    simp only [Option.bind_eq_bind, Option.some_bind]
    rw [if_neg c4, e2]
    simp only [Option.some_bind]
    rw [hf, hti, hg]
    show (if check_rpc_data (f.handler P) = FAILED then _ else _) = _
    rw [if_pos hck]
    rfl
  · rw [hsent.1, i2]
  · obtain ⟨k, hk, hout⟩ := hsent.2.2.2.1
    refine ⟨k, by simpa [be_bytes_length] using hk, ?_⟩
    rw [hout, hout2]
    rfl
  · intro hwr
    have hwr2 : ∀ x ∈ t2.wr, 0 < x := by rw [fr2.2.1, c1.2.2.1]; exact hwr
    have h4 := hsent.2.2.2.2.2 hwr2
    rw [hsent.out_append (by rw [h4]; decide), hout2]
    rfl

/-- Instance of C20: the only entry of the registry has a handler that returns `NULL`;
the CALL on the handle 0 with `{data1 = 5, data2 = [100]}` is answered `00 00 00 01`.
A handler that returns the inconsistent payload `{data2_len = 3, data2 = NULL}` is
answered the same way. -/
theorem handle_call_failing_handler_witness :
    ∃ t, handle_call true 32
        ⟨3, some { A := [{ name := [97, 0], handler := fun _ => none }], capacity := 20,
                   cmp := cmp_func_name }⟩
        { inp := [0, 0, 0, 0, 0, 0, 0, 0, 0, 0, 0, 5, 0, 0, 0, 1, 100, 9], out := [],
          rd := [], wr := [] } =
        some (SUCCESS, t, [(((0 : Nat) : Int), ⟨5, 1, some [100]⟩)]) ∧
      t.inp = [9] ∧
      (∃ k : Nat, k ≤ 4 ∧ t.out = [] ++ ([0, 0, 0, 1] : List Nat).take k) ∧
      ((∀ x ∈ ([] : List Int), 0 < x) → t.out = [] ++ [0, 0, 0, 1]) :=
  handle_call_failing_handler true 32
    ⟨3, some { A := [{ name := [97, 0], handler := fun _ => none }], capacity := 20,
               cmp := cmp_func_name }⟩
    { A := [{ name := [97, 0], handler := fun _ => none }], capacity := 20,
      cmp := cmp_func_name }
    { inp := [0, 0, 0, 0, 0, 0, 0, 0, 0, 0, 0, 5, 0, 0, 0, 1, 100, 9], out := [], rd := [],
      wr := [] }
    0 { name := [97, 0], handler := fun _ => none } ⟨5, 1, some [100]⟩ [9]
    rfl (by decide) rfl (by decide) (by decide) (by decide) (by decide) (by decide)
    (by decide) (by decide) (fun h => h) (by decide) (by decide)

/-- The same request on a registry whose handler returns a payload that announces 3 bytes
and carries none, and on one whose handler returns `NULL` while the write fails. -/
theorem handle_call_failing_handler_runs :
    handle_call true 32
        ⟨3, some { A := [{ name := [97, 0], handler := fun _ => some ⟨0, 3, none⟩ }],
                   capacity := 20, cmp := cmp_func_name }⟩
        { inp := [0, 0, 0, 0, 0, 0, 0, 0, 0, 0, 0, 5, 0, 0, 0, 1, 100, 9], out := [],
          rd := [], wr := [] } =
      some (SUCCESS, { inp := [9], out := [0, 0, 0, 1], rd := [], wr := [] },
        [(0, ⟨5, 1, some [100]⟩)]) ∧
    handle_call false 64
        ⟨3, some { A := [{ name := [97, 0], handler := fun _ => none }],
                   capacity := 20, cmp := cmp_func_name }⟩
        { inp := [0, 0, 0, 0, 0, 0, 0, 0, 0, 0, 0, 5, 0, 0, 0, 1, 100, 9], out := [],
          rd := [3, 20], wr := [2, 0] } =
      some (SUCCESS, { inp := [9], out := [0, 0], rd := [], wr := [] },
        [(0, ⟨5, 1, some [100]⟩)]) := by
  refine ⟨by decide, by decide⟩

/-! ## The CALL request at `data2_len = 2^31` -/

/-- Writing a payload with `data2_len = 2^31` after the success status: the 12 header
bytes follow the status, then `write_all` fails on the negative length. -/
theorem write_rpc_data_after_status_at_2_31 (buf : List Nat) :
    write_rpc_data true { inp := [], out := [0, 0, 0, 2], rd := [], wr := [] }
        (some { data1 := 0, data2_len := 2147483648, data2 := some buf }) =
      (FAILED, { inp := [], out := [0, 0, 0, 2, 0, 0, 0, 0, 0, 0, 0, 0, 128, 0, 0, 0],
                 rd := [], wr := [] }) := by
  have hv := (write_rpc_data_at_2_31 buf).1
  have hc := (check_rpc_data_success_iff _).mpr (show valid_payload (some _) from hv)
  have e1 : write_u64 true { inp := [], out := [0, 0, 0, 2], rd := [], wr := [] } (to_u64 0) =
      (8, { inp := [], out := [0, 0, 0, 2, 0, 0, 0, 0, 0, 0, 0, 0], rd := [], wr := [] }) := by
    decide
  have e2 : write_u32 true
      { inp := [], out := [0, 0, 0, 2, 0, 0, 0, 0, 0, 0, 0, 0], rd := [], wr := [] }
      (to_u32 ((2147483648 : Nat) : Int)) =
      (4, { inp := [], out := [0, 0, 0, 2, 0, 0, 0, 0, 0, 0, 0, 0, 128, 0, 0, 0],
            rd := [], wr := [] }) := by
    decide
  have e3 : to_int ((2147483648 : Nat) : Int) < 0 := by decide
  unfold write_rpc_data
  rw [if_neg (by rw [hc]; decide)]
  simp only [e1, e2, write_all_neg _ _ _ e3]
  decide

/-- The branch of `handle_call` in which the result of the handler is accepted, the
success status is written and writing the result fails. -/
theorem handle_call_result_unsent (le : Bool) (w : Nat) (srv : rpc_server) (s : Sock) (n : Int)
    (h : Nat) (t1 t2 : Sock) (P : rpc_data) (f : rpc_func)
    (e1 : read_u32 le s = some (n, h, t1)) (hn : ¬ n ≤ 0)
    (e2 : read_rpc_data le w t1 = some (some P, t2))
    (hg : get_elem_at srv.functions (to_int (h : Int)) = some f)
    (hck : ¬ check_rpc_data (f.handler P) = FAILED)
    (hp : ¬ ( write_prefix le t2 SUCCESS_STAT).1 ≤ 0)
    (hw : (write_rpc_data le ( write_prefix le t2 SUCCESS_STAT).2 (f.handler P)).1 ≤ 0) :
    handle_call le w srv s =
      some ((write_rpc_data le ( write_prefix le t2 SUCCESS_STAT).2 (f.handler P)).1,
        (write_rpc_data le ( write_prefix le t2 SUCCESS_STAT).2 (f.handler P)).2,
        [(to_int (h : Int), P)]) := by
  unfold handle_call
  rw [e1]
  simp only [Option.bind_eq_bind, Option.some_bind]
  rw [if_neg hn, e2]
  simp only [Option.some_bind]
  rw [hg]
  show (if check_rpc_data (f.handler P) = FAILED then _ else _) = _
  rw [if_neg hck, if_neg hp, if_pos hw]
  rfl

/-- The CALL request whose handler returns a payload with `data2_len = 2^31` and any
buffer: `handle_call` returns `FAILED` after the status and the 12 header bytes. -/
theorem handle_call_at_2_31 (buf : List Nat) :
    handle_call true 64
        ⟨3, some ⟨[⟨[97, 0], fun _ => some ⟨0, 2147483648, some buf⟩⟩], 20, cmp_func_name⟩⟩
        { inp := [0, 0, 0, 0, 0, 0, 0, 0, 0, 0, 0, 0, 0, 0, 0, 0], out := [], rd := [], wr := [] } =
      some (FAILED,
        { inp := [], out := [0, 0, 0, 2, 0, 0, 0, 0, 0, 0, 0, 0, 128, 0, 0, 0], rd := [], wr := [] },
        [(0, ⟨0, 0, none⟩)]) := by
  have hv := (write_rpc_data_at_2_31 buf).1
  have hc := (check_rpc_data_success_iff _).mpr (show valid_payload (some _) from hv)
  have hck : ¬ check_rpc_data (some ⟨0, 2147483648, some buf⟩) = FAILED := by rw [hc]; decide
  have e1 : read_u32 true
      { inp := [0, 0, 0, 0, 0, 0, 0, 0, 0, 0, 0, 0, 0, 0, 0, 0], out := [], rd := [], wr := [] } =
      some (4, 0, { inp := [0, 0, 0, 0, 0, 0, 0, 0, 0, 0, 0, 0], out := [], rd := [], wr := [] }) := by
    decide
  have e2 : read_rpc_data true 64
      { inp := [0, 0, 0, 0, 0, 0, 0, 0, 0, 0, 0, 0], out := [], rd := [], wr := [] } =
      some (some ⟨0, 0, none⟩, { inp := [], out := [], rd := [], wr := [] }) := by
    decide
  have e3 : write_prefix true { inp := [], out := [], rd := [], wr := [] } SUCCESS_STAT =
      (4, { inp := [], out := [0, 0, 0, 2], rd := [], wr := [] }) := by
    decide
  have e4 := write_rpc_data_after_status_at_2_31 buf
  have e5 : write_rpc_data true
      ( write_prefix true { inp := [], out := [], rd := [], wr := [] } SUCCESS_STAT).2
      (some ⟨0, 2147483648, some buf⟩) =
      (FAILED, { inp := [], out := [0, 0, 0, 2, 0, 0, 0, 0, 0, 0, 0, 0, 128, 0, 0, 0],
                 rd := [], wr := [] }) := by
    rw [e3]; exact e4
  have key := handle_call_result_unsent true 64
    ⟨3, some ⟨[⟨[97, 0], fun _ => some ⟨0, 2147483648, some buf⟩⟩], 20, cmp_func_name⟩⟩
    _ 4 0 _ _ ⟨0, 0, none⟩ ⟨[97, 0], fun _ => some ⟨0, 2147483648, some buf⟩⟩ e1 (by decide) e2 rfl
    hck (by rw [e3]; decide) (by rw [e5]; decide)
  rw [e5] at key
  exact key

/-- C18, evaluated at a handler whose result is the valid payload with
`data2_len = 2^31`: the CALL request with handle 0 and an empty payload invokes the
handler, the success status and the 12 header bytes of the result are written, then
`write_all` receives the length converted to `int`, which is negative, and fails, so
`handle_call` returns `FAILED` without having written the buffer of the result. -/
theorem handle_call_fails_at_2_31 :
    valid_data { data1 := 0, data2_len := 2147483648,
                 data2 := some (List.replicate 2147483648 0) } ∧
    handle_call true 64
        ⟨3, some ⟨[⟨[97, 0], fun _ =>
          some ⟨0, 2147483648, some (List.replicate 2147483648 0)⟩⟩], 20, cmp_func_name⟩⟩
        { inp := [0, 0, 0, 0, 0, 0, 0, 0, 0, 0, 0, 0, 0, 0, 0, 0], out := [], rd := [], wr := [] } =
      some (FAILED,
        { inp := [], out := [0, 0, 0, 2, 0, 0, 0, 0, 0, 0, 0, 0, 128, 0, 0, 0], rd := [], wr := [] },
        [(0, ⟨0, 0, none⟩)]) :=
  ⟨(write_rpc_data_at_2_31 _).1, handle_call_at_2_31 _⟩

/-- C19, evaluated at a CALL request with handle 1 against a registry of one function
and a payload header announcing `data2_len = 2^31`: `read_rpc_data` passes the length
to `read_all` as a negative `int`, so the run has no defined result and no failure
status is written; the same request announcing an empty payload is answered with the
failure status. -/
theorem handle_call_undefined_at_2_31 :
    get_elem_at (some ⟨[⟨[97, 0], fun _ => none⟩], 20, cmp_func_name⟩) 1 = none ∧
    handle_call true 64 ⟨3, some ⟨[⟨[97, 0], fun _ => none⟩], 20, cmp_func_name⟩⟩
        { inp := [0, 0, 0, 1, 0, 0, 0, 0, 0, 0, 0, 0, 128, 0, 0, 0], out := [], rd := [], wr := [] } =
      none ∧
    handle_call true 64 ⟨3, some ⟨[⟨[97, 0], fun _ => none⟩], 20, cmp_func_name⟩⟩
        { inp := [0, 0, 0, 1, 0, 0, 0, 0, 0, 0, 0, 0, 0, 0, 0, 0], out := [], rd := [], wr := [] } =
      some (SUCCESS, { inp := [], out := [0, 0, 0, 1], rd := [], wr := [] }, []) := by
  refine ⟨rfl, by decide, by decide⟩

/-! ## The request prefix and the dispatch of `handle_request` -/

theorem check_prefix_failed_iff (v : Nat) : check_prefix v = FAILED ↔ ¬ (1 ≤ v ∧ v ≤ 3) := by
  unfold check_prefix is_valid_prefix
  by_cases h : ((v : Int) ≥ FIND_REQ ∧ (v : Int) ≤ CLOSE_REQ)
  · have h' : 1 ≤ v ∧ v ≤ 3 := by
      simp only [FIND_REQ, CLOSE_REQ] at h
      omega
    simp [h, h', SUCCESS, FAILED, FALSE]
  · have h' : ¬ (1 ≤ v ∧ v ≤ 3) := by
      simp only [FIND_REQ, CLOSE_REQ] at h
      omega
    simp [h, h', SUCCESS, FAILED, FALSE]

/-- The result of `read_u32` is the number of bytes of a `uint32_t`, `EMPTY` or `FAILED`. -/
theorem read_u32_result (le : Bool) (s : Sock) (r : Int × Nat × Sock)
    (h : read_u32 le s = some r) : r.1 = 4 ∨ r.1 = EMPTY ∨ r.1 = FAILED := by
  unfold read_u32 at h
  obtain ⟨q, hq, -, -, -, -, -, hpos, -⟩ := read_all_spec s U32_SIZE (by decide)
  rw [hq] at h
  simp only [Option.bind_eq_bind, Option.some_bind] at h
  by_cases c : q.1 ≤ 0
  · rw [if_pos c] at h
    have e := Option.some.inj h
    subst e
    show check_io_err q.1 = 4 ∨ check_io_err q.1 = EMPTY ∨ check_io_err q.1 = FAILED
    unfold check_io_err
    by_cases c0 : q.1 = 0
    · rw [if_pos c0]; right; left; rfl
    · rw [if_neg c0, if_pos (by omega)]; right; right; rfl
  · rw [if_neg c] at h
    have e := Option.some.inj h
    subst e
    left
    exact (hpos (by omega)).1

/-- The value `read_prefix` returns, from the outcome of its `read_u32`. -/
theorem read_prefix_eq (le : Bool) (s : Sock) (r : Int × Nat × Sock)
    (h : read_u32 le s = some r) :
    read_prefix le s = some
      (if r.1 ≤ 0 then to_u32 r.1 else if check_prefix r.2.1 = FAILED then to_u32 FAILED
        else r.2.1, r.2.2) := by
  unfold read_prefix
  rw [h]
  simp only [Option.bind_eq_bind, Option.some_bind]
  by_cases c : r.1 ≤ 0
  · rw [if_pos c, if_pos c]; rfl
  · rw [if_neg c, if_neg c]
    by_cases c2 : check_prefix r.2.1 = FAILED
    · rw [if_pos c2, if_pos c2]; rfl
    · rw [if_neg c2, if_neg c2]; rfl

/-- The prefix `handle_request` stores in its `int`, and the socket, from the outcome
of the `read_u32` of `read_prefix`: `0` or `-1` when the read failed, `-1` for a value
outside `[1, 3]`, else the value read. -/
theorem read_prefix_int (le : Bool) (s : Sock) (r : Int × Nat × Sock)
    (h : read_u32 le s = some r) :
    ∃ p, read_prefix le s = some (p, r.2.2) ∧
      ((r.1 ≤ 0 ∧ (to_int (p : Int) = 0 ∨ to_int (p : Int) = -1)) ∨
       (0 < r.1 ∧ ¬ (1 ≤ r.2.1 ∧ r.2.1 ≤ 3) ∧ to_int (p : Int) = -1) ∨
       (0 < r.1 ∧ 1 ≤ r.2.1 ∧ r.2.1 ≤ 3 ∧ p = r.2.1 ∧ to_int (p : Int) = (r.2.1 : Int))) := by
  refine ⟨_, read_prefix_eq le s r h, ?_⟩
  rcases read_u32_result le s r h with e | e | e
  · right
    have c : ¬ r.1 ≤ 0 := by rw [e]; decide
    rw [if_neg c]
    by_cases c2 : check_prefix r.2.1 = FAILED
    · left
      rw [if_pos c2]
      exact ⟨by omega, (check_prefix_failed_iff _).mp c2, by decide⟩
    · right
      rw [if_neg c2]
      have hv : 1 ≤ r.2.1 ∧ r.2.1 ≤ 3 := by
        by_contra hn
        exact c2 ((check_prefix_failed_iff _).mpr hn)
      exact ⟨by omega, hv.1, hv.2, rfl, to_int_of_lt _ (by omega)⟩
  · left
    have c : r.1 ≤ 0 := by rw [e]
    rw [if_pos c, e]
    exact ⟨by decide, Or.inl (by decide)⟩
  · left
    have c : r.1 ≤ 0 := by rw [e]; decide
    rw [if_pos c, e]
    exact ⟨by decide, Or.inr (by decide)⟩

/-- The body of `handle_request` after `read_prefix`, as a function of the `int` prefix. -/
theorem handle_request_eq (le : Bool) (w : Nat) (srv : rpc_server) (s : Sock) (p : Nat)
    (t : Sock) (h : read_prefix le s = some (p, t)) :
    handle_request le w srv s =
      (if check_prefix (to_u32 (to_int (p : Int))) = FAILED then some (FAILED, t, [], srv)
       else if to_int (p : Int) = FIND_REQ then
         (handle_find le srv t).bind (fun r => some (r.1, r.2, [], srv))
       else if to_int (p : Int) = CALL_REQ then
         (handle_call le w srv t).bind (fun r => some (r.1, r.2.1, r.2.2, srv))
       else if to_int (p : Int) = CLOSE_REQ then some (EMPTY, t, [], srv)
       else some (FAILED, t, [], srv)) := by
  unfold handle_request
  rw [h, Option.bind_eq_bind, Option.some_bind]
  dsimp only
  rfl

/-- No prefix could be read: `handle_request` returns `FAILED`, also when the read
reported a closed stream. -/
theorem handle_request_unread (le : Bool) (w : Nat) (srv : rpc_server) (s : Sock)
    (r : Int × Nat × Sock) (h : read_u32 le s = some r) (hn : r.1 ≤ 0) :
    handle_request le w srv s = some (FAILED, r.2.2, [], srv) := by
  obtain ⟨p, hp, hc⟩ := read_prefix_int le s r h
  rw [handle_request_eq le w srv s p r.2.2 hp]
  rcases hc with ⟨-, e | e⟩ | ⟨c, -⟩ | ⟨c, -⟩
  · rw [e, if_pos (by decide)]
  · rw [e, if_pos (by decide)]
  · omega
  · omega

/-- A prefix outside `[1, 3]`: `handle_request` returns `FAILED`. -/
theorem handle_request_unknown (le : Bool) (w : Nat) (srv : rpc_server) (s : Sock)
    (r : Int × Nat × Sock) (h : read_u32 le s = some r) (hp : 0 < r.1)
    (hv : ¬ (1 ≤ r.2.1 ∧ r.2.1 ≤ 3)) :
    handle_request le w srv s = some (FAILED, r.2.2, [], srv) := by
  obtain ⟨p, hp', hc⟩ := read_prefix_int le s r h
  rw [handle_request_eq le w srv s p r.2.2 hp']
  rcases hc with ⟨c, -⟩ | ⟨-, -, e⟩ | ⟨-, c1, c2, -⟩
  · omega
  · rw [e, if_pos (by decide)]
  · exact absurd ⟨c1, c2⟩ hv

/-- The prefix `FIND_REQ`: `handle_request` returns what `handle_find` returns. -/
theorem handle_request_find (le : Bool) (w : Nat) (srv : rpc_server) (s : Sock)
    (r : Int × Nat × Sock) (h : read_u32 le s = some r) (hp : 0 < r.1) (hv : r.2.1 = 1) :
    handle_request le w srv s =
      (handle_find le srv r.2.2).bind (fun q => some (q.1, q.2, [], srv)) := by
  obtain ⟨p, hp', hc⟩ := read_prefix_int le s r h
  rw [handle_request_eq le w srv s p r.2.2 hp']
  rcases hc with ⟨c, -⟩ | ⟨-, c, -⟩ | ⟨-, -, -, -, e⟩
  · omega
  · omega
  · rw [e, hv, if_neg (by decide), if_pos (by decide)]

/-- The prefix `CALL_REQ`: `handle_request` returns what `handle_call` returns. -/
theorem handle_request_call (le : Bool) (w : Nat) (srv : rpc_server) (s : Sock)
    (r : Int × Nat × Sock) (h : read_u32 le s = some r) (hp : 0 < r.1) (hv : r.2.1 = 2) :
    handle_request le w srv s =
      (handle_call le w srv r.2.2).bind (fun q => some (q.1, q.2.1, q.2.2, srv)) := by
  obtain ⟨p, hp', hc⟩ := read_prefix_int le s r h
  rw [handle_request_eq le w srv s p r.2.2 hp']
  rcases hc with ⟨c, -⟩ | ⟨-, c, -⟩ | ⟨-, -, -, -, e⟩
  · omega
  · omega
  · rw [e, hv, if_neg (by decide), if_neg (by decide), if_pos (by decide)]

/-- The prefix `CLOSE_REQ`: `handle_request` returns `EMPTY`. -/
theorem handle_request_close (le : Bool) (w : Nat) (srv : rpc_server) (s : Sock)
    (r : Int × Nat × Sock) (h : read_u32 le s = some r) (hp : 0 < r.1) (hv : r.2.1 = 3) :
    handle_request le w srv s = some (EMPTY, r.2.2, [], srv) := by
  obtain ⟨p, hp', hc⟩ := read_prefix_int le s r h
  rw [handle_request_eq le w srv s p r.2.2 hp']
  rcases hc with ⟨c, -⟩ | ⟨-, c, -⟩ | ⟨-, -, -, -, e⟩
  · omega
  · omega
  · rw [e, hv, if_neg (by decide), if_neg (by decide), if_neg (by decide), if_pos (by decide)]

/-- One turn of the loop of the worker whose request returns a non-positive result: the
loop ends with that result. -/
theorem serve_loop_stop (le : Bool) (w : Nat) (fuel : Nat) (srv : rpc_server) (s : Sock)
    (r : Int × Sock × List (Int × rpc_data) × rpc_server)
    (h : handle_request le w srv s = some r) (hn : r.1 ≤ 0) :
    serve_loop le w (fuel + 1) srv s = some r := by
  unfold serve_loop
  rw [h]
  simp only [Option.bind_eq_bind, Option.some_bind]
  rw [if_neg (by omega)]
  rfl

/-- One turn of the loop of the worker whose request returns a positive result: the
loop goes on with the next request on the socket as the request left it. -/
theorem serve_loop_continue (le : Bool) (w : Nat) (fuel : Nat) (srv : rpc_server) (s : Sock)
    (r : Int × Sock × List (Int × rpc_data) × rpc_server)
    (h : handle_request le w srv s = some r) (hp : 0 < r.1) :
    serve_loop le w (fuel + 1) srv s =
      (serve_loop le w fuel r.2.2.2 r.2.1).bind
        (fun r2 => some (r2.1, r2.2.1, r.2.2.1 ++ r2.2.2.1, r2.2.2.2)) := by
  rw [serve_loop]
  rw [h]
  simp only [Option.bind_eq_bind, Option.some_bind]
  rw [if_pos (by omega)]
  rfl

/-! ## Requests that end the loop of the worker -/

/-- C21: an unknown request type is fatal for the connection.  Whenever the request
prefix is read in full and its 32-bit value `v` is not 1 (FIND), 2 (CALL) or 3 (CLOSE),
`handle_request` returns `FAILED`, invokes no handler and writes nothing to the
connection, and the loop of the worker (`serve_loop`, which goes on only while the
result is positive) ends with this request. -/
theorem unknown_request_fatal (le : Bool) (w : Nat) (srv : rpc_server) (s : Sock) (n : Int)
    (v : Nat) (t : Sock) (h : read_u32 le s = some (n, v, t)) (hp : 0 < n)
    (hv : v ≠ 1 ∧ v ≠ 2 ∧ v ≠ 3) :
    handle_request le w srv s = some (FAILED, t, [], srv) ∧
    t.out = s.out ∧
    ∀ fuel, serve_loop le w (fuel + 1) srv s = some (FAILED, t, [], srv) := by
  have hr := handle_request_unknown le w srv s (n, v, t) h hp (by show ¬ (1 ≤ v ∧ v ≤ 3); omega)
  refine ⟨hr, (read_u32_frame le s _ h).1, fun fuel => ?_⟩
  exact serve_loop_stop le w fuel srv s _ hr (show FAILED ≤ 0 by decide)

theorem unknown_request_fatal_witness :
    read_u32 true { inp := [0, 0, 0, 4, 9], out := [7], rd := [], wr := [] } =
      some (4, 4, { inp := [9], out := [7], rd := [], wr := [] }) ∧
    handle_request true 64 ⟨3, none⟩ { inp := [0, 0, 0, 4, 9], out := [7], rd := [], wr := [] } =
      some (FAILED, { inp := [9], out := [7], rd := [], wr := [] }, [], ⟨3, none⟩) :=
  ⟨by decide,
   (unknown_request_fatal true 64 ⟨3, none⟩
      { inp := [0, 0, 0, 4, 9], out := [7], rd := [], wr := [] } 4 4
      { inp := [9], out := [7], rd := [], wr := [] } (by decide) (by decide) (by decide)).1⟩

/-- C22: the CLOSE request.  Whenever the request prefix is read in full and its value
is 3 (CLOSE), `handle_request` returns `EMPTY` (0), invokes no handler and writes no
byte to the connection, and the loop of the worker (`serve_loop`, which goes on only
while the result is positive) ends with this request. -/
theorem close_request_ends_loop (le : Bool) (w : Nat) (srv : rpc_server) (s : Sock) (n : Int)
    (t : Sock) (h : read_u32 le s = some (n, 3, t)) (hp : 0 < n) :
    handle_request le w srv s = some (EMPTY, t, [], srv) ∧
    t.out = s.out ∧ t.wr = s.wr ∧
    ∀ fuel, serve_loop le w (fuel + 1) srv s = some (EMPTY, t, [], srv) := by
  have hr := handle_request_close le w srv s (n, 3, t) h hp rfl
  refine ⟨hr, (read_u32_frame le s _ h).1, (read_u32_frame le s _ h).2.1, fun fuel => ?_⟩
  exact serve_loop_stop le w fuel srv s _ hr (show EMPTY ≤ 0 by decide)

theorem close_request_ends_loop_witness :
    read_u32 false { inp := [0, 0, 0, 3, 9], out := [7], rd := [2, 5], wr := [-1] } =
      some (4, 3, { inp := [9], out := [7], rd := [], wr := [-1] }) ∧
    serve_loop false 64 5 ⟨3, none⟩ { inp := [0, 0, 0, 3, 9], out := [7], rd := [2, 5], wr := [-1] } =
      some (EMPTY, { inp := [9], out := [7], rd := [], wr := [-1] }, [], ⟨3, none⟩) :=
  ⟨by decide,
   (close_request_ends_loop false 64 ⟨3, none⟩
      { inp := [0, 0, 0, 3, 9], out := [7], rd := [2, 5], wr := [-1] } 4
      { inp := [9], out := [7], rd := [], wr := [-1] } (by decide) (by decide)).2.2.2 4⟩

/-! ## Transport failures inside a CALL request -/

/-- C23, evaluated at CALL requests in which a read or a write fails.  First request:
the stream is closed after three bytes of the payload, `read_u64` reports `EMPTY`, yet
`handle_request` writes the failure status and returns `SUCCESS`, so the loop of the
worker goes on (it ends with the next request, which finds no prefix).  Second request:
the third `read` (inside the payload) reports an error; `handle_request` returns
`SUCCESS` and leaves the unread bytes of the payload at the front of the input.  Third
request: the handle is out of range and the `write` of the failure status reports an
error; `handle_request` returns `SUCCESS`. -/
theorem handle_request_ignores_call_failures :
    read_u64 true { inp := [0, 0, 0], out := [], rd := [], wr := [] } =
      some (EMPTY, 0, { inp := [], out := [], rd := [], wr := [] }) ∧
    (handle_request true 64 ⟨3, some ⟨[⟨[97, 0], fun d => some d⟩], 20, cmp_func_name⟩⟩
        { inp := [0, 0, 0, 2, 0, 0, 0, 0, 0, 0, 0], out := [], rd := [], wr := [] }).map
      (fun r => (r.1, r.2.1, r.2.2.1)) =
      some (SUCCESS, { inp := [], out := [0, 0, 0, 1], rd := [], wr := [] }, []) ∧
    (serve_loop true 64 2 ⟨3, some ⟨[⟨[97, 0], fun d => some d⟩], 20, cmp_func_name⟩⟩
        { inp := [0, 0, 0, 2, 0, 0, 0, 0, 0, 0, 0], out := [], rd := [], wr := [] }).map
      (fun r => (r.1, r.2.1, r.2.2.1)) =
      some (FAILED, { inp := [], out := [0, 0, 0, 1], rd := [], wr := [] }, []) ∧
    (handle_request true 64 ⟨3, some ⟨[⟨[97, 0], fun d => some d⟩], 20, cmp_func_name⟩⟩
        { inp := [0, 0, 0, 2, 0, 0, 0, 0, 0, 0, 0, 0, 0, 0, 0, 5, 0, 0, 0, 0], out := [],
          rd := [4, 4, -1], wr := [] }).map
      (fun r => (r.1, r.2.1, r.2.2.1)) =
      some (SUCCESS, { inp := [0, 0, 0, 0, 0, 0, 0, 5, 0, 0, 0, 0], out := [0, 0, 0, 1],
                       rd := [], wr := [] }, []) ∧
    (handle_request true 64 ⟨3, some ⟨[⟨[97, 0], fun d => some d⟩], 20, cmp_func_name⟩⟩
        { inp := [0, 0, 0, 2, 0, 0, 0, 9, 0, 0, 0, 0, 0, 0, 0, 5, 0, 0, 0, 0], out := [],
          rd := [], wr := [-1] }).map
      (fun r => (r.1, r.2.1, r.2.2.1)) =
      some (SUCCESS, { inp := [], out := [], rd := [], wr := [] }, []) := by
  refine ⟨by decide, by decide, by decide, by decide, by decide⟩

/-! ## The registry during the requests of a connection -/

/-- The server structure that `handle_request` leaves is the one it was given. -/
theorem handle_request_srv (le : Bool) (w : Nat) (srv : rpc_server) (s : Sock)
    (res : Int × Sock × List (Int × rpc_data) × rpc_server)
    (h : handle_request le w srv s = some res) : res.2.2.2 = srv := by
  cases hp : read_prefix le s with
  | none =>
    unfold handle_request at h
    rw [hp, Option.bind_eq_bind, Option.none_bind] at h
    exact absurd h (by simp)
  | some pt =>
    obtain ⟨p, t⟩ := pt
    rw [handle_request_eq le w srv s p t hp] at h
    split_ifs at h
    · rw [← Option.some.inj h]
    · cases hf : handle_find le srv t with
      | none => rw [hf, Option.none_bind] at h; exact absurd h (by simp)
      | some q => rw [hf, Option.some_bind] at h; rw [← Option.some.inj h]
    · cases hf : handle_call le w srv t with
      | none => rw [hf, Option.none_bind] at h; exact absurd h (by simp)
      | some q => rw [hf, Option.some_bind] at h; rw [← Option.some.inj h]
    · rw [← Option.some.inj h]
    · rw [← Option.some.inj h]

/-- The server structure that the loop of the worker leaves is the one it was given. -/
theorem serve_loop_srv (le : Bool) (w : Nat) (fuel : Nat) (srv : rpc_server) (s : Sock)
    (res : Int × Sock × List (Int × rpc_data) × rpc_server)
    (h : serve_loop le w fuel srv s = some res) : res.2.2.2 = srv := by
  induction fuel generalizing srv s res with
  | zero =>
    unfold serve_loop at h
    rw [← Option.some.inj h]
  | succ k ih =>
    cases hr : handle_request le w srv s with
    | none =>
      unfold serve_loop at h
      rw [hr, Option.bind_eq_bind, Option.none_bind] at h
      exact absurd h (by simp)
    | some r =>
      have hs := handle_request_srv le w srv s r hr
      by_cases c : 0 < r.1
      · rw [serve_loop_continue le w k srv s r hr c] at h
        cases h2 : serve_loop le w k r.2.2.2 r.2.1 with
        | none => rw [h2, Option.none_bind] at h; exact absurd h (by simp)
        | some r2 =>
          rw [h2, Option.some_bind] at h
          rw [← Option.some.inj h]
          exact (ih _ _ _ h2).trans hs
      · rw [serve_loop_stop le w k srv s r hr (by omega)] at h
        rw [← Option.some.inj h]
        exact hs

/-! ## Which runs are defined -/

theorem read_u16_defined (le : Bool) (s : Sock) : ∃ r, read_u16 le s = some r := by
  obtain ⟨q, hq, -⟩ := read_all_spec s U16_SIZE (by decide)
  unfold read_u16
  rw [hq, Option.bind_eq_bind, Option.some_bind]
  by_cases c : q.1 ≤ 0
  · rw [if_pos c]; exact ⟨_, rfl⟩
  · rw [if_neg c]; exact ⟨_, rfl⟩

theorem read_u32_defined (le : Bool) (s : Sock) : ∃ r, read_u32 le s = some r := by
  obtain ⟨q, hq, -⟩ := read_all_spec s U32_SIZE (by decide)
  unfold read_u32
  rw [hq, Option.bind_eq_bind, Option.some_bind]
  by_cases c : q.1 ≤ 0
  · rw [if_pos c]; exact ⟨_, rfl⟩
  · rw [if_neg c]; exact ⟨_, rfl⟩

theorem read_u64_defined (le : Bool) (s : Sock) : ∃ r, read_u64 le s = some r := by
  obtain ⟨q, hq, -⟩ := read_all_spec s U64_SIZE (by decide)
  unfold read_u64
  rw [hq, Option.bind_eq_bind, Option.some_bind]
  by_cases c : q.1 ≤ 0
  · rw [if_pos c]; exact ⟨_, rfl⟩
  · rw [if_neg c]; exact ⟨_, rfl⟩

theorem read_prefix_defined (le : Bool) (s : Sock) : ∃ p, read_prefix le s = some p := by
  obtain ⟨r, hr⟩ := read_u32_defined le s
  exact ⟨_, read_prefix_eq le s r hr⟩

/-- The function `read_name` has no undefined run: the length it passes to `read_all` is
a `uint16_t`. -/
theorem read_name_defined (le : Bool) (s : Sock) : ∃ r, read_name le s = some r := by
  obtain ⟨r, hr⟩ := read_u16_defined le s
  unfold read_name
  rw [hr, Option.bind_eq_bind, Option.some_bind]
  dsimp only
  by_cases c : r.1 ≤ 0
  · rw [if_pos c]; exact ⟨_, rfl⟩
  · rw [if_neg c]
    obtain ⟨q, hq, -⟩ := read_all_spec r.2.2 (r.2.1 : Int) (by omega)
    rw [hq, Option.bind_eq_bind, Option.some_bind]
    by_cases c2 : q.1 ≤ 0
    · rw [if_pos c2]; exact ⟨_, rfl⟩
    · rw [if_neg c2]; exact ⟨_, rfl⟩

/-- The function `handle_find` has no undefined run. -/
theorem handle_find_defined (le : Bool) (srv : rpc_server) (s : Sock) :
    ∃ r, handle_find le srv s = some r := by
  obtain ⟨r, hr⟩ := read_name_defined le s
  unfold handle_find
  rw [hr, Option.bind_eq_bind, Option.some_bind]
  dsimp only
  split_ifs <;> exact ⟨_, rfl⟩

/-- The function `read_rpc_data` has an undefined run only when `data1` and `data2_len`
were read in full and `data2_len` is at least `2^31`. -/
theorem read_rpc_data_undefined (le : Bool) (w : Nat) (s : Sock)
    (h : read_rpc_data le w s = none) :
    ∃ r r2, read_u64 le s = some r ∧ 0 < r.1 ∧ read_u32 le r.2.2 = some r2 ∧ 0 < r2.1 ∧
      2147483648 ≤ r2.2.1 := by
  obtain ⟨r, hr⟩ := read_u64_defined le s
  unfold read_rpc_data at h
  rw [hr, Option.bind_eq_bind, Option.some_bind] at h
  dsimp only at h
  by_cases c : r.1 ≤ 0
  · rw [if_pos c] at h; exact absurd h (by simp)
  · rw [if_neg c] at h
    obtain ⟨r2, hr2⟩ := read_u32_defined le r.2.2
    rw [hr2, Option.bind_eq_bind, Option.some_bind] at h
    by_cases c2 : r2.1 ≤ 0
    · rw [if_pos c2] at h; exact absurd h (by simp)
    · rw [if_neg c2] at h
      refine ⟨r, r2, hr, by omega, hr2, by omega, ?_⟩
      by_contra hlt
      by_cases c3 : r2.2.1 > 0
      · rw [if_pos c3] at h
        have hti : to_int (r2.2.1 : Int) = (r2.2.1 : Int) := to_int_of_lt _ (by omega)
        obtain ⟨q, hq, -⟩ := read_all_spec r2.2.2 (to_int (r2.2.1 : Int)) (by rw [hti]; omega)
        rw [hq, Option.some_bind] at h
        split_ifs at h
      · rw [if_neg c3] at h
        split_ifs at h

/-- The function `handle_call` has an undefined run only when the handle was read in
full and the payload behind it announces a `data2_len` of at least `2^31`. -/
theorem handle_call_undefined (le : Bool) (w : Nat) (srv : rpc_server) (s : Sock)
    (h : handle_call le w srv s = none) :
    ∃ r, read_u32 le s = some r ∧ 0 < r.1 ∧ read_rpc_data le w r.2.2 = none := by
  obtain ⟨r, hr⟩ := read_u32_defined le s
  unfold handle_call at h
  rw [hr, Option.bind_eq_bind, Option.some_bind] at h
  by_cases c : r.1 ≤ 0
  · rw [if_pos c] at h; exact absurd h (by simp)
  · rw [if_neg c] at h
    refine ⟨r, hr, by omega, ?_⟩
    cases hin : read_rpc_data le w r.2.2 with
    | none => rfl
    | some inp =>
      exfalso
      dsimp only at h
      rw [hin, Option.bind_eq_bind, Option.some_bind] at h
      split at h
      · split_ifs at h
      · exact absurd h (by simp)

/-- The function `handle_request` has an undefined run only for a CALL request whose
handle was read in full and whose payload announces a `data2_len` of at least `2^31`:
the defect of `read_all`, whose length parameter is an `int`. -/
theorem handle_request_undefined (le : Bool) (w : Nat) (srv : rpc_server) (s : Sock)
    (h : handle_request le w srv s = none) :
    ∃ r0 r r1 r2, read_u32 le s = some r0 ∧ 0 < r0.1 ∧ r0.2.1 = 2 ∧
      read_u32 le r0.2.2 = some r ∧ 0 < r.1 ∧
      read_u64 le r.2.2 = some r1 ∧ 0 < r1.1 ∧ read_u32 le r1.2.2 = some r2 ∧ 0 < r2.1 ∧
      2147483648 ≤ r2.2.1 := by
  obtain ⟨r0, hr0⟩ := read_u32_defined le s
  by_cases c : r0.1 ≤ 0
  · rw [handle_request_unread le w srv s r0 hr0 c] at h
    exact absurd h (by simp)
  · by_cases cv : 1 ≤ r0.2.1 ∧ r0.2.1 ≤ 3
    · have h3 : r0.2.1 = 1 ∨ r0.2.1 = 2 ∨ r0.2.1 = 3 := by omega
      rcases h3 with e | e | e
      · rw [handle_request_find le w srv s r0 hr0 (by omega) e] at h
        obtain ⟨q, hq⟩ := handle_find_defined le srv r0.2.2
        rw [hq, Option.some_bind] at h
        exact absurd h (by simp)
      · rw [handle_request_call le w srv s r0 hr0 (by omega) e] at h
        cases hc : handle_call le w srv r0.2.2 with
        | some q =>
          rw [hc, Option.some_bind] at h
          exact absurd h (by simp)
        | none =>
          obtain ⟨r, hr, hp, hn⟩ := handle_call_undefined le w srv r0.2.2 hc
          obtain ⟨r1, r2, g1, g2, g3, g4, g5⟩ := read_rpc_data_undefined le w r.2.2 hn
          exact ⟨r0, r, r1, r2, hr0, by omega, e, hr, hp, g1, g2, g3, g4, g5⟩
      · rw [handle_request_close le w srv s r0 hr0 (by omega) e] at h
        exact absurd h (by simp)
    · rw [handle_request_unknown le w srv s r0 hr0 (by omega) cv] at h
      exact absurd h (by simp)

/-! ## A positive result of `handle_request` -/

/-- The branches of `handle_find`, for its result `res`. -/
theorem handle_find_cases (le : Bool) (srv : rpc_server) (s : Sock) (res : Int × Sock)
    (h : handle_find le srv s = some res) :
    ∃ r, read_name le s = some r ∧
      ((check_name r.1 = FAILED ∧ res = (FAILED, r.2)) ∨
       (check_name r.1 ≠ FAILED ∧ search_array srv.functions r.1 = FAILED ∧
          (( ( write_prefix le r.2 FAILURE_STAT).1 ≤ 0 ∧ res = write_prefix le r.2 FAILURE_STAT) ∨
           (0 < ( write_prefix le r.2 FAILURE_STAT).1 ∧
              res = (SUCCESS, ( write_prefix le r.2 FAILURE_STAT).2)))) ∨
       (check_name r.1 ≠ FAILED ∧ search_array srv.functions r.1 ≠ FAILED ∧
          (( ( write_prefix le r.2 SUCCESS_STAT).1 ≤ 0 ∧ res = write_prefix le r.2 SUCCESS_STAT) ∨
           (0 < ( write_prefix le r.2 SUCCESS_STAT).1 ∧
              (write_u32 le ( write_prefix le r.2 SUCCESS_STAT).2
                (to_u32 (search_array srv.functions r.1))).1 ≤ 0 ∧
              res = write_u32 le ( write_prefix le r.2 SUCCESS_STAT).2
                (to_u32 (search_array srv.functions r.1))) ∨
           (0 < ( write_prefix le r.2 SUCCESS_STAT).1 ∧
              0 < (write_u32 le ( write_prefix le r.2 SUCCESS_STAT).2
                (to_u32 (search_array srv.functions r.1))).1 ∧
              res = (SUCCESS, (write_u32 le ( write_prefix le r.2 SUCCESS_STAT).2
                (to_u32 (search_array srv.functions r.1))).2))))) := by
  obtain ⟨r, hr⟩ := read_name_defined le s
  unfold handle_find at h
  rw [hr, Option.bind_eq_bind, Option.some_bind] at h
  dsimp only at h
  refine ⟨r, hr, ?_⟩
  by_cases c0 : check_name r.1 = FAILED
  · left
    rw [if_pos c0] at h
    exact ⟨c0, (Option.some.inj h).symm⟩
  · right
    rw [if_neg c0] at h
    by_cases c1 : search_array srv.functions r.1 = FAILED
    · left
      rw [if_pos c1] at h
      refine ⟨c0, c1, ?_⟩
      by_cases c2 : ( write_prefix le r.2 FAILURE_STAT).1 ≤ 0
      · left
        rw [if_pos c2] at h
        exact ⟨c2, (Option.some.inj h).symm⟩
      · right
        rw [if_neg c2] at h
        exact ⟨by omega, (Option.some.inj h).symm⟩
    · right
      rw [if_neg c1] at h
      refine ⟨c0, c1, ?_⟩
      by_cases c2 : ( write_prefix le r.2 SUCCESS_STAT).1 ≤ 0
      · left
        rw [if_pos c2] at h
        exact ⟨c2, (Option.some.inj h).symm⟩
      · right
        rw [if_neg c2] at h
        by_cases c3 : (write_u32 le ( write_prefix le r.2 SUCCESS_STAT).2
            (to_u32 (search_array srv.functions r.1))).1 ≤ 0
        · left
          rw [if_pos c3] at h
          exact ⟨by omega, c3, (Option.some.inj h).symm⟩
        · right
          rw [if_neg c3] at h
          exact ⟨by omega, by omega, (Option.some.inj h).symm⟩

/-- The pointer `read_name` returns is `NULL` unless both of its reads returned a
positive value. -/
theorem read_name_some (le : Bool) (s : Sock) (name : List Nat) (t : Sock)
    (h : read_name le s = some (some name, t)) :
    ∃ r r2, read_u16 le s = some r ∧ 0 < r.1 ∧ read_all r.2.2 (r.2.1 : Int) = some r2 ∧
      0 < r2.1 := by
  obtain ⟨r, hr⟩ := read_u16_defined le s
  unfold read_name at h
  rw [hr, Option.bind_eq_bind, Option.some_bind] at h
  dsimp only at h
  by_cases c : r.1 ≤ 0
  · rw [if_pos c] at h
    exact absurd (congrArg Prod.fst (Option.some.inj h)) (by simp)
  · rw [if_neg c] at h
    obtain ⟨q, hq, -⟩ := read_all_spec r.2.2 (r.2.1 : Int) (by omega)
    rw [hq, Option.bind_eq_bind, Option.some_bind] at h
    by_cases c2 : q.1 ≤ 0
    · rw [if_pos c2] at h
      exact absurd (congrArg Prod.fst (Option.some.inj h)) (by simp)
    · exact ⟨r, q, hr, by omega, hq, by omega⟩

/-- The transport operations that a positive result of `handle_request` vouches for.  The
prefix was read in full.  For FIND the name was read in full and the status (with the
handle, when the name is registered) was written in full.  For CALL the handle was read
in full and, when a handler was invoked and its result accepted, the status and the
result were written in full.  Nothing is said of the read of the CALL payload and of
the write of the failure status of a CALL. -/
theorem handle_request_pos (le : Bool) (w : Nat) (srv : rpc_server) (s : Sock)
    (res : Int × Sock × List (Int × rpc_data) × rpc_server)
    (h : handle_request le w srv s = some res) (hp : 0 < res.1) :
    ∃ r0, read_u32 le s = some r0 ∧ 0 < r0.1 ∧
      ((r0.2.1 = 1 ∧ ∃ name t, read_name le r0.2.2 = some (some name, t) ∧
          ((search_array srv.functions (some name) = FAILED ∧
              0 < ( write_prefix le t FAILURE_STAT).1) ∨
           (search_array srv.functions (some name) ≠ FAILED ∧
              0 < ( write_prefix le t SUCCESS_STAT).1 ∧
              0 < (write_u32 le ( write_prefix le t SUCCESS_STAT).2
                (to_u32 (search_array srv.functions (some name)))).1))) ∨
       (r0.2.1 = 2 ∧ ∃ r inp, read_u32 le r0.2.2 = some r ∧ 0 < r.1 ∧
          read_rpc_data le w r.2.2 = some inp ∧
          ∀ input f, inp.1 = some input →
            get_elem_at srv.functions (to_int r.2.1) = some f →
            check_rpc_data (f.handler input) ≠ FAILED →
            0 < ( write_prefix le inp.2 SUCCESS_STAT).1 ∧
            0 < (write_rpc_data le ( write_prefix le inp.2 SUCCESS_STAT).2
              (f.handler input)).1)) := by
  obtain ⟨r0, hr0⟩ := read_u32_defined le s
  have nF : ¬ (0 : Int) < FAILED := by decide
  have nE : ¬ (0 : Int) < EMPTY := by decide
  have c : 0 < r0.1 := by
    by_contra c
    rw [handle_request_unread le w srv s r0 hr0 (by omega)] at h
    rw [← Option.some.inj h] at hp
    exact absurd hp nF
  have cv : 1 ≤ r0.2.1 ∧ r0.2.1 ≤ 3 := by
    by_contra cv
    rw [handle_request_unknown le w srv s r0 hr0 c cv] at h
    rw [← Option.some.inj h] at hp
    exact absurd hp nF
  refine ⟨r0, hr0, c, ?_⟩
  have h3 : r0.2.1 = 1 ∨ r0.2.1 = 2 ∨ r0.2.1 = 3 := by omega
  rcases h3 with e | e | e
  · left
    refine ⟨e, ?_⟩
    rw [handle_request_find le w srv s r0 hr0 c e] at h
    obtain ⟨q, hq⟩ := handle_find_defined le srv r0.2.2
    rw [hq, Option.some_bind] at h
    rw [← Option.some.inj h] at hp
    obtain ⟨r, hr, hc⟩ := handle_find_cases le srv r0.2.2 q hq
    rcases hc with ⟨-, e1⟩ | ⟨c0, c1, hc⟩ | ⟨c0, c1, hc⟩
    · rw [e1] at hp
      exact absurd hp nF
    · have hn : ∃ name, r.1 = some name := by
        cases hr1 : r.1 with
        | none => rw [hr1] at c0; exact absurd rfl c0
        | some name => exact ⟨name, rfl⟩
      obtain ⟨name, hname⟩ := hn
      refine ⟨name, r.2, by rw [hr, ← hname], Or.inl ⟨by rw [← hname]; exact c1, ?_⟩⟩
      rcases hc with ⟨c2, e1⟩ | ⟨c2, -⟩
      · rw [e1] at hp
        omega
      · exact c2
    · have hn : ∃ name, r.1 = some name := by
        cases hr1 : r.1 with
        | none => rw [hr1] at c0; exact absurd rfl c0
        | some name => exact ⟨name, rfl⟩
      obtain ⟨name, hname⟩ := hn
      refine ⟨name, r.2, by rw [hr, ← hname], Or.inr ⟨by rw [← hname]; exact c1, ?_⟩⟩
      rw [← hname]
      rcases hc with ⟨c2, e1⟩ | ⟨c2, c3, e1⟩ | ⟨c2, c3, -⟩
      · rw [e1] at hp
        omega
      · rw [e1] at hp
        omega
      · exact ⟨c2, c3⟩
  · right
    refine ⟨e, ?_⟩
    rw [handle_request_call le w srv s r0 hr0 c e] at h
    cases hq : handle_call le w srv r0.2.2 with
    | none => rw [hq, Option.none_bind] at h; exact absurd h (by simp)
    | some q =>
      rw [hq, Option.some_bind] at h
      rw [← Option.some.inj h] at hp
      obtain ⟨r, hr, hc⟩ := handle_call_cases le w srv r0.2.2 q hq
      rcases hc with ⟨c0, e1⟩ | ⟨c0, inp, hin, hc⟩
      · rw [e1] at hp
        exact absurd hp (by show ¬ 0 < r.1; omega)
      · refine ⟨r, inp, hr, c0, hin, ?_⟩
        intro input f hi hg hck
        rcases hc with ⟨hnone, -⟩ | ⟨input', f', hi', hg', hc⟩
        · rcases hnone with e1 | e1
          · rw [hi] at e1; exact absurd e1 (by simp)
          · rw [hg] at e1; exact absurd e1 (by simp)
        · have ei : input' = input := by rw [hi] at hi'; exact (Option.some.inj hi').symm
          have ef : f' = f := by rw [hg] at hg'; exact (Option.some.inj hg').symm
          subst ei ef
          rcases hc with ⟨c1, -⟩ | ⟨-, c2, e1⟩ | ⟨-, c2, c3, e1⟩ | ⟨-, c2, c3, -⟩
          · exact absurd c1 hck
          · rw [e1] at hp
            exact absurd hp (by show ¬ 0 < ( write_prefix le inp.2 SUCCESS_STAT).1; omega)
          · rw [e1] at hp
            exact absurd hp (by
              show ¬ 0 < (write_rpc_data le ( write_prefix le inp.2 SUCCESS_STAT).2
                (f'.handler input')).1
              omega)
          · exact ⟨c2, c3⟩
  · rw [handle_request_close le w srv s r0 hr0 c e] at h
    rw [← Option.some.inj h] at hp
    exact absurd hp nE

/-! ## The client: `init_connection` and `rpc_find` -/

theorem init_connection_open (cl : rpc_client) (conn : Option Sock) (h : cl.state = OPEN) :
    init_connection cl conn = (SUCCESS, cl, 0) := by
  unfold init_connection
  rw [if_pos h]

theorem init_connection_failed (cl : rpc_client) (h : cl.state ≠ OPEN) :
    init_connection cl none = (FAILED, cl, 1) := by
  unfold init_connection
  rw [if_neg h]

/-- The function `rpc_find` once the request has been sent: what it returns is decided by
the status word and by the read of the handle. -/
theorem rpc_find_sent (le : Bool) (c0 : rpc_client) (name : List Nat) (conn : Option Sock)
    (malloc_ok : Bool) (hc : check_name (some name) ≠ FAILED)
    (h1 : 0 < ( write_prefix le (init_connection c0 conn).2.1.sockfd FIND_REQ).1)
    (h2 : 0 < (write_name le ( write_prefix le (init_connection c0 conn).2.1.sockfd FIND_REQ).2
      (some name)).1) :
    rpc_find le (some c0) (some name) conn malloc_ok =
      ( read_prefix le (write_name le
          ( write_prefix le (init_connection c0 conn).2.1.sockfd FIND_REQ).2 (some name)).2).bind
        (fun p =>
          if to_int (p.1 : Int) = FAILURE_STAT then
            some (none, some ⟨(init_connection c0 conn).2.1.addr,
              (init_connection c0 conn).2.1.port, p.2, (init_connection c0 conn).2.1.state⟩,
              (init_connection c0 conn).2.2)
          else if check_prefix (to_u32 (to_int (p.1 : Int))) = FAILED then
            some (none, some ⟨(init_connection c0 conn).2.1.addr,
              (init_connection c0 conn).2.1.port, p.2, (init_connection c0 conn).2.1.state⟩,
              (init_connection c0 conn).2.2)
          else
            (read_u32 le p.2).bind (fun r =>
              if r.1 ≤ 0 then
                some (none, some ⟨(init_connection c0 conn).2.1.addr,
                  (init_connection c0 conn).2.1.port, r.2.2,
                  (init_connection c0 conn).2.1.state⟩, (init_connection c0 conn).2.2)
              else
                some (create_rpc_handle r.2.1 malloc_ok,
                  some ⟨(init_connection c0 conn).2.1.addr,
                    (init_connection c0 conn).2.1.port, r.2.2,
                    (init_connection c0 conn).2.1.state⟩, (init_connection c0 conn).2.2))) := by
  unfold rpc_find
  dsimp only
  rw [if_neg (by
    intro h
    rcases h with h | h
    · exact absurd h (by simp)
    · exact hc h), if_neg (by omega), if_neg (by omega)]
  rfl

/-- The request of `rpc_find` on an open client, with a valid name and no failing write:
the FIND prefix and the encoded name are appended to the output, the read side of the
socket is untouched, and both writes return a positive value. -/
theorem rpc_find_request (le : Bool) (c : rpc_client) (p : List Nat) (conn : Option Sock)
    (hopen : c.state = OPEN) (hb : ∀ b ∈ p, b < 256) (hv : valid_name (cstr p))
    (hwr : ∀ x ∈ c.sockfd.wr, 0 < x) :
    0 < ( write_prefix le (init_connection c conn).2.1.sockfd FIND_REQ).1 ∧
    0 < (write_name le ( write_prefix le (init_connection c conn).2.1.sockfd FIND_REQ).2
      (some p)).1 ∧
    (write_name le ( write_prefix le (init_connection c conn).2.1.sockfd FIND_REQ).2
      (some p)).2.out = c.sockfd.out ++ ([0, 0, 0, 1] ++ (be_bytes 2 (strlen p) ++ cstr p)) ∧
    (write_name le ( write_prefix le (init_connection c conn).2.1.sockfd FIND_REQ).2
      (some p)).2.inp = c.sockfd.inp ∧
    (write_name le ( write_prefix le (init_connection c conn).2.1.sockfd FIND_REQ).2
      (some p)).2.rd = c.sockfd.rd := by
  rw [init_connection_open c conn hopen]
  have hs1 := write_prefix_sent le c.sockfd FIND_REQ
  have h4 := hs1.2.2.2.2.2 hwr
  have hp1 : 0 < ( write_prefix le c.sockfd FIND_REQ).1 := by rw [h4]; decide
  have hs2 := write_name_sent le ( write_prefix le c.sockfd FIND_REQ).2 p hb hv
  have hn := hs2.2.2.2.2.2 (hs1.script_pos hwr)
  have hlen : 1 ≤ strlen p := hv.1
  have hp2 : 0 < (write_name le ( write_prefix le c.sockfd FIND_REQ).2 (some p)).1 := by
    rw [hn]; omega
  have hboth := hs1.chain hp1 hs2
  refine ⟨hp1, hp2, ?_, hboth.1, hboth.2.1⟩
  rw [hboth.out_append hp2]
  rfl

/-- A status or request word in `[1, 3]`, received in full, is what `read_prefix` returns. -/
theorem read_prefix_ok (le : Bool) (s : Sock) (v : Nat) (rest : List Nat)
    (hv : 1 ≤ v ∧ v ≤ 3) (hin : s.inp = be_bytes 4 v ++ rest) (hrd : ∀ x ∈ s.rd, 0 < x) :
    ∃ t, read_prefix le s = some (v, t) ∧ Consumed s (be_bytes 4 v) t ∧ t.inp = rest := by
  obtain ⟨t, e1, c1, i1⟩ := read_u32_ok le s v rest (by omega) hin hrd
  refine ⟨t, ?_, c1, i1⟩
  rw [read_prefix_eq le s _ e1]
  dsimp only
  rw [if_neg (by decide), if_neg (fun h => (check_prefix_failed_iff v).mp h hv)]

/-- A word outside `[1, 3]`, received in full, makes `read_prefix` return `FAILED`. -/
theorem read_prefix_bad (le : Bool) (s : Sock) (v : Nat) (rest : List Nat)
    (hv32 : v < 4294967296) (hv : ¬ (1 ≤ v ∧ v ≤ 3)) (hin : s.inp = be_bytes 4 v ++ rest)
    (hrd : ∀ x ∈ s.rd, 0 < x) :
    ∃ t, read_prefix le s = some (to_u32 FAILED, t) ∧ Consumed s (be_bytes 4 v) t ∧
      t.inp = rest := by
  obtain ⟨t, e1, c1, i1⟩ := read_u32_ok le s v rest hv32 hin hrd
  refine ⟨t, ?_, c1, i1⟩
  rw [read_prefix_eq le s _ e1]
  dsimp only
  rw [if_neg (by decide), if_pos ((check_prefix_failed_iff v).mpr hv)]

/-- The answers of the server that `rpc_find` is specified for, on an open client with a
valid name and no failing read or write.  The failure status 1: `rpc_find` returns `NULL`
and reads nothing behind the status word.  The success status 2 followed by the index
`i`: `rpc_find` returns the handle made of `i`.  In both cases the FIND prefix and the
encoded name were written, and no connection was attempted. -/
theorem rpc_find_response (le : Bool) (c : rpc_client) (p : List Nat) (conn : Option Sock)
    (malloc_ok : Bool) (rest : List Nat)
    (hopen : c.state = OPEN) (hb : ∀ b ∈ p, b < 256) (hv : valid_name (cstr p))
    (hwr : ∀ x ∈ c.sockfd.wr, 0 < x) (hrd : ∀ x ∈ c.sockfd.rd, 0 < x) :
    (c.sockfd.inp = [0, 0, 0, 1] ++ rest →
      ∃ t, rpc_find le (some c) (some p) conn malloc_ok =
          some (none, some ⟨c.addr, c.port, t, OPEN⟩, 0) ∧
        t.inp = rest ∧
        t.out = c.sockfd.out ++ ([0, 0, 0, 1] ++ (be_bytes 2 (strlen p) ++ cstr p))) ∧
    (∀ i, i < 4294967296 → c.sockfd.inp = [0, 0, 0, 2] ++ be_bytes 4 i ++ rest →
      ∃ t, rpc_find le (some c) (some p) conn malloc_ok =
          some (create_rpc_handle i malloc_ok, some ⟨c.addr, c.port, t, OPEN⟩, 0) ∧
        t.inp = rest ∧
        t.out = c.sockfd.out ++ ([0, 0, 0, 1] ++ (be_bytes 2 (strlen p) ++ cstr p))) := by
  obtain ⟨hp1, hp2, hout, hinp, hrd'⟩ := rpc_find_request le c p conn hopen hb hv hwr
  have hck : check_name (some p) ≠ FAILED := by
    rw [check_name_of_valid p hv]; decide
  have key := rpc_find_sent le c p conn malloc_ok hck hp1 hp2
  have hic := init_connection_open c conn hopen
  constructor
  · intro hin
    obtain ⟨t, e2, c1, i1⟩ := read_prefix_ok le (write_name le
      ( write_prefix le (init_connection c conn).2.1.sockfd FIND_REQ).2 (some p)).2 1 rest
      (by decide) (by rw [hinp, hin]; rfl) (by rw [hrd']; exact hrd)
    rw [key, e2, Option.some_bind]
    dsimp only
    rw [if_pos (by decide), hic]
    exact ⟨t, by rw [hopen], i1, by rw [c1.2.1, hout]⟩
  · intro i hi hin
    obtain ⟨t, e2, c1, i1⟩ := read_prefix_ok le (write_name le
      ( write_prefix le (init_connection c conn).2.1.sockfd FIND_REQ).2 (some p)).2 2
      (be_bytes 4 i ++ rest)
      (by decide) (by rw [hinp, hin, List.append_assoc]; rfl) (by rw [hrd']; exact hrd)
    obtain ⟨t2, e3, c3, i3⟩ := read_u32_ok le t i rest hi i1 (c1.rd_pos (by rw [hrd']; exact hrd))
    rw [key, e2, Option.some_bind]
    dsimp only
    rw [if_neg (by decide), if_neg (by decide), e3, Option.some_bind]
    dsimp only
    rw [if_neg (by decide), hic]
    exact ⟨t2, by rw [hopen], i3, by rw [c3.2.1, c1.2.1, hout]⟩

/-- C25, evaluated at an answer whose status word is 3: on an open client, after the FIND
prefix and the name `"a"` were sent, `rpc_find` reads the status word 3, which is neither
the failure status 1 nor the success status 2, goes on to read the next four bytes and
returns a handle for the index 7 found there; the same answer with the status 2 gives
the same handle, and with the status 4 gives `NULL`. -/
theorem rpc_find_accepts_status_3 :
    rpc_find true (some ⟨[], [], ⟨[0, 0, 0, 3, 0, 0, 0, 7], [], [], []⟩, OPEN⟩) (some [97, 0])
        none true =
      some (some ⟨7⟩, some ⟨[], [], ⟨[], [0, 0, 0, 1, 0, 1, 97], [], []⟩, OPEN⟩, 0) ∧
    rpc_find true (some ⟨[], [], ⟨[0, 0, 0, 2, 0, 0, 0, 7], [], [], []⟩, OPEN⟩) (some [97, 0])
        none true =
      some (some ⟨7⟩, some ⟨[], [], ⟨[], [0, 0, 0, 1, 0, 1, 97], [], []⟩, OPEN⟩, 0) ∧
    rpc_find true (some ⟨[], [], ⟨[0, 0, 0, 4, 0, 0, 0, 7], [], [], []⟩, OPEN⟩) (some [97, 0])
        none true =
      some (none, some ⟨[], [], ⟨[0, 0, 0, 7], [0, 0, 0, 1, 0, 1, 97], [], []⟩, OPEN⟩, 0) := by
  refine ⟨by decide, by decide, by decide⟩

/-! ## The client: `rpc_call` -/

/-- The function `rpc_call` when the write of the payload fails: it returns `NULL`. -/
theorem rpc_call_unsent (le : Bool) (w : Nat) (c : rpc_client) (h : rpc_handle)
    (payload : Option rpc_data) (hck : check_rpc_data payload ≠ FAILED)
    (h1 : 0 < ( write_prefix le c.sockfd CALL_REQ).1)
    (h2 : 0 < (write_u32 le ( write_prefix le c.sockfd CALL_REQ).2 h.idx).1)
    (h3 : (write_rpc_data le (write_u32 le ( write_prefix le c.sockfd CALL_REQ).2 h.idx).2
      payload).1 ≤ 0) :
    rpc_call le w (some c) (some h) payload =
      some (none, some ⟨c.addr, c.port,
        (write_rpc_data le (write_u32 le ( write_prefix le c.sockfd CALL_REQ).2 h.idx).2
          payload).2, c.state⟩) := by
  unfold rpc_call
  dsimp only
  rw [if_neg hck, if_neg (by omega), if_neg (by omega), if_pos h3]

/-- The function `rpc_call` once the request has been sent: what it returns is decided
by the status word and by the read of the result. -/
theorem rpc_call_sent (le : Bool) (w : Nat) (c : rpc_client) (h : rpc_handle)
    (payload : Option rpc_data) (hck : check_rpc_data payload ≠ FAILED)
    (h1 : 0 < ( write_prefix le c.sockfd CALL_REQ).1)
    (h2 : 0 < (write_u32 le ( write_prefix le c.sockfd CALL_REQ).2 h.idx).1)
    (h3 : 0 < (write_rpc_data le (write_u32 le ( write_prefix le c.sockfd CALL_REQ).2 h.idx).2
      payload).1) :
    rpc_call le w (some c) (some h) payload =
      ( read_prefix le (write_rpc_data le
          (write_u32 le ( write_prefix le c.sockfd CALL_REQ).2 h.idx).2 payload).2).bind
        (fun p =>
          if to_int (p.1 : Int) = FAILURE_STAT then some (none, some ⟨c.addr, c.port, p.2, c.state⟩)
          else if check_prefix (to_u32 (to_int (p.1 : Int))) = FAILED then
            some (none, some ⟨c.addr, c.port, p.2, c.state⟩)
          else
            (read_rpc_data le w p.2).bind (fun d =>
              some (d.1, some ⟨c.addr, c.port, d.2, c.state⟩))) := by
  unfold rpc_call
  dsimp only
  rw [if_neg hck, if_neg (by omega), if_neg (by omega), if_neg (by omega)]
  rfl

/-- The request of `rpc_call` with a valid payload shorter than `2^31` bytes and no
failing write: the CALL prefix, the index of the handle and the encoded payload are
appended to the output, the read side of the socket is untouched, and the three writes
return a positive value. -/
theorem rpc_call_request (le : Bool) (c : rpc_client) (h : rpc_handle) (P : rpc_data)
    (hv : valid_data P) (hlen : P.data2_len < 2147483648)
    (hwr : ∀ x ∈ c.sockfd.wr, 0 < x) :
    0 < ( write_prefix le c.sockfd CALL_REQ).1 ∧
    0 < (write_u32 le ( write_prefix le c.sockfd CALL_REQ).2 h.idx).1 ∧
    0 < (write_rpc_data le (write_u32 le ( write_prefix le c.sockfd CALL_REQ).2 h.idx).2
      (some P)).1 ∧
    (write_rpc_data le (write_u32 le ( write_prefix le c.sockfd CALL_REQ).2 h.idx).2
      (some P)).2.out = c.sockfd.out ++ ([0, 0, 0, 2] ++ (be_bytes 4 h.idx ++ wire_rpc_data P)) ∧
    (write_rpc_data le (write_u32 le ( write_prefix le c.sockfd CALL_REQ).2 h.idx).2
      (some P)).2.inp = c.sockfd.inp ∧
    (write_rpc_data le (write_u32 le ( write_prefix le c.sockfd CALL_REQ).2 h.idx).2
      (some P)).2.rd = c.sockfd.rd := by
  have hs1 := write_prefix_sent le c.sockfd CALL_REQ
  have h4 := hs1.2.2.2.2.2 hwr
  have hp1 : 0 < ( write_prefix le c.sockfd CALL_REQ).1 := by rw [h4]; decide
  have hs2 := write_u32_sent le ( write_prefix le c.sockfd CALL_REQ).2 h.idx
  have hw2 := hs1.script_pos hwr
  have h42 := hs2.2.2.2.2.2 hw2
  have hp2 : 0 < (write_u32 le ( write_prefix le c.sockfd CALL_REQ).2 h.idx).1 := by
    rw [h42]; decide
  have hs3 := write_rpc_data_sent le (write_u32 le ( write_prefix le c.sockfd CALL_REQ).2 h.idx).2
    P hv hlen
  have h43 := hs3.2.2.2.2.2 (hs2.script_pos hw2)
  have hp3 : 0 < (write_rpc_data le (write_u32 le ( write_prefix le c.sockfd CALL_REQ).2 h.idx).2
      (some P)).1 := by
    rw [h43]; decide
  have hall := (hs1.chain hp1 hs2).chain hp2 hs3
  refine ⟨hp1, hp2, hp3, ?_, hall.1, hall.2.1⟩
  rw [hall.out_append hp3]
  simp only [List.append_assoc]
  rfl

/-- The exchange of `rpc_call` for a valid payload `P` shorter than `2^31` bytes, on a
connection without failing reads or writes: the CALL prefix, the index of the handle
and the encoding of `P` are written; on the failure status 1 `rpc_call` returns `NULL`;
on the success status 2 followed by the encoding of a payload `R` that can cross the
wire it returns `R`. -/
theorem rpc_call_exchange (le : Bool) (w : Nat) (c : rpc_client) (h : rpc_handle)
    (P : rpc_data) (rest : List Nat) (hv : valid_data P) (hlen : P.data2_len < 2147483648)
    (hwr : ∀ x ∈ c.sockfd.wr, 0 < x) (hrd : ∀ x ∈ c.sockfd.rd, 0 < x) :
    (c.sockfd.inp = [0, 0, 0, 1] ++ rest →
      ∃ t, rpc_call le w (some c) (some h) (some P) =
          some (none, some ⟨c.addr, c.port, t, c.state⟩) ∧
        t.inp = rest ∧
        t.out = c.sockfd.out ++ ([0, 0, 0, 2] ++ (be_bytes 4 h.idx ++ wire_rpc_data P))) ∧
    (∀ R : rpc_data, valid_data R → R.data2_len < 2147483648 →
      (∀ bs, R.data2 = some bs → bs.length = R.data2_len) →
      1 ≤ w → w ≤ 64 → -(2 ^ (w - 1)) ≤ R.data1 → R.data1 < 2 ^ (w - 1) →
      c.sockfd.inp = [0, 0, 0, 2] ++ wire_rpc_data R ++ rest →
      ∃ t, rpc_call le w (some c) (some h) (some P) =
          some (some R, some ⟨c.addr, c.port, t, c.state⟩) ∧
        t.inp = rest ∧
        t.out = c.sockfd.out ++ ([0, 0, 0, 2] ++ (be_bytes 4 h.idx ++ wire_rpc_data P))) := by
  obtain ⟨hp1, hp2, hp3, hout, hinp, hrd'⟩ := rpc_call_request le c h P hv hlen hwr
  have hck : check_rpc_data (some P) ≠ FAILED := by
    rw [(check_rpc_data_success_iff (some P)).mpr hv]; decide
  have key := rpc_call_sent le w c h (some P) hck hp1 hp2 hp3
  constructor
  · intro hin
    obtain ⟨t, e2, c1, i1⟩ := read_prefix_ok le (write_rpc_data le
      (write_u32 le ( write_prefix le c.sockfd CALL_REQ).2 h.idx).2 (some P)).2 1 rest
      (by decide) (by rw [hinp, hin]; rfl) (by rw [hrd']; exact hrd)
    rw [key, e2, Option.some_bind]
    dsimp only
    rw [if_pos (by decide)]
    exact ⟨t, rfl, i1, by rw [c1.2.1, hout]⟩
  · intro R hRv hRlen hbuf h1 h64 hlo hhi hin
    obtain ⟨t, e2, c1, i1⟩ := read_prefix_ok le (write_rpc_data le
      (write_u32 le ( write_prefix le c.sockfd CALL_REQ).2 h.idx).2 (some P)).2 2
      (wire_rpc_data R ++ rest)
      (by decide) (by rw [hinp, hin, List.append_assoc]; rfl) (by rw [hrd']; exact hrd)
    obtain ⟨t2, e3, i3, fr3⟩ := read_rpc_data_wire le w t R rest hRv hRlen hbuf h1 h64 hlo hhi i1
      (c1.rd_pos (by rw [hrd']; exact hrd))
    rw [key, e2, Option.some_bind]
    dsimp only
    rw [if_neg (by decide), if_neg (by decide), e3, Option.some_bind]
    exact ⟨t2, rfl, i3, by rw [fr3.1, c1.2.1, hout]⟩

/-- Writing a payload with `data2_len = 2^31` after the CALL prefix and the handle 0: the
12 header bytes follow, then `write_all` fails on the negative length. -/
theorem write_rpc_data_after_handle_at_2_31 (buf : List Nat) :
    write_rpc_data true { inp := [], out := [0, 0, 0, 2, 0, 0, 0, 0], rd := [], wr := [] }
        (some { data1 := 0, data2_len := 2147483648, data2 := some buf }) =
      (FAILED, { inp := [], out := [0, 0, 0, 2, 0, 0, 0, 0, 0, 0, 0, 0, 0, 0, 0, 0, 128, 0, 0, 0],
                 rd := [], wr := [] }) := by
  have hv := (write_rpc_data_at_2_31 buf).1
  have hc := (check_rpc_data_success_iff _).mpr (show valid_payload (some _) from hv)
  have e1 : write_u64 true { inp := [], out := [0, 0, 0, 2, 0, 0, 0, 0], rd := [], wr := [] }
      (to_u64 0) =
      (8, { inp := [], out := [0, 0, 0, 2, 0, 0, 0, 0, 0, 0, 0, 0, 0, 0, 0, 0], rd := [],
            wr := [] }) := by
    decide
  have e2 : write_u32 true
      { inp := [], out := [0, 0, 0, 2, 0, 0, 0, 0, 0, 0, 0, 0, 0, 0, 0, 0], rd := [], wr := [] }
      (to_u32 ((2147483648 : Nat) : Int)) =
      (4, { inp := [], out := [0, 0, 0, 2, 0, 0, 0, 0, 0, 0, 0, 0, 0, 0, 0, 0, 128, 0, 0, 0],
            rd := [], wr := [] }) := by
    decide
  have e3 : to_int ((2147483648 : Nat) : Int) < 0 := by decide
  unfold write_rpc_data
  rw [if_neg (by rw [hc]; decide)]
  simp only [e1, e2, write_all_neg _ _ _ e3]
  decide

/-- The call of `rpc_call` with the handle 0 and a payload with `data2_len = 2^31` and any
buffer, on a connection that accepts every write: `NULL` is returned after the prefix,
the handle and the 12 header bytes of the payload. -/
theorem rpc_call_at_2_31 (buf : List Nat) :
    rpc_call true 64 (some ⟨[], [], ⟨[], [], [], []⟩, OPEN⟩) (some ⟨0⟩)
        (some ⟨0, 2147483648, some buf⟩) =
      some (none, some ⟨[], [],
        ⟨[], [0, 0, 0, 2, 0, 0, 0, 0, 0, 0, 0, 0, 0, 0, 0, 0, 128, 0, 0, 0], [], []⟩, OPEN⟩) := by
  have hv := (write_rpc_data_at_2_31 buf).1
  have hc := (check_rpc_data_success_iff _).mpr (show valid_payload (some _) from hv)
  have hck : check_rpc_data (some ⟨0, 2147483648, some buf⟩) ≠ FAILED := by rw [hc]; decide
  have e1 : write_prefix true ⟨[], [], [], []⟩ CALL_REQ = (4, ⟨[], [0, 0, 0, 2], [], []⟩) := by
    decide
  have e2 : write_u32 true ⟨[], [0, 0, 0, 2], [], []⟩ 0 =
      (4, ⟨[], [0, 0, 0, 2, 0, 0, 0, 0], [], []⟩) := by
    decide
  have e3 := write_rpc_data_after_handle_at_2_31 buf
  have e4 : write_rpc_data true
      (write_u32 true ( write_prefix true ⟨[], [], [], []⟩ CALL_REQ).2 0).2
      (some ⟨0, 2147483648, some buf⟩) =
      (FAILED, ⟨[], [0, 0, 0, 2, 0, 0, 0, 0, 0, 0, 0, 0, 0, 0, 0, 0, 128, 0, 0, 0], [], []⟩) := by
    rw [e1, e2]; exact e3
  have key := rpc_call_unsent true 64 ⟨[], [], ⟨[], [], [], []⟩, OPEN⟩ ⟨0⟩
    (some ⟨0, 2147483648, some buf⟩) hck (by rw [e1]; decide) (by rw [e1, e2]; decide)
    (by rw [e4]; decide)
  rw [e4] at key
  exact key

/-- C26, evaluated at the valid payload with `data2_len = 2^31`: on an open connection
that accepts every write, `rpc_call` writes the CALL prefix, the handle and the 12
header bytes of the payload, then `write_all` receives the length converted to `int`,
which is negative, and fails: the `2^31` bytes of the payload are not written and
`rpc_call` returns `NULL` without reading any status word. -/
theorem rpc_call_fails_at_2_31 :
    valid_data { data1 := 0, data2_len := 2147483648,
                 data2 := some (List.replicate 2147483648 0) } ∧
    rpc_call true 64 (some ⟨[], [], ⟨[], [], [], []⟩, OPEN⟩) (some ⟨0⟩)
        (some ⟨0, 2147483648, some (List.replicate 2147483648 0)⟩) =
      some (none, some ⟨[], [],
        ⟨[], [0, 0, 0, 2, 0, 0, 0, 0, 0, 0, 0, 0, 0, 0, 0, 0, 128, 0, 0, 0], [], []⟩, OPEN⟩) :=
  ⟨(write_rpc_data_at_2_31 _).1, rpc_call_at_2_31 _⟩

/-! ## Operations continue the connection they are given -/

theorem Continues.self (s : Sock) : Continues s s :=
  ⟨List.prefix_refl _, 0, by simp⟩

theorem Continues.next {s t u : Sock} (h1 : Continues s t) (h2 : Continues t u) :
    Continues s u := by
  obtain ⟨k1, e1⟩ := h1.2
  obtain ⟨k2, e2⟩ := h2.2
  refine ⟨h1.1.trans h2.1, k1 + k2, ?_⟩
  rw [e2, e1, List.drop_drop]

/-- The socket of a pair built in place. -/
theorem Continues.snd {s t : Sock} (a : Int) (h : Continues s t) : Continues s (a, t).2 := h

theorem Continues.of_frame {s t : Sock} (h : ReadFrame s t) : Continues s t :=
  ⟨by rw [h.1], h.2.2.2⟩

theorem Continues.of_sent {s : Sock} {bs : List Nat} {n : Int} {r : Int × Sock}
    (h : Sent s bs n r) : Continues s r.2 := by
  obtain ⟨k, -, e⟩ := h.2.2.2.1
  exact ⟨by rw [e]; exact List.prefix_append _ _, 0, by rw [h.1]; simp⟩

theorem write_all_continues (s : Sock) (buf : List Nat) (len : Int) :
    Continues s (write_all s buf len).2 := by
  by_cases h : len < 0
  · rw [write_all_neg s buf len h]
    exact Continues.self s
  · obtain ⟨e1, -, -, ⟨k, -, e2⟩, -⟩ := write_all_spec s buf len (by omega)
    exact ⟨by rw [e2]; exact List.prefix_append _ _, 0, by rw [e1]; simp⟩

theorem write_name_continues (le : Bool) (s : Sock) (name : Option (List Nat)) :
    Continues s (write_name le s name).2 := by
  unfold write_name
  by_cases c : check_name name = FAILED
  · rw [if_pos c]
    exact Continues.self s
  · rw [if_neg c]
    dsimp only
    have h1 := Continues.of_sent (write_u16_sent le s (to_u16 (strlen (name.getD []))))
    by_cases c1 : (write_u16 le s (to_u16 (strlen (name.getD [])))).1 ≤ 0
    · rw [if_pos c1]
      exact h1
    · rw [if_neg c1]
      have h2 := write_all_continues (write_u16 le s (to_u16 (strlen (name.getD [])))).2
        (name.getD []) (to_u16 (strlen (name.getD [])))
      split_ifs <;> exact h1.next h2

theorem write_rpc_data_continues (le : Bool) (s : Sock) (data : Option rpc_data) :
    Continues s (write_rpc_data le s data).2 := by
  unfold write_rpc_data
  by_cases c : check_rpc_data data = FAILED
  · rw [if_pos c]
    exact Continues.self s
  · rw [if_neg c]
    cases data with
    | none => exact Continues.self s
    | some d =>
      dsimp only
      have h1 := Continues.of_sent (write_u64_sent le s (to_u64 d.data1))
      by_cases c1 : (write_u64 le s (to_u64 d.data1)).1 ≤ 0
      · rw [if_pos c1]
        exact Continues.snd _ h1
      · rw [if_neg c1]
        have h2 := h1.next (Continues.of_sent
          (write_u32_sent le (write_u64 le s (to_u64 d.data1)).2 (to_u32 d.data2_len)))
        by_cases c2 : (write_u32 le (write_u64 le s (to_u64 d.data1)).2
            (to_u32 d.data2_len)).1 ≤ 0
        · rw [if_pos c2]
          exact Continues.snd _ h2
        · rw [if_neg c2]
          by_cases c3 : d.data2_len > 0
          · rw [if_pos c3]
            have h3 := h2.next (write_all_continues
              (write_u32 le (write_u64 le s (to_u64 d.data1)).2 (to_u32 d.data2_len)).2
              (d.data2.getD []) (to_int d.data2_len))
            generalize write_all
              (write_u32 le (write_u64 le s (to_u64 d.data1)).2 (to_u32 d.data2_len)).2
              (d.data2.getD []) (to_int d.data2_len) = q at h3 ⊢
            by_cases c4 : q.1 ≤ 0
            · rw [if_pos c4]
              exact Continues.snd _ h3
            · rw [if_neg c4]
              exact Continues.snd _ h3
          · rw [if_neg c3]
            exact Continues.snd _ h2

theorem read_prefix_continues (le : Bool) (s : Sock) (p : Nat × Sock)
    (h : read_prefix le s = some p) : Continues s p.2 := by
  obtain ⟨r, hr⟩ := read_u32_defined le s
  rw [read_prefix_eq le s r hr] at h
  rw [← Option.some.inj h]
  exact Continues.of_frame (read_u32_frame le s r hr)

/-! ## The client keeps to one connection -/

/-- The client that `rpc_find` leaves: either the one it was given (invalid name), or the
client of `init_connection` with its socket continued; the number of connection attempts
is that of `init_connection`. -/
theorem rpc_find_frame (le : Bool) (c : rpc_client) (name : Option (List Nat))
    (conn : Option Sock) (malloc_ok : Bool) :
    rpc_find le (some c) name conn malloc_ok = some (none, some c, 0) ∨
    ∃ hd t, rpc_find le (some c) name conn malloc_ok =
        some (hd, some ⟨(init_connection c conn).2.1.addr, (init_connection c conn).2.1.port, t,
          (init_connection c conn).2.1.state⟩, (init_connection c conn).2.2) ∧
      Continues (init_connection c conn).2.1.sockfd t := by
  unfold rpc_find
  dsimp only
  by_cases hn : name.isNone ∨ check_name name = FAILED
  · left
    rw [if_pos hn]
  · right
    rw [if_neg hn]
    generalize init_connection c conn = ic
    have k1 := Continues.of_sent (write_prefix_sent le ic.2.1.sockfd FIND_REQ)
    generalize write_prefix le ic.2.1.sockfd FIND_REQ = n at k1 ⊢
    by_cases c1 : n.1 ≤ 0
    · rw [if_pos c1]
      exact ⟨_, _, rfl, k1⟩
    · rw [if_neg c1]
      have k2 := k1.next (write_name_continues le n.2 name)
      generalize write_name le n.2 name = n2 at k2 ⊢
      by_cases c2 : n2.1 ≤ 0
      · rw [if_pos c2]
        exact ⟨_, _, rfl, k2⟩
      · rw [if_neg c2]
        obtain ⟨p, hp⟩ := read_prefix_defined le n2.2
        have k3 := k2.next (read_prefix_continues le n2.2 p hp)
        rw [hp, Option.bind_eq_bind, Option.some_bind]
        by_cases c3 : to_int (p.1 : Int) = FAILURE_STAT
        · rw [if_pos c3]
          exact ⟨_, _, rfl, k3⟩
        · rw [if_neg c3]
          by_cases c4 : check_prefix (to_u32 (to_int (p.1 : Int))) = FAILED
          · rw [if_pos c4]
            exact ⟨_, _, rfl, k3⟩
          · rw [if_neg c4]
            obtain ⟨r, hr⟩ := read_u32_defined le p.2
            have k4 := k3.next (Continues.of_frame (read_u32_frame le p.2 r hr))
            rw [hr, Option.bind_eq_bind, Option.some_bind]
            by_cases c5 : r.1 ≤ 0
            · rw [if_pos c5]
              exact ⟨_, _, rfl, k4⟩
            · rw [if_neg c5]
              exact ⟨_, _, rfl, k4⟩

/-- A first `write` that reports an error or a closed stream: `write_prefix` returns
`FAILED` and nothing is written. -/
theorem write_prefix_first_fails (le : Bool) (s : Sock) (pfx r : Int) (rest : List Int)
    (hw : s.wr = r :: rest) (hr : r ≤ 0) :
    ( write_prefix le s pfx).1 = FAILED ∧ ( write_prefix le s pfx).2.out = s.out := by
  have h2 : ∀ buf : List Nat, (sys_write s buf 4).1 ≤ 0 ∧ (sys_write s buf 4).2.out = s.out := by
    intro buf
    by_cases c : r < 0
    · rw [sys_write_neg s buf 4 r rest hw c]
      exact ⟨show (-1 : Int) ≤ 0 by decide, rfl⟩
    · have e : r = 0 := by omega
      subst e
      rw [sys_write_nonneg s buf 4 0 rest hw c]
      refine ⟨show min (0 : Int) 4 ≤ 0 by decide, ?_⟩
      show s.out ++ buf.take (min (0 : Int) 4).toNat = s.out
      simp
  unfold write_prefix write_u32
  dsimp only
  have hl : ∀ buf : List Nat, write_all s buf U32_SIZE =
      (check_io_err (sys_write s (buf.drop (0 : Int).toNat) 4).1,
        (sys_write s (buf.drop (0 : Int).toNat) 4).2) := by
    intro buf
    unfold write_all
    exact write_all_loop_fail buf U32_SIZE _ s 0 4 (by decide) (h2 _).1
  rw [hl]
  generalize hq : sys_write s ((mem_of le 4 (htonl le (to_u32 pfx))).drop (0 : Int).toNat) 4 = q
  have h3 := h2 ((mem_of le 4 (htonl le (to_u32 pfx))).drop (0 : Int).toNat)
  rw [hq] at h3
  have h4 := check_io_err_nonpos q.1 h3.1
  rw [if_pos (by
    show check_io_err q.1 ≠ U32_SIZE
    intro e
    rw [e] at h4
    exact absurd h4 (by decide))]
  exact ⟨rfl, h3.2⟩

/-- The function `rpc_find` on a client that is not open, when `connect_to_server` fails:
the client keeps its state and its socket field is continued.  When the first `write` on
the descriptor found in that field fails (as on a descriptor that is not open), `NULL`
is returned and nothing was written. -/
theorem rpc_find_not_connected (le : Bool) (c : rpc_client) (name : Option (List Nat))
    (malloc_ok : Bool) (hs : c.state ≠ OPEN) :
    (∃ hd t k, rpc_find le (some c) name none malloc_ok =
        some (hd, some ⟨c.addr, c.port, t, c.state⟩, k) ∧ Continues c.sockfd t) ∧
    (∀ (r : Int) (rest : List Int), c.sockfd.wr = r :: rest → r ≤ 0 →
      ∃ t k, rpc_find le (some c) name none malloc_ok =
        some (none, some ⟨c.addr, c.port, t, c.state⟩, k) ∧ t.out = c.sockfd.out) := by
  constructor
  · rcases rpc_find_frame le c name none malloc_ok with e | ⟨hd, t, e, k⟩
    · exact ⟨none, c.sockfd, 0, e, Continues.self _⟩
    · rw [init_connection_failed c hs] at e k
      exact ⟨hd, t, 1, e, k⟩
  · intro r rest hw hr
    obtain ⟨f1, f2⟩ := write_prefix_first_fails le c.sockfd FIND_REQ r rest hw hr
    unfold rpc_find
    dsimp only
    by_cases hn : name.isNone ∨ check_name name = FAILED
    · rw [if_pos hn]
      exact ⟨c.sockfd, 0, rfl, rfl⟩
    · rw [if_neg hn, init_connection_failed c hs]
      dsimp only
      rw [if_pos (by rw [f1]; decide)]
      exact ⟨_, 1, rfl, f2⟩

/-- The function `check_ip` has no result when `inet_pton` accepts the address, and
returns `FAILED` otherwise: it never returns `SUCCESS`. -/
theorem check_ip_cases (addr : Option (List Nat)) (pton_ok : Bool) :
    check_ip addr pton_ok = none ∨ check_ip addr pton_ok = some FAILED := by
  unfold check_ip is_valid_ip
  cases addr with
  | none => exact Or.inr rfl
  | some a =>
    dsimp only
    by_cases h0 : a.getD 0 0 = 0
    · rw [if_pos h0]
      exact Or.inr rfl
    · rw [if_neg h0]
      cases pton_ok with
      | true => exact Or.inl rfl
      | false => exact Or.inr rfl

/-- No run of `rpc_init_client` with a defined result returns a client: an address that
`inet_pton` accepts makes `is_valid_ip` undefined, and any other address is rejected. -/
theorem rpc_init_client_no_client (addr : Option (List Nat)) (port : Int)
    (pton_ok malloc_ok : Bool) (junk : Sock) :
    rpc_init_client addr port pton_ok malloc_ok junk = none ∨
    rpc_init_client addr port pton_ok malloc_ok junk = some none := by
  unfold rpc_init_client
  cases addr with
  | none => exact Or.inr rfl
  | some a =>
    rw [if_neg (by simp)]
    rcases check_ip_cases (some a) pton_ok with h | h
    · rw [h]
      exact Or.inl rfl
    · rw [h, Option.bind_eq_bind, Option.some_bind, if_pos (Or.inl rfl)]
      exact Or.inr rfl

/-- C28, evaluated on a client in the state `CLOSED` whose field `sockfd` denotes a
descriptor that accepts writes, when the connection attempt of `rpc_find` fails:
`init_connection` returns `FAILED` and the client stays `CLOSED`, but `rpc_find` does
not look at that result: it writes the FIND prefix and the name `"add2"` on that
descriptor; with nothing to read there it returns `NULL`, and when the bytes of a
success answer can be read there it returns a handle. -/
theorem rpc_find_writes_without_connection :
    init_connection ⟨[58, 58, 49, 0], [51, 48, 48, 48, 0], ⟨[], [], [], []⟩, CLOSED⟩ none =
      (FAILED, ⟨[58, 58, 49, 0], [51, 48, 48, 48, 0], ⟨[], [], [], []⟩, CLOSED⟩, 1) ∧
    rpc_find true (some ⟨[58, 58, 49, 0], [51, 48, 48, 48, 0], ⟨[], [], [], []⟩, CLOSED⟩)
        (some [97, 100, 100, 50, 0]) none true =
      some (none, some ⟨[58, 58, 49, 0], [51, 48, 48, 48, 0],
        ⟨[], [0, 0, 0, 1, 0, 4, 97, 100, 100, 50], [], []⟩, CLOSED⟩, 1) ∧
    rpc_find true
        (some ⟨[58, 58, 49, 0], [51, 48, 48, 48, 0], ⟨[0, 0, 0, 2, 0, 0, 0, 7], [], [], []⟩,
          CLOSED⟩)
        (some [97, 100, 100, 50, 0]) none true =
      some (some ⟨7⟩, some ⟨[58, 58, 49, 0], [51, 48, 48, 48, 0],
        ⟨[], [0, 0, 0, 1, 0, 4, 97, 100, 100, 50], [], []⟩, CLOSED⟩, 1) ∧
    rpc_find false
        (some ⟨[58, 58, 49, 0], [51, 48, 48, 48, 0], ⟨[], [9], [], [-1]⟩, CLOSED⟩)
        (some [97, 100, 100, 50, 0]) none true =
      some (none, some ⟨[58, 58, 49, 0], [51, 48, 48, 48, 0], ⟨[], [9], [], []⟩, CLOSED⟩,
        1) := by
  refine ⟨by decide, by decide, by decide, by decide⟩

/-! ## Closing a client -/

/-- C29: closing a client.  On an open client `rpc_close_client` calls `write_prefix` with
`CLOSE_REQ`: a beginning of the bytes `00 00 00 03` is appended to the output, all of
them when no `write` fails.  Whatever that call returns, the socket it leaves is given
to `close` and the state is set to `CLOSED`.  On a closed client nothing is written and
no socket is closed. -/
theorem rpc_close_client_spec (le : Bool) (c : rpc_client) :
    (c.state = OPEN →
      rpc_close_client le (some c) =
        (some ⟨c.addr, c.port, ( write_prefix le c.sockfd CLOSE_REQ).2, CLOSED⟩,
          some ( write_prefix le c.sockfd CLOSE_REQ).2) ∧
      Sent c.sockfd [0, 0, 0, 3] 4 ( write_prefix le c.sockfd CLOSE_REQ)) ∧
    (c.state = CLOSED → rpc_close_client le (some c) = (some c, none)) := by
  constructor
  · intro h
    refine ⟨?_, write_prefix_sent le c.sockfd CLOSE_REQ⟩
    unfold rpc_close_client
    dsimp only
    rw [if_pos h]
  · intro h
    unfold rpc_close_client
    dsimp only
    rw [if_neg (by rw [h]; decide)]

theorem rpc_close_client_spec_witness :
    rpc_close_client true (some ⟨[], [], ⟨[9], [5], [], [2, -1]⟩, OPEN⟩) =
      (some ⟨[], [], ⟨[9], [5, 0, 0], [], []⟩, CLOSED⟩, some ⟨[9], [5, 0, 0], [], []⟩) ∧
    rpc_close_client true (some ⟨[], [], ⟨[9], [5], [], []⟩, OPEN⟩) =
      (some ⟨[], [], ⟨[9], [5, 0, 0, 0, 3], [], []⟩, CLOSED⟩, some ⟨[9], [5, 0, 0, 0, 3], [], []⟩) ∧
    rpc_close_client true (some ⟨[], [], ⟨[9], [5], [], []⟩, CLOSED⟩) =
      (some ⟨[], [], ⟨[9], [5], [], []⟩, CLOSED⟩, none) :=
  ⟨((rpc_close_client_spec true ⟨[], [], ⟨[9], [5], [], [2, -1]⟩, OPEN⟩).1 rfl).1.trans
     (by decide),
   by decide,
   (rpc_close_client_spec true ⟨[], [], ⟨[9], [5], [], []⟩, CLOSED⟩).2 rfl⟩

/-! ## The scenario of `server.c` and `client.c` -/

/-- C30: the add2 scenario.  On the server of `server.c`, where `"add2"` is registered
first with `add2_i8` and `"subtract2"` second, the FIND request for `"add2"` is answered
with the success status and the index 0, and the CALL request on the handle 0 with the
payload `{data1 = 5, data2 = [100]}` invokes `add2_i8` once on that payload and is
answered with the success status followed by the encoding of
`{data1 = 105, data2_len = 0, data2 absent}`; the client functions `rpc_find` and
`rpc_call` write exactly these requests and return the handle 0 and that payload. -/
theorem add2_scenario :
    (server_main 3).bind (fun srv => srv.functions.map (fun a => a.names)) =
      some [[97, 100, 100, 50], [115, 117, 98, 116, 114, 97, 99, 116, 50]] ∧
    (server_main 3).bind (fun srv =>
      (handle_request true 64 srv ⟨[0, 0, 0, 1, 0, 4, 97, 100, 100, 50], [], [], []⟩).map
        (fun r => (r.1, r.2.1, r.2.2.1))) =
      some (SUCCESS, ⟨[], [0, 0, 0, 2, 0, 0, 0, 0], [], []⟩, []) ∧
    add2_i8 ⟨5, 1, some [100]⟩ = some ⟨105, 0, none⟩ ∧
    (server_main 3).bind (fun srv =>
      (handle_request true 64 srv
        ⟨[0, 0, 0, 2, 0, 0, 0, 0, 0, 0, 0, 0, 0, 0, 0, 5, 0, 0, 0, 1, 100], [], [], []⟩).map
        (fun r => (r.1, r.2.1, r.2.2.1))) =
      some (SUCCESS, ⟨[], [0, 0, 0, 2, 0, 0, 0, 0, 0, 0, 0, 105, 0, 0, 0, 0], [], []⟩,
        [(0, ⟨5, 1, some [100]⟩)]) ∧
    rpc_find true (some ⟨[], [], ⟨[0, 0, 0, 2, 0, 0, 0, 0], [], [], []⟩, OPEN⟩)
        (some [97, 100, 100, 50, 0]) none true =
      some (some ⟨0⟩,
        some ⟨[], [], ⟨[], [0, 0, 0, 1, 0, 4, 97, 100, 100, 50], [], []⟩, OPEN⟩, 0) ∧
    rpc_call true 64
        (some ⟨[], [], ⟨[0, 0, 0, 2, 0, 0, 0, 0, 0, 0, 0, 105, 0, 0, 0, 0], [], [], []⟩,
          OPEN⟩)
        (some ⟨0⟩) (some ⟨5, 1, some [100]⟩) =
      some (some ⟨105, 0, none⟩,
        some ⟨[], [], ⟨[],
          [0, 0, 0, 2, 0, 0, 0, 0, 0, 0, 0, 0, 0, 0, 0, 5, 0, 0, 0, 1, 100], [], []⟩, OPEN⟩) := by
  refine ⟨by decide, by decide, by decide, by decide, by decide, by decide⟩

/-! ## The loop of the worker ends -/

theorem read_name_frame (le : Bool) (s : Sock) (r : Option (List Nat) × Sock)
    (h : read_name le s = some r) : ReadFrame s r.2 := by
  obtain ⟨q, hq⟩ := read_u16_defined le s
  have f1 := read_u16_frame le s q hq
  unfold read_name at h
  rw [hq, Option.bind_eq_bind, Option.some_bind] at h
  dsimp only at h
  by_cases c : q.1 ≤ 0
  · rw [if_pos c] at h
    rw [← Option.some.inj h]
    exact f1
  · rw [if_neg c] at h
    obtain ⟨q2, hq2, -⟩ := read_all_spec q.2.2 (q.2.1 : Int) (by omega)
    have f2 := f1.then (read_all_frame q.2.2 _ q2 hq2)
    rw [hq2, Option.bind_eq_bind, Option.some_bind] at h
    by_cases c2 : q2.1 ≤ 0
    · rw [if_pos c2] at h
      rw [← Option.some.inj h]
      exact f2
    · rw [if_neg c2] at h
      rw [← Option.some.inj h]
      exact f2

/-- The socket that `handle_find` leaves continues the one it was given. -/
theorem handle_find_continues (le : Bool) (srv : rpc_server) (s : Sock) (res : Int × Sock)
    (h : handle_find le srv s = some res) : Continues s res.2 := by
  obtain ⟨r, hr, hc⟩ := handle_find_cases le srv s res h
  have k0 := Continues.of_frame (read_name_frame le s r hr)
  have kf := k0.next (Continues.of_sent (write_prefix_sent le r.2 FAILURE_STAT))
  have ks := k0.next (Continues.of_sent (write_prefix_sent le r.2 SUCCESS_STAT))
  have ku := ks.next (Continues.of_sent (write_u32_sent le ( write_prefix le r.2 SUCCESS_STAT).2
    (to_u32 (search_array srv.functions r.1))))
  rcases hc with ⟨-, e⟩ | ⟨-, -, ⟨-, e⟩ | ⟨-, e⟩⟩ | ⟨-, -, ⟨-, e⟩ | ⟨-, -, e⟩ | ⟨-, -, e⟩⟩
  · rw [e]; exact k0
  · rw [e]; exact kf
  · rw [e]; exact kf
  · rw [e]; exact ks
  · rw [e]; exact ku
  · rw [e]; exact ku

/-- The socket that `handle_call` leaves continues the one it was given. -/
theorem handle_call_continues (le : Bool) (w : Nat) (srv : rpc_server) (s : Sock)
    (res : Int × Sock × List (Int × rpc_data)) (h : handle_call le w srv s = some res) :
    Continues s res.2.1 := by
  obtain ⟨r, hr, hc⟩ := handle_call_cases le w srv s res h
  have k0 := Continues.of_frame (read_u32_frame le s r hr)
  rcases hc with ⟨-, e⟩ | ⟨-, inp, hin, hc⟩
  · rw [e]; exact k0
  · have k1 := k0.next (Continues.of_frame (read_rpc_data_frame le w r.2.2 inp hin))
    have kf := k1.next (Continues.of_sent (write_prefix_sent le inp.2 FAILURE_STAT))
    have ks := k1.next (Continues.of_sent (write_prefix_sent le inp.2 SUCCESS_STAT))
    rcases hc with ⟨-, e⟩ | ⟨input, f, -, -, hc⟩
    · rw [e]; exact kf
    · have kd := ks.next (write_rpc_data_continues le ( write_prefix le inp.2 SUCCESS_STAT).2
        (f.handler input))
      rcases hc with ⟨-, e⟩ | ⟨-, -, e⟩ | ⟨-, -, -, e⟩ | ⟨-, -, -, e⟩
      · rw [e]; exact kf
      · rw [e]; exact ks
      · rw [e]; exact kd
      · rw [e]; exact kd

/-- A read of a `uint32_t` that returns a positive value took four bytes from the input. -/
theorem read_u32_pos (le : Bool) (s : Sock) (r : Int × Nat × Sock)
    (h : read_u32 le s = some r) (hp : 0 < r.1) :
    4 ≤ s.inp.length ∧ r.2.2.inp = s.inp.drop 4 := by
  obtain ⟨q, hq, -, -, -, -, -, hpos, -⟩ := read_all_spec s U32_SIZE (by decide)
  unfold read_u32 at h
  rw [hq, Option.bind_eq_bind, Option.some_bind] at h
  by_cases c : q.1 ≤ 0
  · rw [if_pos c] at h
    rw [← Option.some.inj h] at hp
    have := check_io_err_nonpos q.1 c
    exact absurd hp (by show ¬ 0 < check_io_err q.1; omega)
  · rw [if_neg c] at h
    rw [← Option.some.inj h]
    obtain ⟨-, h2, -, h4⟩ := hpos (by omega)
    exact ⟨h2, h4⟩

/-- A request with a positive result took at least the four bytes of its prefix from
the input. -/
theorem handle_request_consumes (le : Bool) (w : Nat) (srv : rpc_server) (s : Sock)
    (res : Int × Sock × List (Int × rpc_data) × rpc_server)
    (h : handle_request le w srv s = some res) (hp : 0 < res.1) :
    res.2.1.inp.length + 4 ≤ s.inp.length := by
  obtain ⟨r0, hr0, c0, hc⟩ := handle_request_pos le w srv s res h hp
  obtain ⟨l4, i4⟩ := read_u32_pos le s r0 hr0 c0
  have key : ∀ t : Sock, Continues r0.2.2 t → t.inp.length + 4 ≤ s.inp.length := by
    intro t k
    obtain ⟨j, e⟩ := k.2
    rw [e, i4, List.length_drop, List.length_drop]
    omega
  rcases hc with ⟨e, -⟩ | ⟨e, -⟩
  · rw [handle_request_find le w srv s r0 hr0 c0 e] at h
    obtain ⟨q, hq⟩ := handle_find_defined le srv r0.2.2
    rw [hq, Option.some_bind] at h
    rw [← Option.some.inj h]
    exact key _ (handle_find_continues le srv r0.2.2 q hq)
  · rw [handle_request_call le w srv s r0 hr0 c0 e] at h
    cases hq : handle_call le w srv r0.2.2 with
    | none => rw [hq, Option.none_bind] at h; exact absurd h (by simp)
    | some q =>
      rw [hq, Option.some_bind] at h
      rw [← Option.some.inj h]
      exact key _ (handle_call_continues le w srv r0.2.2 q hq)

/-- More requests than the input has bytes are never made: with such a bound the loop
of the worker ends with a non-positive result, and any two such bounds give the same
run. -/
theorem serve_loop_fuel (le : Bool) (w : Nat) (fuel : Nat) (srv : rpc_server) (s : Sock)
    (hf : s.inp.length < fuel) :
    serve_loop le w fuel srv s = serve_connection le w srv s ∧
    ∀ res, serve_loop le w fuel srv s = some res → res.1 ≤ 0 := by
  have key : ∀ (n : Nat) (s : Sock) (f1 f2 : Nat), s.inp.length ≤ n →
      s.inp.length < f1 → s.inp.length < f2 →
      serve_loop le w f1 srv s = serve_loop le w f2 srv s ∧
      ∀ res, serve_loop le w f1 srv s = some res → res.1 ≤ 0 := by
    intro n
    induction n with
    | zero =>
      intro s f1 f2 hn h1 h2
      obtain ⟨k1, rfl⟩ : ∃ k, f1 = k + 1 := ⟨f1 - 1, by omega⟩
      obtain ⟨k2, rfl⟩ : ∃ k, f2 = k + 1 := ⟨f2 - 1, by omega⟩
      cases hr : handle_request le w srv s with
      | none =>
        have e : ∀ k, serve_loop le w (k + 1) srv s = none := by
          intro k
          rw [serve_loop, hr]
          rfl
        rw [e k1, e k2]
        exact ⟨rfl, fun res h => absurd h (by simp)⟩
      | some r =>
        by_cases c : 0 < r.1
        · have := handle_request_consumes le w srv s r hr c
          omega
        · rw [serve_loop_stop le w k1 srv s r hr (by omega),
            serve_loop_stop le w k2 srv s r hr (by omega)]
          refine ⟨rfl, fun res h => ?_⟩
          rw [← Option.some.inj h]
          omega
    | succ n ih =>
      intro s f1 f2 hn h1 h2
      obtain ⟨k1, rfl⟩ : ∃ k, f1 = k + 1 := ⟨f1 - 1, by omega⟩
      obtain ⟨k2, rfl⟩ : ∃ k, f2 = k + 1 := ⟨f2 - 1, by omega⟩
      cases hr : handle_request le w srv s with
      | none =>
        have e : ∀ k, serve_loop le w (k + 1) srv s = none := by
          intro k
          rw [serve_loop, hr]
          rfl
        rw [e k1, e k2]
        exact ⟨rfl, fun res h => absurd h (by simp)⟩
      | some r =>
        by_cases c : 0 < r.1
        · have hc := handle_request_consumes le w srv s r hr c
          have hs := handle_request_srv le w srv s r hr
          rw [serve_loop_continue le w k1 srv s r hr c,
            serve_loop_continue le w k2 srv s r hr c, hs]
          obtain ⟨e, hle⟩ := ih r.2.1 k1 k2 (by omega) (by omega) (by omega)
          rw [e]
          refine ⟨rfl, fun res h => ?_⟩
          cases h2' : serve_loop le w k2 srv r.2.1 with
          | none => rw [h2', Option.none_bind] at h; exact absurd h (by simp)
          | some r2 =>
            rw [h2', Option.some_bind] at h
            rw [← Option.some.inj h]
            exact hle r2 (by rw [e, h2'])
        · rw [serve_loop_stop le w k1 srv s r hr (by omega),
            serve_loop_stop le w k2 srv s r hr (by omega)]
          refine ⟨rfl, fun res h => ?_⟩
          rw [← Option.some.inj h]
          omega
  exact key s.inp.length s fuel (s.inp.length + 1) (Nat.le_refl _) hf (Nat.lt_succ_self _)

/-! ## The subtract2 scenario -/

set_option maxRecDepth 8000 in
/-- C31: the subtract2 scenario.  On the server of `server.c`, where `"subtract2"` is
registered with `subtract_i8` (at index 1, after `"add2"`), the FIND request for
`"subtract2"` is answered with the index 1, and the CALL request on the handle 1 with
the payload `{data1 = 0, data2 = [100]}` invokes `subtract_i8` once on that payload and
is answered with the success status followed by the encoding of `-100` as a 64-bit
big-endian integer and a zero length; `rpc_call` on the client decodes this answer to
`{data1 = -100, data2_len = 0, data2 absent}`, for a field `data1` of 64 bits and also
of 32 bits, on a little-endian and on a big-endian host. -/
theorem subtract2_scenario :
    (server_main 3).bind (fun srv =>
      (handle_request true 64 srv
        ⟨[0, 0, 0, 1, 0, 9, 115, 117, 98, 116, 114, 97, 99, 116, 50], [], [], []⟩).map
        (fun r => (r.1, r.2.1, r.2.2.1))) =
      some (SUCCESS, ⟨[], [0, 0, 0, 2, 0, 0, 0, 1], [], []⟩, []) ∧
    subtract_i8 ⟨0, 1, some [100]⟩ = some ⟨-100, 0, none⟩ ∧
    (server_main 3).bind (fun srv =>
      (handle_request true 64 srv
        ⟨[0, 0, 0, 2, 0, 0, 0, 1, 0, 0, 0, 0, 0, 0, 0, 0, 0, 0, 0, 1, 100], [], [], []⟩).map
        (fun r => (r.1, r.2.1, r.2.2.1))) =
      some (SUCCESS,
        ⟨[], [0, 0, 0, 2, 255, 255, 255, 255, 255, 255, 255, 156, 0, 0, 0, 0], [], []⟩,
        [(1, ⟨0, 1, some [100]⟩)]) ∧
    (server_main 3).bind (fun srv =>
      (handle_request false 32 srv
        ⟨[0, 0, 0, 2, 0, 0, 0, 1, 0, 0, 0, 0, 0, 0, 0, 0, 0, 0, 0, 1, 100], [], [], []⟩).map
        (fun r => (r.1, r.2.1, r.2.2.1))) =
      some (SUCCESS,
        ⟨[], [0, 0, 0, 2, 255, 255, 255, 255, 255, 255, 255, 156, 0, 0, 0, 0], [], []⟩,
        [(1, ⟨0, 1, some [100]⟩)]) ∧
    rpc_call true 64
        (some ⟨[], [], ⟨[0, 0, 0, 2, 255, 255, 255, 255, 255, 255, 255, 156, 0, 0, 0, 0],
          [], [], []⟩, OPEN⟩)
        (some ⟨1⟩) (some ⟨0, 1, some [100]⟩) =
      some (some ⟨-100, 0, none⟩,
        some ⟨[], [], ⟨[],
          [0, 0, 0, 2, 0, 0, 0, 1, 0, 0, 0, 0, 0, 0, 0, 0, 0, 0, 0, 1, 100], [], []⟩, OPEN⟩) ∧
    rpc_call false 32
        (some ⟨[], [], ⟨[0, 0, 0, 2, 255, 255, 255, 255, 255, 255, 255, 156, 0, 0, 0, 0],
          [], [], []⟩, OPEN⟩)
        (some ⟨1⟩) (some ⟨0, 1, some [100]⟩) =
      some (some ⟨-100, 0, none⟩,
        some ⟨[], [], ⟨[],
          [0, 0, 0, 2, 0, 0, 0, 1, 0, 0, 0, 0, 0, 0, 0, 0, 0, 0, 0, 1, 100], [], []⟩, OPEN⟩) := by
  refine ⟨by decide, by decide, by decide, by decide, by decide, by decide⟩

/-! ## The outcome of `write_u32` -/

/-- C35, evaluated at a socket whose first `write` returns 0: `write_all` returns `EMPTY`,
`write_u16` and `write_u64` return `EMPTY`, but `write_u32` does not return the value of
`check_io_err` and falls through to the comparison with `U32_SIZE`: it returns
`FAILED`.  When the first `write` returns an error all three return `FAILED`, and when
the writes succeed they return 2, 4 and 8. -/
theorem write_u32_closed_is_failed :
    write_all ⟨[], [], [], [0]⟩ [0, 0, 0, 7] 4 = (EMPTY, ⟨[], [], [], []⟩) ∧
    write_u16 true ⟨[], [], [], [0]⟩ 7 = (EMPTY, ⟨[], [], [], []⟩) ∧
    write_u64 true ⟨[], [], [], [0]⟩ 7 = (EMPTY, ⟨[], [], [], []⟩) ∧
    write_u32 true ⟨[], [], [], [0]⟩ 7 = (FAILED, ⟨[], [], [], []⟩) ∧
    write_u32 false ⟨[], [], [], [2, 0]⟩ 7 = (FAILED, ⟨[], [0, 0], [], []⟩) ∧
    write_u16 true ⟨[], [], [], [-1]⟩ 7 = (FAILED, ⟨[], [], [], []⟩) ∧
    write_u32 true ⟨[], [], [], [-1]⟩ 7 = (FAILED, ⟨[], [], [], []⟩) ∧
    write_u64 true ⟨[], [], [], [-1]⟩ 7 = (FAILED, ⟨[], [], [], []⟩) ∧
    write_u16 true ⟨[], [], [], []⟩ 7 = (2, ⟨[], [0, 7], [], []⟩) ∧
    write_u32 true ⟨[], [], [], []⟩ 7 = (4, ⟨[], [0, 0, 0, 7], [], []⟩) ∧
    write_u64 true ⟨[], [], [], []⟩ 7 = (8, ⟨[], [0, 0, 0, 0, 0, 0, 0, 7], [], []⟩) := by
  refine ⟨by decide, by decide, by decide, by decide, by decide, by decide, by decide,
    by decide, by decide, by decide, by decide⟩

/-! ## The payloads that `read_rpc_data` returns -/

theorem ntohl_lt (le : Bool) (v : Nat) : ntohl le v < 4294967296 := by
  unfold ntohl mem_of
  have h : ∀ bs : List Nat, bs.length = 4 → (∀ b ∈ bs, b < 256) → of_be bs < 4294967296 := by
    intro bs hl hb
    have := of_be_lt bs hb
    rw [hl] at this
    exact this
  split_ifs
  · exact h _ (by rw [List.length_reverse, be_bytes_length])
      (fun b hb => be_bytes_lt 4 v b (List.mem_reverse.mp hb))
  · exact h _ (be_bytes_length 4 v) (be_bytes_lt 4 v)

/-- A `uint32_t` that `read_u32` read in full is below `2^32`, whatever the stream holds. -/
theorem read_u32_lt (le : Bool) (s : Sock) (r : Int × Nat × Sock)
    (h : read_u32 le s = some r) (hp : ¬ r.1 ≤ 0) : r.2.1 < 4294967296 := by
  obtain ⟨q, hq, -⟩ := read_all_spec s U32_SIZE (by decide)
  unfold read_u32 at h
  rw [hq, Option.bind_eq_bind, Option.some_bind] at h
  by_cases c : q.1 ≤ 0
  · rw [if_pos c] at h
    rw [← Option.some.inj h] at hp
    exact absurd (check_io_err_nonpos q.1 c) hp
  · rw [if_neg c] at h
    rw [← Option.some.inj h]
    exact ntohl_lt le _

/-- C37: every payload that `read_rpc_data` returns is valid.  For every socket (every
input byte stream and every behaviour of the reads), if `read_rpc_data` returns a
payload then `check_rpc_data` accepts it: its `data2_len` is below `2^32`, its `data2`
is absent exactly when `data2_len` is 0, and a buffer that is present holds exactly
`data2_len` bytes. -/
theorem read_rpc_data_returns_valid (le : Bool) (w : Nat) (s : Sock) (d : rpc_data) (t : Sock)
    (h : read_rpc_data le w s = some (some d, t)) :
    check_rpc_data (some d) = SUCCESS ∧ valid_data d ∧ d.data2_len < 4294967296 ∧
    (d.data2 = none ↔ d.data2_len = 0) ∧
    (∀ bs, d.data2 = some bs → bs.length = d.data2_len) := by
  have fst : ∀ (x y : Option rpc_data × Sock), some x = some y → x.1 = y.1 ∧ x.2 = y.2 := by
    intro x y e
    rw [Option.some.inj e]
    exact ⟨rfl, rfl⟩
  obtain ⟨r, hr⟩ := read_u64_defined le s
  unfold read_rpc_data at h
  rw [hr, Option.bind_eq_bind, Option.some_bind] at h
  dsimp only at h
  by_cases c : r.1 ≤ 0
  · rw [if_pos c] at h
    exact absurd (fst _ _ h).1 (by simp)
  · rw [if_neg c] at h
    obtain ⟨r2, hr2⟩ := read_u32_defined le r.2.2
    rw [hr2, Option.bind_eq_bind, Option.some_bind] at h
    by_cases c2 : r2.1 ≤ 0
    · rw [if_pos c2] at h
      exact absurd (fst _ _ h).1 (by simp)
    · rw [if_neg c2] at h
      have hlt := read_u32_lt le r.2.2 r2 hr2 c2
      by_cases c3 : r2.2.1 > 0
      · rw [if_pos c3] at h
        rcases to_int_u32 r2.2.1 hlt with ⟨-, hti⟩ | ⟨-, hneg⟩
        · obtain ⟨q, hq, -, -, -, hlen, -⟩ := read_all_spec r2.2.2 (to_int (r2.2.1 : Int))
            (by rw [hti]; omega)
          rw [hq, Option.some_bind] at h
          by_cases c4 : q.1 ≤ 0
          · rw [if_pos c4] at h
            exact absurd (fst _ _ h).1 (by simp)
          · rw [if_neg c4] at h
            by_cases c5 : check_rpc_data (some ⟨to_signed w r.2.1, r2.2.1, some q.2.1⟩) = FAILED
            · rw [if_pos c5] at h
              exact absurd (fst _ _ h).1 (by simp)
            · rw [if_neg c5] at h
              have e : (⟨to_signed w r.2.1, r2.2.1, some q.2.1⟩ : rpc_data) = d :=
                Option.some.inj (fst _ _ h).1
              subst e
              have hv := valid_of_check_rpc_data _ c5
              refine ⟨(check_rpc_data_success_iff _).mpr hv, hv, hlt, hv.2, ?_⟩
              intro bs hbs
              have e2 : q.2.1 = bs := Option.some.inj hbs
              rw [← e2, hlen, hti]
              exact Int.toNat_ofNat _
        · rw [read_all_neg _ _ hneg, Option.none_bind] at h
          exact absurd h (by simp)
      · rw [if_neg c3] at h
        by_cases c5 : check_rpc_data (some ⟨to_signed w r.2.1, r2.2.1, none⟩) = FAILED
        · rw [if_pos c5] at h
          exact absurd (fst _ _ h).1 (by simp)
        · rw [if_neg c5] at h
          have e : (⟨to_signed w r.2.1, r2.2.1, none⟩ : rpc_data) = d :=
            Option.some.inj (fst _ _ h).1
          subst e
          have hv := valid_of_check_rpc_data _ c5
          refine ⟨(check_rpc_data_success_iff _).mpr hv, hv, hlt, hv.2, ?_⟩
          intro bs hbs
          exact absurd hbs (by simp)

theorem read_rpc_data_returns_valid_witness :
    read_rpc_data true 64 ⟨[0, 0, 0, 0, 0, 0, 0, 5, 0, 0, 0, 2, 300, 7, 9], [], [3, 9, 1], []⟩ =
      some (some ⟨5, 2, some [300, 7]⟩, ⟨[9], [], [], []⟩) ∧
    check_rpc_data (some ⟨5, 2, some [300, 7]⟩) = SUCCESS :=
  ⟨by decide,
   (read_rpc_data_returns_valid true 64
      ⟨[0, 0, 0, 0, 0, 0, 0, 5, 0, 0, 0, 2, 300, 7, 9], [], [3, 9, 1], []⟩
      ⟨5, 2, some [300, 7]⟩ ⟨[9], [], [], []⟩ (by decide)).1⟩

/-! ## Full reads and writes over a transport that splits the data -/

/-- C34: full reads and writes over a chunking transport.  For every `len > 0` and every
script of positive sizes for the partial reads, when the stream holds at least `len`
bytes `read_all` returns `len`, its buffer holds exactly the first `len` bytes of the
stream in order, and exactly these bytes are consumed.  For every script of positive
sizes for the partial writes `write_all` returns `len` and has appended exactly the
first `len` bytes of the buffer to the output.  Both loops end within `len` iterations:
the bound `len + 1` of the model is never reached, a larger bound gives the same run. -/
theorem full_transfer_over_chunks (len : Int) (hlen : 0 < len) :
    (∀ s : Sock, (∀ x ∈ s.rd, 0 < x) → len.toNat ≤ s.inp.length →
      ∃ t, read_all s len = some (len, s.inp.take len.toNat, t) ∧
        t.inp = s.inp.drop len.toNat ∧ t.out = s.out ∧ t.wr = s.wr ∧
        ∀ extra, read_all_loop len (len.toNat + 1 + extra) s [] 0 len =
          read_all_loop len (len.toNat + 1) s [] 0 len) ∧
    (∀ (s : Sock) (buf : List Nat), (∀ x ∈ s.wr, 0 < x) →
      (write_all s buf len).1 = len ∧
      (write_all s buf len).2.out = s.out ++ buf.take len.toNat ∧
      (write_all s buf len).2.inp = s.inp ∧ (write_all s buf len).2.rd = s.rd ∧
      ∀ extra, write_all_loop buf len (len.toNat + 1 + extra) s 0 len = write_all s buf len) := by
  constructor
  · intro s hrd hin
    obtain ⟨r, e, h1, h2, -, -, -, hpos, hall⟩ := read_all_spec s len (by omega)
    have hr := hall hrd hin
    obtain ⟨-, -, h5, h6⟩ := hpos (by omega)
    refine ⟨r.2.2, ?_, h6, h1, h2, fun extra => read_all_fuel s len (by omega) extra⟩
    rw [e]
    exact congrArg some (Prod.ext hr (Prod.ext h5 rfl))
  · intro s buf hwr
    obtain ⟨h1, h2, -, -, hpos, hall⟩ := write_all_spec s buf len (by omega)
    have hr := hall hwr
    exact ⟨hr, (hpos (by omega)).2, h1, h2, fun extra => write_all_fuel s buf len (by omega) extra⟩

theorem full_transfer_over_chunks_witness :
    read_all ⟨[1, 2, 3, 4, 5, 6, 7], [], [2, 1, 9], []⟩ 5 =
      some (5, [1, 2, 3, 4, 5], ⟨[6, 7], [], [], []⟩) ∧
    (write_all ⟨[], [9], [], [1, 3, 1, 8]⟩ [1, 2, 3, 4, 5, 6, 7] 5).1 = 5 ∧
    write_all ⟨[], [9], [], [1, 3, 1, 8]⟩ [1, 2, 3, 4, 5, 6, 7] 5 =
      (5, ⟨[], [9, 1, 2, 3, 4, 5], [], [8]⟩) :=
  ⟨by decide,
   ((full_transfer_over_chunks 5 (by decide)).2 ⟨[], [9], [], [1, 3, 1, 8]⟩
      [1, 2, 3, 4, 5, 6, 7] (by decide)).1,
   by decide⟩

/-! ## Closed stream and transport error when reading -/

theorem read_all_calls_fail (len : Int) (fuel : Nat) (s : Sock) (total left : Int)
    (h1 : total < len) (h2 : (sys_read s left).1 ≤ 0) :
    read_all_calls len (fuel + 1) s total left = [(sys_read s left).1] := by
  rw [read_all_calls, if_pos h1]
  dsimp only
  rw [if_pos h2]

theorem read_all_calls_step (len : Int) (fuel : Nat) (s : Sock) (total left : Int)
    (h1 : total < len) (h2 : ¬ (sys_read s left).1 ≤ 0) :
    read_all_calls len (fuel + 1) s total left =
      (sys_read s left).1 :: read_all_calls len fuel (sys_read s left).2.2
        (total + (sys_read s left).1) (left - (sys_read s left).1) := by
  rw [read_all_calls, if_pos h1]
  dsimp only
  rw [if_neg h2]

theorem read_all_calls_done (len : Int) (fuel : Nat) (s : Sock) (left : Int) :
    read_all_calls len (fuel + 1) s len left = [] := by
  rw [read_all_calls, if_neg (lt_irrefl len)]

/-- The result of the loop of `read_all`, from the values its calls of `read` return: all
of them but the last are positive; when the last one is not positive the result is its
`check_io_err`, else the result is `len` and the values add up to the bytes requested. -/
theorem read_all_calls_spec (len : Int) :
    ∀ (fuel : Nat) (s : Sock) (acc : List Nat) (t l : Nat), (t : Int) + l = len → l < fuel →
      0 < l →
      ∃ pre last, read_all_calls len fuel s t l = pre ++ [last] ∧ (∀ x ∈ pre, 0 < x) ∧
        (last ≤ 0 → (read_all_loop len fuel s acc t l).1 = check_io_err last) ∧
        (0 < last → (read_all_loop len fuel s acc t l).1 = len ∧ pre.sum + last = l) := by
  intro fuel
  induction fuel with
  | zero => intro s acc t l _ hf; omega
  | succ fuel ih =>
    intro s acc t l hsum hf hl0
    have hlt : (t : Int) < len := by omega
    have hl : 0 < (l : Int) := by omega
    obtain ⟨w1, -⟩ := sys_read_spec s l hl
    by_cases hn : (sys_read s l).1 ≤ 0
    · rw [read_all_loop_fail len fuel s acc t l hlt hn, read_all_calls_fail len fuel s t l hlt hn]
      exact ⟨[], _, rfl, fun x hx => absurd hx (by simp), fun _ => rfl, fun h => by omega⟩
    · rw [read_all_loop_step len fuel s acc t l hlt hn, read_all_calls_step len fuel s t l hlt hn]
      obtain ⟨m, hm⟩ : ∃ m : Nat, (sys_read s l).1 = (m : Int) :=
        ⟨(sys_read s l).1.toNat, by omega⟩
      have hm0 : 0 < m := by omega
      have hml : m ≤ l := by omega
      have e1 : (t : Int) + (sys_read s l).1 = ((t + m : Nat) : Int) := by
        rw [hm]; push_cast; ring
      have e2 : (l : Int) - (sys_read s l).1 = ((l - m : Nat) : Int) := by
        rw [hm]; omega
      rw [e1, e2]
      by_cases hz : l - m = 0
      · obtain ⟨k, hk⟩ : ∃ k, fuel = k + 1 := ⟨fuel - 1, by omega⟩
        have ht : ((t + m : Nat) : Int) = len := by omega
        rw [hz, hk, ht, read_all_loop_done, read_all_calls_done]
        refine ⟨[], _, rfl, fun x hx => absurd hx (by simp), fun h => by omega, fun _ => ?_⟩
        exact ⟨rfl, by simp only [List.sum_nil]; omega⟩
      · obtain ⟨pre, last, c1, c2, c3, c4⟩ :=
          ih (sys_read s l).2.2 (acc ++ (sys_read s l).2.1) (t + m) (l - m) (by omega) (by omega)
            (by omega)
        refine ⟨(sys_read s l).1 :: pre, last, by rw [c1]; rfl, ?_, c3, fun h => ?_⟩
        · intro x hx
          rcases List.mem_cons.mp hx with e | e
          · rw [e]; omega
          · exact c2 x e
        · obtain ⟨d1, d2⟩ := c4 h
          refine ⟨d1, ?_⟩
          rw [List.sum_cons]
          omega

/-- The three outcomes of `read_all` for a positive length, from the values its calls of
`read` return: the last call decides. -/
theorem read_all_outcome (s : Sock) (len : Int) (hlen : 0 < len) :
    ∃ r pre last, read_all s len = some r ∧
      read_all_calls len (len.toNat + 1) s 0 len = pre ++ [last] ∧ (∀ x ∈ pre, 0 < x) ∧
      (last = 0 → r.1 = EMPTY) ∧ (last < 0 → r.1 = FAILED) ∧
      (0 < last → r.1 = len ∧ pre.sum + last = len) := by
  obtain ⟨l, rfl⟩ : ∃ l : Nat, len = (l : Int) := ⟨len.toNat, by omega⟩
  obtain ⟨pre, last, c1, c2, c3, c4⟩ :=
    read_all_calls_spec (l : Int) (l + 1) s [] 0 l (by simp) (by omega) (by omega)
  have hneg : ¬ ((l : Int) < 0) := by omega
  simp only [Nat.cast_zero] at c1 c3 c4
  refine ⟨((read_all_loop (l : Int) (l + 1) s [] 0 l).1,
      (read_all_loop (l : Int) (l + 1) s [] 0 l).2.1 ++
        List.replicate (l - (read_all_loop (l : Int) (l + 1) s [] 0 l).2.1.length) 0,
      (read_all_loop (l : Int) (l + 1) s [] 0 l).2.2), pre, last, ?_, ?_, c2, ?_, ?_, c4⟩
  · simp [read_all, hneg]
  · simpa using c1
  · intro h
    show (read_all_loop (l : Int) (l + 1) s [] 0 l).1 = EMPTY
    rw [c3 (by omega), h]
    rfl
  · intro h
    show (read_all_loop (l : Int) (l + 1) s [] 0 l).1 = FAILED
    rw [c3 (by omega)]
    unfold check_io_err
    rw [if_neg (by omega), if_pos h]

/-- A result of `read_all` that is not positive is `EMPTY` or `FAILED`, which
`check_io_err` leaves as they are. -/
theorem read_all_nonpos (s : Sock) (len : Int) (hlen : 0 < len) (r : Int × List Nat × Sock)
    (h : read_all s len = some r) (c : r.1 ≤ 0) : check_io_err r.1 = r.1 := by
  obtain ⟨r2, pre, last, e, -, -, c3, c4, c5⟩ := read_all_outcome s len hlen
  rw [h] at e
  cases Option.some.inj e
  rcases lt_trichotomy last 0 with k | k | k
  · rw [c4 k]; rfl
  · rw [c3 k]; rfl
  · have := (c5 k).1
    omega

/-- The outcome of `read_all` for a positive length. -/
theorem read_all_read_outcome (s : Sock) (len : Int) (hlen : 0 < len) :
    ∃ r, read_all s len = some r ∧ ReadOutcome s len r.1 := by
  obtain ⟨r, pre, last, e, c1, c2, c3, c4, c5⟩ := read_all_outcome s len hlen
  refine ⟨r, e, pre, last, c1, c2, c3, c4, c5, fun h => ?_⟩
  rcases lt_trichotomy last 0 with k | k | k
  · rw [c4 k] at h; exact absurd h (by decide)
  · rw [c3 k] at h; exact absurd h (by decide)
  · exact k

/-- The outcome of `read_u16` is that of reading 2 bytes. -/
theorem read_u16_outcome (le : Bool) (s : Sock) :
    ∃ q, read_u16 le s = some q ∧ ReadOutcome s U16_SIZE q.1 := by
  obtain ⟨r, hr, ho⟩ := read_all_read_outcome s U16_SIZE (by decide)
  unfold read_u16
  rw [hr, Option.bind_eq_bind, Option.some_bind]
  by_cases c : r.1 ≤ 0
  · rw [if_pos c]
    refine ⟨_, rfl, ?_⟩
    show ReadOutcome s U16_SIZE (check_io_err r.1)
    rw [read_all_nonpos s U16_SIZE (by decide) r hr c]
    exact ho
  · rw [if_neg c]
    exact ⟨_, rfl, ho⟩

/-- The outcome of `read_u32` is that of reading 4 bytes. -/
theorem read_u32_outcome (le : Bool) (s : Sock) :
    ∃ q, read_u32 le s = some q ∧ ReadOutcome s U32_SIZE q.1 := by
  obtain ⟨r, hr, ho⟩ := read_all_read_outcome s U32_SIZE (by decide)
  unfold read_u32
  rw [hr, Option.bind_eq_bind, Option.some_bind]
  by_cases c : r.1 ≤ 0
  · rw [if_pos c]
    refine ⟨_, rfl, ?_⟩
    show ReadOutcome s U32_SIZE (check_io_err r.1)
    rw [read_all_nonpos s U32_SIZE (by decide) r hr c]
    exact ho
  · rw [if_neg c]
    exact ⟨_, rfl, ho⟩

/-- The outcome of `read_u64` is that of reading 8 bytes. -/
theorem read_u64_outcome (le : Bool) (s : Sock) :
    ∃ q, read_u64 le s = some q ∧ ReadOutcome s U64_SIZE q.1 := by
  obtain ⟨r, hr, ho⟩ := read_all_read_outcome s U64_SIZE (by decide)
  unfold read_u64
  rw [hr, Option.bind_eq_bind, Option.some_bind]
  by_cases c : r.1 ≤ 0
  · rw [if_pos c]
    refine ⟨_, rfl, ?_⟩
    show ReadOutcome s U64_SIZE (check_io_err r.1)
    rw [read_all_nonpos s U64_SIZE (by decide) r hr c]
    exact ho
  · rw [if_neg c]
    exact ⟨_, rfl, ho⟩

/-- C32: closed is told apart from error when decoding.  For a positive length `read_all`
returns a result, decided by the values its calls of `read` return: `EMPTY` (0) when a
call returns 0 before the requested count is filled, `FAILED` (-1) when a call returns a
negative value, and the requested count only when every call returned a positive count
and the counts add up to it, the bytes returned being then the next `len` bytes of the
stream; `read_u16`, `read_u32` and `read_u64` have the same three outcomes for 2, 4 and 8
bytes, on either byte order of the host. -/
theorem read_tells_closed_from_error (s : Sock) (len : Int) (hlen : 0 < len) :
    (∃ r, read_all s len = some r ∧ ReadOutcome s len r.1 ∧
      (0 < r.1 → len.toNat ≤ s.inp.length ∧ r.2.1 = s.inp.take len.toNat ∧
        r.2.2.inp = s.inp.drop len.toNat)) ∧
    (∀ le, ∃ q, read_u16 le s = some q ∧ ReadOutcome s 2 q.1) ∧
    (∀ le, ∃ q, read_u32 le s = some q ∧ ReadOutcome s 4 q.1) ∧
    (∀ le, ∃ q, read_u64 le s = some q ∧ ReadOutcome s 8 q.1) ∧
    EMPTY = 0 ∧ FAILED = -1 := by
  refine ⟨?_, fun le => read_u16_outcome le s, fun le => read_u32_outcome le s,
    fun le => read_u64_outcome le s, rfl, rfl⟩
  obtain ⟨r, hr, ho⟩ := read_all_read_outcome s len hlen
  obtain ⟨r2, hr2, -, -, -, -, -, hpos, -⟩ := read_all_spec s len (le_of_lt hlen)
  rw [hr] at hr2
  cases Option.some.inj hr2
  exact ⟨r, hr, ho, fun h => (hpos h).2⟩

/-- Instance of C32: of 4 bytes requested, 2 arrive and the stream is then closed, fails,
or delivers the rest. -/
theorem read_tells_closed_from_error_witness :
    (0 : Int) < 4 ∧
    ((∃ r, read_all ⟨[1, 2, 3, 4, 5], [], [2, 0], []⟩ 4 = some r ∧
        ReadOutcome ⟨[1, 2, 3, 4, 5], [], [2, 0], []⟩ 4 r.1 ∧
        (0 < r.1 → (4 : Int).toNat ≤ [1, 2, 3, 4, 5].length ∧
          r.2.1 = [1, 2, 3, 4, 5].take (4 : Int).toNat ∧
          r.2.2.inp = [1, 2, 3, 4, 5].drop (4 : Int).toNat)) ∧
      (∀ le, ∃ q, read_u16 le ⟨[1, 2, 3, 4, 5], [], [2, 0], []⟩ = some q ∧
        ReadOutcome ⟨[1, 2, 3, 4, 5], [], [2, 0], []⟩ 2 q.1) ∧
      (∀ le, ∃ q, read_u32 le ⟨[1, 2, 3, 4, 5], [], [2, 0], []⟩ = some q ∧
        ReadOutcome ⟨[1, 2, 3, 4, 5], [], [2, 0], []⟩ 4 q.1) ∧
      (∀ le, ∃ q, read_u64 le ⟨[1, 2, 3, 4, 5], [], [2, 0], []⟩ = some q ∧
        ReadOutcome ⟨[1, 2, 3, 4, 5], [], [2, 0], []⟩ 8 q.1) ∧
      EMPTY = 0 ∧ FAILED = -1) ∧
    read_all_calls 4 5 ⟨[1, 2, 3, 4, 5], [], [2, 0], []⟩ 0 4 = [2, 0] ∧
    read_all ⟨[1, 2, 3, 4, 5], [], [2, 0], []⟩ 4 =
      some (0, [1, 2, 0, 0], ⟨[3, 4, 5], [], [], []⟩) ∧
    (read_u32 false ⟨[1, 2, 3, 4, 5], [], [2, 0], []⟩).map (fun q => q.1) = some 0 ∧
    read_all_calls 4 5 ⟨[1, 2, 3, 4, 5], [], [2, -1], []⟩ 0 4 = [2, -1] ∧
    read_all ⟨[1, 2, 3, 4, 5], [], [2, -1], []⟩ 4 =
      some (-1, [1, 2, 0, 0], ⟨[3, 4, 5], [], [], []⟩) ∧
    (read_u32 false ⟨[1, 2, 3, 4, 5], [], [2, -1], []⟩).map (fun q => q.1) = some (-1) ∧
    read_all_calls 4 5 ⟨[1, 2, 3, 4, 5], [], [2, 1, 7], []⟩ 0 4 = [2, 1, 1] ∧
    read_all ⟨[1, 2, 3, 4, 5], [], [2, 1, 7], []⟩ 4 =
      some (4, [1, 2, 3, 4], ⟨[5], [], [], []⟩) ∧
    (read_u32 false ⟨[1, 2, 3, 4, 5], [], [2, 1, 7], []⟩).map (fun q => q.1) = some 4 :=
  ⟨by decide, read_tells_closed_from_error ⟨[1, 2, 3, 4, 5], [], [2, 0], []⟩ 4 (by decide),
    by decide, by decide, by decide, by decide, by decide, by decide, by decide, by decide,
    by decide⟩

/-! ## The handler behind a name -/

/-- One registration, in terms of the stored handlers: an entry of the new registry named
as the call, when the call succeeded, holds the handler of the call; any other entry was
in the registry before; and at most one entry is added. -/
theorem rpc_register_handlers (sv : rpc_server) (arr : array_t) (hf : sv.functions = some arr)
    (hcmp : arr.cmp = cmp_func_name) (hnd : arr.names.Nodup) (name : Option (List Nat))
    (handler : Option rpc_handler) (m r : Bool) :
    ∃ arr', (rpc_register (some sv) name handler m r).2 =
        some ⟨sv.listening_sd, some arr'⟩ ∧ arr'.A.length ≤ arr.A.length + 1 ∧
      ∀ f' ∈ arr'.A,
        ((rpc_register (some sv) name handler m r).1 = SUCCESS ∧
            cstr (name.getD []) = cstr f'.name → handler = some f'.handler) ∧
        (¬ ((rpc_register (some sv) name handler m r).1 = SUCCESS ∧
            cstr (name.getD []) = cstr f'.name) → f' ∈ arr.A) := by
  have heta := rpc_server_eta sv arr hf
  have hfail : ∀ h : rpc_register (some sv) name handler m r = (FAILED, some sv),
      ∃ arr', (rpc_register (some sv) name handler m r).2 =
        some ⟨sv.listening_sd, some arr'⟩ ∧ arr'.A.length ≤ arr.A.length + 1 ∧
      ∀ f' ∈ arr'.A,
        ((rpc_register (some sv) name handler m r).1 = SUCCESS ∧
            cstr (name.getD []) = cstr f'.name → handler = some f'.handler) ∧
        (¬ ((rpc_register (some sv) name handler m r).1 = SUCCESS ∧
            cstr (name.getD []) = cstr f'.name) → f' ∈ arr.A) := by
    intro h
    refine ⟨arr, ?_, Nat.le_succ _, fun f' hm => ⟨fun hc => ?_, fun _ => hm⟩⟩
    · rw [h]
      show some sv = _
      rw [← heta]
    · rw [h] at hc
      exact absurd hc.1 (show ¬ (FAILED = SUCCESS) by decide)
  cases name with
  | none => exact hfail (rpc_register_rejects _ _ _ _ _ (Or.inr (Or.inl rfl)))
  | some p =>
    cases handler with
    | none => exact hfail (rpc_register_rejects _ _ _ _ _ (Or.inr (Or.inr (Or.inl rfl))))
    | some h =>
      rcases check_name_cases (some p) with hc | hc
      · rcases search_array_cases arr p hcmp with ⟨-, h2⟩ | ⟨k, f, h1, h2, h3, -⟩
        · have hnew := rpc_register_new sv arr hf hcmp p h hc h2 m r
          by_cases hok : m = true ∧ (arr.n < arr.capacity ∨ r = true)
          · rw [if_pos hok] at hnew
            refine ⟨⟨arr.A ++ [⟨strdup p, h⟩],
                if arr.n < arr.capacity then arr.capacity else arr.capacity * 2, arr.cmp⟩,
              by rw [hnew], by simp, fun f' hm => ?_⟩
            rcases List.mem_append.mp hm with hm | hm
            · refine ⟨fun hcond => ?_, fun _ => hm⟩
              exact absurd hcond.2.symm (h2 f' hm)
            · rw [List.mem_singleton] at hm
              subst hm
              exact ⟨fun _ => rfl, fun hcond =>
                absurd ⟨by rw [hnew], (cstr_strdup p).symm⟩ hcond⟩
          · rw [if_neg hok] at hnew
            exact hfail hnew
        · have hrep := rpc_register_replace sv arr hf hcmp p h k f hc h1 h2 h3 m r
          have hlt := getElem?_lt_length arr.A k f h1
          refine ⟨⟨arr.A.set k ⟨f.name, h⟩, arr.capacity, arr.cmp⟩, by rw [hrep],
            by simp, fun f' hm => ?_⟩
          obtain ⟨j, hj⟩ := List.mem_iff_getElem?.mp hm
          by_cases hjk : k = j
          · subst hjk
            rw [List.getElem?_set_self hlt] at hj
            cases Option.some.inj hj
            exact ⟨fun _ => rfl, fun hcond => absurd ⟨by rw [hrep], h2.symm⟩ hcond⟩
          · rw [List.getElem?_set_ne hjk] at hj
            refine ⟨fun hcond => ?_, fun _ => List.getElem?_mem hj⟩
            exfalso
            have hjl := getElem?_lt_length arr.A j f' hj
            have e1 : arr.names[k]? = some (cstr p) := by
              rw [names_getElem?, h1]; simp [h2]
            have e2 : arr.names[j]? = some (cstr p) := by
              rw [names_getElem?, hj]; simp [← hcond.2]
            rcases Nat.lt_or_gt_of_ne hjk with hlt2 | hlt2
            · exact (List.nodup_iff_getElem?_ne_getElem?.mp hnd) k j hlt2
                (by rw [names_length]; exact hjl) (by rw [e1, e2])
            · exact (List.nodup_iff_getElem?_ne_getElem?.mp hnd) j k hlt2
                (by rw [names_length]; exact hlt) (by rw [e1, e2])
      · exact hfail (rpc_register_rejects _ _ _ _ _ (Or.inr (Or.inr (Or.inr hc))))

/-- The handlers stored after a sequence of `rpc_register` calls: when `cur` is the
handler of the entry named `n` of the starting registry, if there is one, the entry
named `n` of the final registry holds the handler of the last successful call for `n`,
or `cur` when there is no such call; and each call adds at most one entry. -/
theorem rpc_register_seq_handlers (n : List Nat) :
    ∀ (calls : List reg_call) (sv : rpc_server) (arr : array_t) (cur : Option rpc_handler),
    sv.functions = some arr → arr.cmp = cmp_func_name → arr.names.Nodup →
    (∀ f ∈ arr.A, cstr f.name = n → cur = some f.handler) →
    ∃ arr', rpc_register_seq (some sv) calls = some ⟨sv.listening_sd, some arr'⟩ ∧
      arr'.A.length ≤ arr.A.length + calls.length ∧
      ∀ f ∈ arr'.A, cstr f.name = n →
        last_registered (some sv) calls n cur = some f.handler := by
  intro calls
  induction calls with
  | nil =>
    intro sv arr cur hf hcmp hnd hcur
    refine ⟨arr, ?_, Nat.le_refl _, hcur⟩
    show some sv = _
    rw [← rpc_server_eta sv arr hf]
  | cons c cs ih =>
    intro sv arr cur hf hcmp hnd hcur
    obtain ⟨arr1, e1, hlen1, hh⟩ :=
      rpc_register_handlers sv arr hf hcmp hnd c.name c.handler c.malloc_ok c.realloc_ok
    obtain ⟨arr2, e2, hcmp1, hnd1, -⟩ := rpc_register_seq_spec [c] sv arr hf hcmp hnd
    have e3 : rpc_register_seq (some sv) [c] =
        (rpc_register (some sv) c.name c.handler c.malloc_ok c.realloc_ok).2 := rfl
    rw [e3, e1] at e2
    have e4 : arr1 = arr2 := by
      have := Option.some.inj e2
      injection this with _ h2
      exact Option.some.inj h2
    subst e4
    obtain ⟨arr', i1, i2, i3⟩ :=
      ih ⟨sv.listening_sd, some arr1⟩ arr1
        (if (rpc_register (some sv) c.name c.handler c.malloc_ok c.realloc_ok).1 = SUCCESS ∧
          cstr (c.name.getD []) = n then c.handler else cur) rfl hcmp1 hnd1
        (by
          intro f hm hn
          by_cases hcond : (rpc_register (some sv) c.name c.handler c.malloc_ok
              c.realloc_ok).1 = SUCCESS ∧ cstr (c.name.getD []) = n
          · rw [if_pos hcond]
            exact (hh f hm).1 ⟨hcond.1, by rw [hn]; exact hcond.2⟩
          · rw [if_neg hcond]
            exact hcur f ((hh f hm).2 (by rw [hn]; exact hcond)) hn)
    refine ⟨arr', ?_, ?_, ?_⟩
    · simp only [rpc_register_seq, e1]
      exact i1
    · simp only [List.length_cons]
      omega
    · intro f hm hn
      have := i3 f hm hn
      simp only [last_registered, e1]
      exact this
theorem mem_first_occurrences (n : List Nat) :
    ∀ (xs acc : List (List Nat)), n ∈ first_occurrences acc xs ↔ n ∈ acc ∨ n ∈ xs := by
  intro xs
  induction xs with
  | nil => intro acc; simp [first_occurrences]
  | cons x xs ih =>
    intro acc
    show n ∈ first_occurrences (if x ∈ acc then acc else acc ++ [x]) xs ↔ _
    rw [ih]
    by_cases hx : x ∈ acc
    · rw [if_pos hx, List.mem_cons]
      constructor
      · rintro (h | h)
        · exact Or.inl h
        · exact Or.inr (Or.inr h)
      · rintro (h | h | h)
        · exact Or.inl h
        · exact Or.inl (h ▸ hx)
        · exact Or.inr h
    · rw [if_neg hx, List.mem_append, List.mem_singleton, List.mem_cons, or_assoc]

theorem names_nodup_inj (arr : array_t) (hnd : arr.names.Nodup) (i j : Nat) (f g : rpc_func)
    (hi : arr.A[i]? = some f) (hj : arr.A[j]? = some g) (he : cstr f.name = cstr g.name) :
    i = j := by
  have hil := getElem?_lt_length arr.A i f hi
  have hjl := getElem?_lt_length arr.A j g hj
  have e1 : arr.names[i]? = some (cstr f.name) := by rw [names_getElem?, hi]; rfl
  have e2 : arr.names[j]? = some (cstr f.name) := by rw [names_getElem?, hj, he]; rfl
  by_contra hne
  rcases Nat.lt_or_gt_of_ne hne with hlt | hlt
  · exact (List.nodup_iff_getElem?_ne_getElem?.mp hnd) i j hlt
      (by rw [names_length]; exact hjl) (by rw [e1, e2])
  · exact (List.nodup_iff_getElem?_ne_getElem?.mp hnd) j i hlt
      (by rw [names_length]; exact hil) (by rw [e1, e2])

/-- C36: find then call reaches the right function.  Take any sequence of `rpc_register`
calls from the empty registry of `rpc_init_server` (names being byte buffers, fewer than
`2^31` calls) and any name `n` registered by it.  There is an index `i` and an entry `f`
such that: `search_array` finds `n` at `i`, and `handle_find`, on a FIND request for `n`,
answers the success status followed by `i`; the index sent, read back as the `int`
handle of a CALL, is resolved by `get_elem_at` to `f`, whose name is `n` and whose
handler is the one passed by the last successful registration of `n`; and
`handle_call`, on a CALL request carrying `i` and a payload, on a worker holding the
same registry, invokes the entry `i` once and answers with the encoding of what that
handler returns. -/
theorem find_then_call_reaches_handler (sd : Int) (calls : List reg_call)
    (hp : ∀ c ∈ calls, ∀ b ∈ c.name.getD [], b < 256) (hcalls : calls.length ≤ 2147483647) :
    ∃ arr, rpc_register_seq (some ⟨sd, init_functions⟩) calls = some ⟨sd, some arr⟩ ∧
      ∀ n ∈ registered_names (some ⟨sd, init_functions⟩) calls,
        ∃ (i : Nat) (f : rpc_func),
          search_array (some arr) (some n) = (i : Int) ∧
          (∀ (le : Bool) (s : Sock) (rest : List Nat),
            s.inp = be_bytes 2 n.length ++ n ++ rest →
            (∀ x ∈ s.rd, 0 < x) → (∀ x ∈ s.wr, 0 < x) →
            ∃ t, handle_find le ⟨sd, some arr⟩ s = some (SUCCESS, t) ∧
              t.out = s.out ++ ([0, 0, 0, 2] ++ be_bytes 4 i) ∧ t.inp = rest) ∧
          get_elem_at (some arr) (to_int (to_u32 (search_array (some arr) (some n)))) =
            some f ∧
          cstr f.name = n ∧
          last_registered (some ⟨sd, init_functions⟩) calls n none = some f.handler ∧
          (∀ (le : Bool) (w : Nat) (s : Sock) (P R : rpc_data) (rest : List Nat),
            valid_data P → P.data2_len < 2147483648 →
            (∀ bs, P.data2 = some bs → bs.length = P.data2_len) →
            1 ≤ w → w ≤ 64 → -(2 ^ (w - 1)) ≤ P.data1 → P.data1 < 2 ^ (w - 1) →
            f.handler P = some R → valid_data R → R.data2_len < 2147483648 →
            s.inp = be_bytes 4 i ++ wire_rpc_data P ++ rest →
            (∀ x ∈ s.rd, 0 < x) → (∀ x ∈ s.wr, 0 < x) →
            ∃ t, handle_call le w ⟨sd, some arr⟩ s = some (SUCCESS, t, [((i : Int), P)]) ∧
              t.out = s.out ++ ([0, 0, 0, 2] ++ wire_rpc_data R) ∧ t.inp = rest) := by
  obtain ⟨arr, a1, a2, a3, -, a5, a6⟩ :=
    rpc_register_seq_spec calls ⟨sd, init_functions⟩ ⟨[], INIT_SIZE, cmp_func_name⟩ rfl rfl
      List.nodup_nil
  refine ⟨arr, a1, fun n hn => ?_⟩
  obtain ⟨arr2, b1, b2, b3⟩ :=
    rpc_register_seq_handlers n calls ⟨sd, init_functions⟩ ⟨[], INIT_SIZE, cmp_func_name⟩ none
      rfl rfl List.nodup_nil (fun f hm => absurd hm (List.not_mem_nil _))
  rw [a1] at b1
  have e : arr = arr2 := by
    have := Option.some.inj b1
    injection this with _ h2
    exact Option.some.inj h2
  subst e
  have hmem : n ∈ arr.names := by
    rw [a5, mem_first_occurrences]
    exact Or.inr hn
  have hv : valid_name n := a6 hp (fun m hm => absurd hm (List.not_mem_nil _)) n hmem
  obtain ⟨f, hfm, hname⟩ := (mem_names arr n).mp hmem
  obtain ⟨i, hi⟩ := List.mem_iff_getElem?.mp hfm
  have hil := getElem?_lt_length arr.A i f hi
  have hlenA : arr.A.length ≤ 2147483647 := by
    have : ([] : List rpc_func).length = 0 := rfl
    simp only [List.length_nil] at b2
    omega
  have hcs : cstr n = n := valid_name_cstr_self n hv
  have hs : search_array (some arr) (some n) = (i : Int) :=
    search_array_nodup arr n a2 a3 i (by rw [names_getElem?, hi, hcs, ← hname]; rfl)
  have hfirst : ∀ j, j < i → ∀ g, arr.A[j]? = some g → cstr g.name ≠ n := by
    intro j hj g hg hc
    have := names_nodup_inj arr a3 j i g f hg hi (by rw [hc, hname])
    omega
  refine ⟨i, f, hs, ?_, ?_, hname, b3 f hfm hname, ?_⟩
  · intro le s rest hin hrd hwr
    obtain ⟨t, t1, t2, t3, -⟩ :=
      (handle_find_response le ⟨sd, some arr⟩ arr s n rest rfl a2 hlenA hv hin hrd hwr).2
        i f hi hname hfirst
    exact ⟨t, t1, t2, t3⟩
  · rw [hs, to_u32_of_le i (by omega), to_int_of_lt i (by omega), get_elem_at_in arr i hil]
    exact hi
  · intro le w s P R rest hv hPlen hbuf h1 h64 hlo hhi hres hRv hRlen hin hrd hwr
    exact handle_call_ok le w ⟨sd, some arr⟩ arr s i f P R rest rfl hlenA hi hv hPlen hbuf
      h1 h64 hlo hhi hres hRv hRlen hin hrd hwr

set_option maxRecDepth 8000 in
/-- Instance of C36: `"a"` is registered with `add2_i8`, `"b"` with `subtract_i8`, and
`"a"` again with `subtract_i8`; the FIND of `"a"` answers the index 0, and the CALL on the
handle 0 with `{data1 = 5, data2 = [100]}` is answered with `5 - 100`. -/
theorem find_then_call_reaches_handler_witness :
    (∀ c ∈ sample_calls, ∀ b ∈ c.name.getD [], b < 256) ∧
    sample_calls.length ≤ 2147483647 ∧
    (∃ arr, rpc_register_seq (some ⟨3, init_functions⟩) sample_calls = some ⟨3, some arr⟩ ∧
      ∀ n ∈ registered_names (some ⟨3, init_functions⟩) sample_calls,
        ∃ (i : Nat) (f : rpc_func),
          search_array (some arr) (some n) = (i : Int) ∧
          (∀ (le : Bool) (s : Sock) (rest : List Nat),
            s.inp = be_bytes 2 n.length ++ n ++ rest →
            (∀ x ∈ s.rd, 0 < x) → (∀ x ∈ s.wr, 0 < x) →
            ∃ t, handle_find le ⟨3, some arr⟩ s = some (SUCCESS, t) ∧
              t.out = s.out ++ ([0, 0, 0, 2] ++ be_bytes 4 i) ∧ t.inp = rest) ∧
          get_elem_at (some arr) (to_int (to_u32 (search_array (some arr) (some n)))) =
            some f ∧
          cstr f.name = n ∧
          last_registered (some ⟨3, init_functions⟩) sample_calls n none = some f.handler ∧
          (∀ (le : Bool) (w : Nat) (s : Sock) (P R : rpc_data) (rest : List Nat),
            valid_data P → P.data2_len < 2147483648 →
            (∀ bs, P.data2 = some bs → bs.length = P.data2_len) →
            1 ≤ w → w ≤ 64 → -(2 ^ (w - 1)) ≤ P.data1 → P.data1 < 2 ^ (w - 1) →
            f.handler P = some R → valid_data R → R.data2_len < 2147483648 →
            s.inp = be_bytes 4 i ++ wire_rpc_data P ++ rest →
            (∀ x ∈ s.rd, 0 < x) → (∀ x ∈ s.wr, 0 < x) →
            ∃ t, handle_call le w ⟨3, some arr⟩ s = some (SUCCESS, t, [((i : Int), P)]) ∧
              t.out = s.out ++ ([0, 0, 0, 2] ++ wire_rpc_data R) ∧ t.inp = rest)) ∧
    registered_names (some ⟨3, init_functions⟩) sample_calls = [[97], [98], [97]] ∧
    (last_registered (some ⟨3, init_functions⟩) sample_calls [97] none).map
        (fun h => h ⟨5, 1, some [100]⟩) = some (some ⟨-95, 0, none⟩) ∧
    (last_registered (some ⟨3, init_functions⟩) (sample_calls.take 1) [97] none).map
        (fun h => h ⟨5, 1, some [100]⟩) = some (some ⟨105, 0, none⟩) ∧
    (rpc_register_seq (some ⟨3, init_functions⟩) sample_calls).bind
        (fun srv => handle_find true srv ⟨[0, 1, 97], [], [], []⟩) =
      some (SUCCESS, ⟨[], [0, 0, 0, 2, 0, 0, 0, 0], [], []⟩) ∧
    (rpc_register_seq (some ⟨3, init_functions⟩) sample_calls).bind
        (fun srv => handle_call true 64 srv
          ⟨[0, 0, 0, 0, 0, 0, 0, 0, 0, 0, 0, 5, 0, 0, 0, 1, 100], [], [], []⟩) =
      some (SUCCESS,
        ⟨[], [0, 0, 0, 2, 255, 255, 255, 255, 255, 255, 255, 161, 0, 0, 0, 0], [], []⟩,
        [(0, ⟨5, 1, some [100]⟩)]) :=
  ⟨by decide, by decide, find_then_call_reaches_handler 3 sample_calls (by decide) (by decide),
    by decide, by decide, by decide, by decide, by decide⟩

end RPC
